import Mathlib

/-!
# Smart_ptrs: reference-counted handles (`shared.h`, `weak.h`)

A shallow embedding of the control block, `SharedPtr`, `WeakPtr` and
`EnableSharedFromThis`.

* Addresses are natural numbers; a pointer is an `Option` (`none` is `nullptr`).
  A control block is identified by a natural number, in order of allocation.
* `size_t` counters are naturals reduced modulo `SIZE = 2 ^ 64` at every write.
* Objects live in stores indexed by their address, so a method receives the
  addresses of `this` and of its arguments and aliasing (`a = std::move(a)`)
  is the same code path as in the source.
* Handles are modelled at the payload's own type: whether
  `is_convertible_v<T*, ESFTBase*>` holds is recorded once, in the block, and
  the payload's embedded `weak_this_` is the weak object at address
  `WAddr.weakThis b`.  Payload destructors do nothing beyond destroying that
  embedded member.
* `destroyed` and `deleted` are ghost counters: how often `Destroy()` was
  invoked on a block and how often `delete this` ran.
-/

namespace SmartPtrs

/-- One past the largest `size_t`. -/
def SIZE : Nat := 2 ^ 64

/-- A payload address, `none` being `nullptr`. -/
abbrev Ptr := Option Nat

/-- The two derived control blocks with their data member. -/
inductive Storage where
  /-- `ControlBlockPointer<T>` with its `ptr_`. -/
  | pointer (ptr_ : Ptr)
  /-- `ControlBlockElement<T>` with the address of its `buffer_`. -/
  | element (buffer_ : Nat)
  deriving DecidableEq, Repr

/-- The fields of `ControlBlockBase` together with the derived part. -/
structure ControlBlockBase where
  count_ : Nat
  count_weak_ : Nat
  storage : Storage
  /-- Whether the payload type derives from `EnableSharedFromThis`. -/
  esft : Bool
  /-- Ghost: number of `Destroy()` invocations. -/
  destroyed : Nat
  /-- Ghost: number of times `delete this` ran. -/
  deleted : Nat
  deriving DecidableEq, Repr

/-- The fields of `SharedPtr<T>`. -/
structure SharedPtr where
  ptr_ : Ptr
  block_ : Option Nat
  deriving DecidableEq, Repr

/-- The field of `WeakPtr<T>`. -/
structure WeakPtr where
  block_ : Option Nat
  deriving DecidableEq, Repr

/-- Where a `WeakPtr` object lives: a handle variable, or the `weak_this_`
member of the payload owned by a block. -/
inductive WAddr where
  | var (i : Nat)
  | weakThis (b : Nat)
  deriving DecidableEq, Repr

/-- The exception thrown by `SharedPtr(const WeakPtr<T>&)`. -/
inductive BadWeakPtr where
  | mk
  deriving DecidableEq, Repr

/-- Memory: the heap of control blocks and the two object stores.  An entry
`none` of a store means that no live object is at that address.  Handle
variables have addresses below `nS` (shared) and `nW` (weak); address `nS` of
the shared store is where temporaries are materialised. -/
structure State where
  heap : Nat → ControlBlockBase
  next : Nat
  sh : Nat → Option SharedPtr
  wk : WAddr → Option WeakPtr
  nS : Nat
  nW : Nat

/-- Contents of the shared handle at address `i`. -/
def State.S (s : State) (i : Nat) : SharedPtr := (s.sh i).getD ⟨none, none⟩

/-- Contents of the weak handle at address `a`. -/
def State.W (s : State) (a : WAddr) : WeakPtr := (s.wk a).getD ⟨none⟩

/-- Write the fields of the shared handle at `i` (it is live afterwards). -/
def State.setS (s : State) (i : Nat) (v : SharedPtr) : State :=
  { s with sh := Function.update s.sh i (some v) }

/-- End of lifetime of the shared handle at `i`. -/
def State.killS (s : State) (i : Nat) : State :=
  { s with sh := Function.update s.sh i none }

/-- Write the field of the weak handle at `a` (it is live afterwards). -/
def State.setW (s : State) (a : WAddr) (v : WeakPtr) : State :=
  { s with wk := Function.update s.wk a (some v) }

/-- End of lifetime of the weak handle at `a`. -/
def State.killW (s : State) (a : WAddr) : State :=
  { s with wk := Function.update s.wk a none }

/-- Update the control block `b` in place. -/
def State.modBlock (s : State) (b : Nat)
    (f : ControlBlockBase → ControlBlockBase) : State :=
  { s with heap := Function.update s.heap b (f (s.heap b)) }

/-! ## `ControlBlockBase` -/

/-- `ControlBlockBase() : count_(1)`, `count_weak_ = 0`. -/
def ControlBlockBase.fresh (st : Storage) (esft : Bool) : ControlBlockBase :=
  { count_ := 1, count_weak_ := 0, storage := st, esft := esft, destroyed := 0, deleted := 0 }

/-- `new ControlBlockPointer<U>(ptr)` / `new ControlBlockElement<T>(args...)`:
the block gets the next identity.  A payload deriving from
`EnableSharedFromThis` carries a default-constructed (null) `weak_this_`. -/
def ControlBlockBase.create (st : Storage) (esft : Bool) (s : State) : State :=
  let b := s.next
  let s := { s with heap := Function.update s.heap b (ControlBlockBase.fresh st esft), next := b + 1 }
  if esft then s.setW (.weakThis b) ⟨none⟩ else s

/-- `delete this`. -/
def ControlBlockBase.deleteThis (this : Nat) (s : State) : State :=
  s.modBlock this fun c => { c with deleted := c.deleted + 1 }

/-- `Increment()`: `++count_`. -/
def ControlBlockBase.Increment (this : Nat) (s : State) : State :=
  s.modBlock this fun c => { c with count_ := (c.count_ + 1) % SIZE }

/-- `IncrementWeak()`: `++count_weak_`. -/
def ControlBlockBase.IncrementWeak (this : Nat) (s : State) : State :=
  s.modBlock this fun c => { c with count_weak_ := (c.count_weak_ + 1) % SIZE }

/-- `DecrementWeak()`: `--count_weak_; if (count_ + count_weak_ == 0) delete this;`. -/
def ControlBlockBase.DecrementWeak (this : Nat) (s : State) : State :=
  let s := s.modBlock this fun c => { c with count_weak_ := (c.count_weak_ + SIZE - 1) % SIZE }
  if ((s.heap this).count_ + (s.heap this).count_weak_) % SIZE = 0 then
    ControlBlockBase.deleteThis this s
  else s

/-- `Decrement()`, for a given implementation of the virtual `Destroy()`:
`--count_; if (count_ == 0) { ++count_weak_; Destroy(); --count_weak_; }
if (count_ + count_weak_ == 0) delete this;`. -/
def ControlBlockBase.Decrement (Destroy : Nat → State → State)
    (this : Nat) (s : State) : State :=
  let s := s.modBlock this fun c => { c with count_ := (c.count_ + SIZE - 1) % SIZE }
  let s :=
    if (s.heap this).count_ = 0 then
      let s := s.modBlock this fun c => { c with count_weak_ := (c.count_weak_ + 1) % SIZE }
      let s := Destroy this (s.modBlock this fun c => { c with destroyed := c.destroyed + 1 })
      s.modBlock this fun c => { c with count_weak_ := (c.count_weak_ + SIZE - 1) % SIZE }
    else s
  if ((s.heap this).count_ + (s.heap this).count_weak_) % SIZE = 0 then
    ControlBlockBase.deleteThis this s
  else s

/-- `GetCount()`. -/
def ControlBlockBase.GetCount (this : Nat) (s : State) : Nat := (s.heap this).count_

/-- `GetCountWeak()`. -/
def ControlBlockBase.GetCountWeak (this : Nat) (s : State) : Nat := (s.heap this).count_weak_

/-- The two overrides of `Get()`: `return ptr_;` for a `ControlBlockPointer`,
`return buffer_;` for a `ControlBlockElement`. -/
def Storage.Get : Storage → Ptr
  | .pointer ptr_ => ptr_
  | .element buffer_ => some buffer_

/-- The virtual call `Get()` on the block `this`. -/
def ControlBlockBase.Get (this : Nat) (s : State) : Ptr := (s.heap this).storage.Get

/-! ## `WeakPtr` -/

/-- `WeakPtr()`. -/
def WeakPtr.ctorDefault (this : WAddr) (s : State) : State := s.setW this ⟨none⟩

/-- `WeakPtr(const WeakPtr& other)`. -/
def WeakPtr.copyCtor (this other : WAddr) (s : State) : State :=
  let blk := (s.W other).block_
  let s := match blk with
    | some b => ControlBlockBase.IncrementWeak b s
    | none => s
  s.setW this ⟨blk⟩

/-- `MakeNull()`. -/
def WeakPtr.MakeNull (this : WAddr) (s : State) : State := s.setW this ⟨none⟩

/-- `WeakPtr(WeakPtr&& other)`. -/
def WeakPtr.moveCtor (this other : WAddr) (s : State) : State :=
  let s := s.setW this ⟨(s.W other).block_⟩
  WeakPtr.MakeNull other s

/-- `WeakPtr(const SharedPtr<T>& other)`. -/
def WeakPtr.fromShared (this : WAddr) (other : Nat) (s : State) : State :=
  let blk := (s.S other).block_
  let s := match blk with
    | some b => ControlBlockBase.IncrementWeak b s
    | none => s
  s.setW this ⟨blk⟩

/-- `Reset()`. -/
def WeakPtr.Reset (this : WAddr) (s : State) : State :=
  let s := match (s.W this).block_ with
    | some b => ControlBlockBase.DecrementWeak b s
    | none => s
  WeakPtr.MakeNull this s

/-- `operator=(const SharedPtr<U>& other)`. -/
def WeakPtr.assignShared (this : WAddr) (other : Nat) (s : State) : State :=
  let s := WeakPtr.Reset this s
  let blk := (s.S other).block_
  let s := s.setW this ⟨blk⟩
  match blk with
  | some b => ControlBlockBase.IncrementWeak b s
  | none => s

/-- `operator=(const WeakPtr& other)`. -/
def WeakPtr.copyAssign (this other : WAddr) (s : State) : State :=
  let s := match (s.W other).block_ with
    | some b => ControlBlockBase.IncrementWeak b s
    | none => s
  let s := match (s.W this).block_ with
    | some b => ControlBlockBase.DecrementWeak b s
    | none => s
  s.setW this ⟨(s.W other).block_⟩

/-- `operator=(WeakPtr&& other)`. -/
def WeakPtr.moveAssign (this other : WAddr) (s : State) : State :=
  let s := match (s.W this).block_ with
    | some b => if (s.W this).block_ ≠ (s.W other).block_ then ControlBlockBase.DecrementWeak b s else s
    | none => s
  let s := s.setW this ⟨(s.W other).block_⟩
  WeakPtr.MakeNull other s

/-- `~WeakPtr()`; the object is dead afterwards. -/
def WeakPtr.dtor (this : WAddr) (s : State) : State :=
  let s := match (s.W this).block_ with
    | none => s
    | some b => ControlBlockBase.DecrementWeak b s
  s.killW this

/-- `Swap(WeakPtr& other)`. -/
def WeakPtr.Swap (this other : WAddr) (s : State) : State :=
  let a := s.W this
  let b := s.W other
  (s.setW this b).setW other a

/-- `GetBlock()`. -/
def WeakPtr.GetBlock (this : WAddr) (s : State) : Option Nat := (s.W this).block_

/-- `UseCount()`. -/
def WeakPtr.UseCount (this : WAddr) (s : State) : Nat :=
  match (s.W this).block_ with
  | none => 0
  | some b => ControlBlockBase.GetCount b s

/-- `Expired()`. -/
def WeakPtr.Expired (this : WAddr) (s : State) : Bool := WeakPtr.UseCount this s == 0

/-! ## `Destroy()` -/

/-- The payload destructor `~T()`: it destroys the embedded `weak_this_` when
`T` derives from `EnableSharedFromThis<T>`. -/
def payloadDtor (b : Nat) (s : State) : State :=
  if (s.heap b).esft then WeakPtr.dtor (.weakThis b) s else s

/-- The virtual `Destroy()`.  `ControlBlockPointer`: `delete ptr_; ptr_ = nullptr;`
(deleting a null pointer does nothing).  `ControlBlockElement`: `place->~T();`. -/
def Destroy (this : Nat) (s : State) : State :=
  match (s.heap this).storage with
  | .pointer p =>
    let s := if p.isSome then payloadDtor this s else s
    s.modBlock this fun c => { c with storage := .pointer none }
  | .element _ => payloadDtor this s

/-! ## `SharedPtr` -/

/-- `SharedPtr()`. -/
def SharedPtr.ctorDefault (this : Nat) (s : State) : State := s.setS this ⟨none, none⟩

/-- `InitWeakThis(e)`: `e->GetWeak() = *this;` where `e` is the payload of block `owner`. -/
def SharedPtr.InitWeakThis (this : Nat) (owner : Nat) (s : State) : State :=
  WeakPtr.assignShared (.weakThis owner) this s

/-- `SharedPtr(U* ptr)`. -/
def SharedPtr.ctorPtr (this : Nat) (ptr : Ptr) (esft : Bool) (s : State) : State :=
  let b := s.next
  let s := ControlBlockBase.create (.pointer ptr) esft s
  let s := s.setS this ⟨ptr, some b⟩
  if esft then SharedPtr.InitWeakThis this b s else s

/-- `SharedPtr(const SharedPtr& other)` and its converting form. -/
def SharedPtr.copyCtor (this other : Nat) (s : State) : State :=
  let blk := (s.S other).block_
  let s := match blk with
    | some b => ControlBlockBase.Increment b s
    | none => s
  s.setS this ⟨(s.S other).ptr_, blk⟩

/-- `MakeNull()`. -/
def SharedPtr.MakeNull (this : Nat) (s : State) : State := s.setS this ⟨none, none⟩

/-- `SharedPtr(SharedPtr&& other)` and its converting form. -/
def SharedPtr.moveCtor (this other : Nat) (s : State) : State :=
  let s := s.setS this ⟨(s.S other).ptr_, (s.S other).block_⟩
  SharedPtr.MakeNull other s

/-- `SharedPtr(ControlBlockBase* block)`. -/
def SharedPtr.ctorBlock (this : Nat) (block : Nat) (s : State) : State :=
  s.setS this ⟨ControlBlockBase.Get block s, some block⟩

/-- `SharedPtr(ControlBlockBase* block, T* ptr)`; `ptr` points to the payload of `block`. -/
def SharedPtr.ctorBlockPtr (this : Nat) (block : Nat) (ptr : Ptr) (s : State) : State :=
  let s := s.setS this ⟨ptr, some block⟩
  if (s.heap block).esft then SharedPtr.InitWeakThis this block s else s

/-- `SharedPtr(const SharedPtr<Y>& other, T* ptr)`, the aliasing constructor. -/
def SharedPtr.aliasCtor (this other : Nat) (ptr : Ptr) (s : State) : State :=
  let blk := (s.S other).block_
  let s := match blk with
    | some b => ControlBlockBase.Increment b s
    | none => s
  s.setS this ⟨ptr, blk⟩

/-- `SharedPtr(const WeakPtr<T>& other)`.  After the throwing test the source
re-tests `block_ == nullptr`, a branch that cannot be taken. -/
def SharedPtr.fromWeak (this : Nat) (other : WAddr) (s : State) : Except BadWeakPtr State :=
  match (s.W other).block_ with
  | none => .error .mk
  | some b =>
    if ControlBlockBase.GetCount b s = 0 then .error .mk
    else
      let s := s.setS this ⟨ControlBlockBase.Get b s, some b⟩
      .ok (ControlBlockBase.Increment b s)

/-- `operator=(const SharedPtr& other)`. -/
def SharedPtr.copyAssign (this other : Nat) (s : State) : State :=
  let s := match (s.S other).block_ with
    | some b => ControlBlockBase.Increment b s
    | none => s
  let s := match (s.S this).block_ with
    | some b => ControlBlockBase.Decrement Destroy b s
    | none => s
  s.setS this ⟨(s.S other).ptr_, (s.S other).block_⟩

/-- `Reset()`. -/
def SharedPtr.Reset (this : Nat) (s : State) : State :=
  let s := match (s.S this).block_ with
    | some b => ControlBlockBase.Decrement Destroy b s
    | none => s
  s.setS this ⟨none, none⟩

/-- `Swap(SharedPtr& other)`. -/
def SharedPtr.Swap (this other : Nat) (s : State) : State :=
  let a := s.S this
  let b := s.S other
  (s.setS this b).setS other a

/-- `operator=(SharedPtr&& other)`: `Reset(); this->Swap(other);`. -/
def SharedPtr.moveAssign (this other : Nat) (s : State) : State :=
  SharedPtr.Swap this other (SharedPtr.Reset this s)

/-- `~SharedPtr()`; the object is dead afterwards. -/
def SharedPtr.dtor (this : Nat) (s : State) : State :=
  let s := match (s.S this).block_ with
    | none => s
    | some _ => SharedPtr.Reset this s
  s.killS this

/-- `Reset(U* ptr)`: `*this = SharedPtr(ptr);` with the temporary at address `nS`. -/
def SharedPtr.ResetPtr (this : Nat) (ptr : Ptr) (esft : Bool) (s : State) : State :=
  let tmp := s.nS
  let s := SharedPtr.ctorPtr tmp ptr esft s
  let s := SharedPtr.moveAssign this tmp s
  SharedPtr.dtor tmp s

/-- `Get()`. -/
def SharedPtr.Get (this : Nat) (s : State) : Ptr := (s.S this).ptr_

/-- `GetBlock()`. -/
def SharedPtr.GetBlock (this : Nat) (s : State) : Option Nat := (s.S this).block_

/-- `UseCount()`. -/
def SharedPtr.UseCount (this : Nat) (s : State) : Nat :=
  match (s.S this).block_ with
  | none => 0
  | some b => ControlBlockBase.GetCount b s

/-- `explicit operator bool()`. -/
def SharedPtr.toBool (this : Nat) (s : State) : Bool := (s.S this).block_.isSome

/-- `operator==(const SharedPtr<T>&, const SharedPtr<U>&)`. -/
def SharedPtr.eq (left right : Nat) (s : State) : Bool :=
  decide ((s.S left).block_ = (s.S right).block_) && decide ((s.S left).ptr_ = (s.S right).ptr_)

/-- `MakeShared<T>(args...)`; `buf` is the address of the new block's `buffer_`
and the returned handle is constructed at `this`. -/
def MakeShared (this : Nat) (buf : Nat) (esft : Bool) (s : State) : State :=
  let cur_block := s.next
  let s := ControlBlockBase.create (.element buf) esft s
  SharedPtr.ctorBlockPtr this cur_block (ControlBlockBase.Get cur_block s) s

/-- `WeakPtr::Lock()`; the returned handle `cur` is constructed at address `cur`
and the temporary `SharedPtr<T>(block_, ...)` at address `nS`. -/
def WeakPtr.Lock (this : WAddr) (cur : Nat) (s : State) : State :=
  let s := SharedPtr.ctorDefault cur s
  match (s.W this).block_ with
  | none => s
  | some b =>
    if ControlBlockBase.GetCount b s ≠ 0 then
      let s := ControlBlockBase.Increment b s
      let tmp := s.nS
      let s := SharedPtr.ctorBlockPtr tmp b (ControlBlockBase.Get b s) s
      let s := SharedPtr.moveAssign cur tmp s
      SharedPtr.dtor tmp s
    else s

/-! ## `EnableSharedFromThis` -/

/-- `SharedFromThis()` of the payload of block `obj`: `return weak_this_.Lock();`. -/
def EnableSharedFromThis.SharedFromThis (obj : Nat) (cur : Nat) (s : State) : State :=
  WeakPtr.Lock (.weakThis obj) cur s

/-- `WeakFromThis()` of the payload of block `obj`: `return weak_this_;`. -/
def EnableSharedFromThis.WeakFromThis (obj : Nat) (res : WAddr) (s : State) : State :=
  WeakPtr.copyCtor res (.weakThis obj) s

/-! ## Programs over handle variables -/

/-- One statement of a client program.  Shared handle variables are addressed
by numbers below `nS`, weak handle variables by numbers below `nW`; a weak
source may also be the `weak_this_` of a payload (`SharedFromThis`,
`WeakFromThis`). -/
inductive Op where
  /-- `SharedPtr<T> d;` -/
  | ctorDefault (d : Nat)
  /-- `SharedPtr<T> d(p);` for a raw pointer `p` -/
  | ctorPtr (d : Nat) (p : Ptr) (esft : Bool)
  /-- `auto d = MakeShared<T>(...);` -/
  | makeShared (d : Nat) (buf : Nat) (esft : Bool)
  /-- `SharedPtr<T> d(src);` -/
  | copyCtor (d src : Nat)
  /-- `SharedPtr<T> d(std::move(src));` -/
  | moveCtor (d src : Nat)
  /-- `SharedPtr<T> d(src, p);` -/
  | aliasCtor (d src : Nat) (p : Ptr)
  /-- `SharedPtr<T> d(w);` for a weak handle `w` -/
  | fromWeak (d : Nat) (w : WAddr)
  /-- `auto d = w.Lock();` -/
  | lock (d : Nat) (w : WAddr)
  /-- `d = src;` -/
  | copyAssign (d src : Nat)
  /-- `d = std::move(src);` -/
  | moveAssign (d src : Nat)
  /-- `d.Reset();` -/
  | reset (d : Nat)
  /-- `d.Reset(p);` -/
  | resetPtr (d : Nat) (p : Ptr) (esft : Bool)
  /-- `a.Swap(b);` -/
  | swap (a b : Nat)
  /-- End of the scope of `d`. -/
  | dtor (d : Nat)
  /-- `WeakPtr<T> w;` -/
  | wctorDefault (w : Nat)
  /-- `WeakPtr<T> w(src);` -/
  | wcopyCtor (w : Nat) (src : WAddr)
  /-- `WeakPtr<T> w(std::move(src));` -/
  | wmoveCtor (w src : Nat)
  /-- `WeakPtr<T> w(src);` for a shared handle `src` -/
  | wfromShared (w src : Nat)
  /-- `w = src;` for a shared handle `src` -/
  | wassignShared (w src : Nat)
  /-- `w = src;` -/
  | wcopyAssign (w : Nat) (src : WAddr)
  /-- `w = std::move(src);` -/
  | wmoveAssign (w src : Nat)
  /-- `w.Reset();` -/
  | wreset (w : Nat)
  /-- `a.Swap(b);` on weak handles -/
  | wswap (a b : Nat)
  /-- End of the scope of the weak handle `w`. -/
  | wdtor (w : Nat)
  deriving DecidableEq, Repr

/-- The shared variable `d` can be constructed: in range and not yet alive. -/
def State.freeS (s : State) (d : Nat) : Prop := d < s.nS ∧ s.sh d = none

/-- The shared variable `d` is alive. -/
def State.liveS (s : State) (d : Nat) : Prop := d < s.nS ∧ s.sh d ≠ none

/-- The weak variable `w` can be constructed. -/
def State.freeW (s : State) (w : Nat) : Prop := w < s.nW ∧ s.wk (.var w) = none

/-- The weak variable `w` is alive. -/
def State.liveW (s : State) (w : Nat) : Prop := w < s.nW ∧ s.wk (.var w) ≠ none

/-- The weak object at `a` is alive (a variable in range, or the `weak_this_`
of a payload that has not been destroyed). -/
def State.liveWA (s : State) (a : WAddr) : Prop :=
  s.wk a ≠ none ∧ match a with
    | .var i => i < s.nW
    | .weakThis b => b < s.next

instance (s : State) (d : Nat) : Decidable (s.freeS d) := by unfold State.freeS; infer_instance
instance (s : State) (d : Nat) : Decidable (s.liveS d) := by unfold State.liveS; infer_instance
instance (s : State) (w : Nat) : Decidable (s.freeW w) := by unfold State.freeW; infer_instance
instance (s : State) (w : Nat) : Decidable (s.liveW w) := by unfold State.liveW; infer_instance
instance (s : State) (a : WAddr) : Decidable (s.liveWA a) := by
  unfold State.liveWA; cases a <;> infer_instance

/-- Execute one statement.  `none` means that the statement is not a
well-defined C++ program step in this state: it names a variable that is out of
range, constructs an object that is already alive, uses one that is not, or
dereferences a null payload pointer in `InitWeakThis`.  A `BadWeakPtr` thrown
by the converting constructor leaves the handle unconstructed and the state as
it was. -/
def step (op : Op) (s : State) : Option State :=
  match op with
  | .ctorDefault d => if s.freeS d then some (SharedPtr.ctorDefault d s) else none
  | .ctorPtr d p esft =>
    if s.freeS d ∧ (esft = true → p ≠ none) then some (SharedPtr.ctorPtr d p esft s) else none
  | .makeShared d buf esft => if s.freeS d then some (MakeShared d buf esft s) else none
  | .copyCtor d src => if s.freeS d ∧ s.liveS src then some (SharedPtr.copyCtor d src s) else none
  | .moveCtor d src => if s.freeS d ∧ s.liveS src then some (SharedPtr.moveCtor d src s) else none
  | .aliasCtor d src p =>
    if s.freeS d ∧ s.liveS src then some (SharedPtr.aliasCtor d src p s) else none
  | .fromWeak d w =>
    if s.freeS d ∧ s.liveWA w then
      match SharedPtr.fromWeak d w s with
      | .ok t => some t
      | .error _ => some s
    else none
  | .lock d w => if s.freeS d ∧ s.liveWA w then some (WeakPtr.Lock w d s) else none
  | .copyAssign d src =>
    if s.liveS d ∧ s.liveS src then some (SharedPtr.copyAssign d src s) else none
  | .moveAssign d src =>
    if s.liveS d ∧ s.liveS src then some (SharedPtr.moveAssign d src s) else none
  | .reset d => if s.liveS d then some (SharedPtr.Reset d s) else none
  | .resetPtr d p esft =>
    if s.liveS d ∧ (esft = true → p ≠ none) then some (SharedPtr.ResetPtr d p esft s) else none
  | .swap a b => if s.liveS a ∧ s.liveS b then some (SharedPtr.Swap a b s) else none
  | .dtor d => if s.liveS d then some (SharedPtr.dtor d s) else none
  | .wctorDefault w => if s.freeW w then some (WeakPtr.ctorDefault (.var w) s) else none
  | .wcopyCtor w src =>
    if s.freeW w ∧ s.liveWA src then some (WeakPtr.copyCtor (.var w) src s) else none
  | .wmoveCtor w src =>
    if s.freeW w ∧ s.liveW src then some (WeakPtr.moveCtor (.var w) (.var src) s) else none
  | .wfromShared w src =>
    if s.freeW w ∧ s.liveS src then some (WeakPtr.fromShared (.var w) src s) else none
  | .wassignShared w src =>
    if s.liveW w ∧ s.liveS src then some (WeakPtr.assignShared (.var w) src s) else none
  | .wcopyAssign w src =>
    if s.liveW w ∧ s.liveWA src then some (WeakPtr.copyAssign (.var w) src s) else none
  | .wmoveAssign w src =>
    if s.liveW w ∧ s.liveW src then some (WeakPtr.moveAssign (.var w) (.var src) s) else none
  | .wreset w => if s.liveW w then some (WeakPtr.Reset (.var w) s) else none
  | .wswap a b => if s.liveW a ∧ s.liveW b then some (WeakPtr.Swap (.var a) (.var b) s) else none
  | .wdtor w => if s.liveW w then some (WeakPtr.dtor (.var w) s) else none

/-- Execute a sequence of statements, each of which has to pass the test `g`. -/
def runIf (g : State → Op → Bool) : List Op → State → Option State
  | [], s => some s
  | op :: ops, s => if g s op then (step op s).bind (runIf g ops) else none

/-- Execute a sequence of statements. -/
def run (ops : List Op) (s : State) : Option State := runIf (fun _ _ => true) ops s

/-- The state of a program before its first statement: no block allocated, no
handle alive, room for `nS` shared and `nW` weak handle variables. -/
def init (nS nW : Nat) : State :=
  { heap := fun _ => ControlBlockBase.fresh (.pointer none) false |> fun c => { c with count_ := 0 },
    next := 0, sh := fun _ => none, wk := fun _ => none, nS := nS, nW := nW }

/-- Number of `i < n` with `p i`. -/
def countUpTo (p : Nat → Bool) : Nat → Nat
  | 0 => 0
  | n + 1 => countUpTo p n + (if p n then 1 else 0)

/-- Whether a store entry is a live shared handle whose `block_` is `b`. -/
def onBlock (b : Nat) (o : Option SharedPtr) : Bool :=
  match o with
  | some h => decide (h.block_ = some b)
  | none => false

/-- Number of live shared handle variables whose control-block pointer is `b`. -/
def countShared (s : State) (b : Nat) : Nat := countUpTo (fun i => onBlock b (s.sh i)) s.nS

/-! ## Invariants and relations used by the proofs -/

/-- All weak counters are values of type `size_t`. -/
def WeakBounded (s : State) : Prop := ∀ b, (s.heap b).count_weak_ < SIZE

/-- What `Destroy()` leaves in the `storage` of its block. -/
def Storage.afterDestroy : Storage → Storage
  | .pointer _ => .pointer none
  | .element buf => .element buf

/-- Number of live shared handles at addresses below `n` whose `block_` is `b`. -/
def liveOn (sh : Nat → Option SharedPtr) (n : Nat) (b : Nat) : Nat :=
  countUpTo (fun i => onBlock b (sh i)) n

/-- The facts that hold whenever no method is running, for shared handles at
addresses below `n`. -/
structure InvN (n : Nat) (s : State) : Prop where
  n_lt : n < SIZE
  dead : ∀ i, n ≤ i → s.sh i = none
  ref : ∀ i h b, s.sh i = some h → h.block_ = some b → b < s.next
  wref : ∀ a w b, s.wk a = some w → w.block_ = some b → b < s.next
  cnt : ∀ b, (s.heap b).count_ = liveOn s.sh n b
  des : ∀ b, b < s.next → (s.heap b).destroyed = if (s.heap b).count_ = 0 then 1 else 0
  wlt : WeakBounded s
  self : ∀ b, b < s.next → (s.heap b).esft = true → (s.heap b).count_ ≠ 0 →
    s.wk (.weakThis b) = some ⟨some b⟩ ∧ ControlBlockBase.Get b s ≠ none

/-- The invariant of program states: `InvN` for the handle variables, with room
for the temporary. -/
def Inv (s : State) : Prop := InvN s.nS s ∧ s.nS + 1 < SIZE

/-- Whether `Destroy()` finds a payload to tear down. -/
def Storage.hasPayload : Storage → Bool
  | .pointer p => p.isSome
  | .element _ => true

/-- The state `t` differs from `s` at most in weak counters, `deleted` counters
and weak handles. -/
structure SameStrong (s t : State) : Prop where
  sh : t.sh = s.sh
  nS : t.nS = s.nS
  nW : t.nW = s.nW
  next : t.next = s.next
  count : ∀ b, (t.heap b).count_ = (s.heap b).count_
  storage : ∀ b, (t.heap b).storage = (s.heap b).storage
  esft : ∀ b, (t.heap b).esft = (s.heap b).esft
  destroyed : ∀ b, (t.heap b).destroyed = (s.heap b).destroyed
  wlt : WeakBounded s → WeakBounded t

/-- How blocks may change across a method: blocks are never removed from the
model, `Destroy()` calls accumulate, the derived part of a block only changes
when `Destroy()` runs, and the derived part of every block that is allocated
satisfies `P`. -/
structure Evolves (P : Storage → Prop) (s t : State) : Prop where
  next : s.next ≤ t.next
  destroyed : ∀ b, b < s.next → (s.heap b).destroyed ≤ (t.heap b).destroyed
  storage : ∀ b, b < s.next → (t.heap b).destroyed = (s.heap b).destroyed →
    (t.heap b).storage = (s.heap b).storage
  esft : ∀ b, b < s.next → (t.heap b).esft = (s.heap b).esft
  alloc : ∀ b, s.next ≤ b → b < t.next → (t.heap b).destroyed = 0 → P (t.heap b).storage

/-- The derived part of the block that the statement allocates, if any,
satisfies `P`. -/
def Op.allocates (P : Storage → Prop) : Op → Prop
  | .ctorPtr _ p _ => P (.pointer p)
  | .resetPtr _ p _ => P (.pointer p)
  | .makeShared _ buf _ => P (.element buf)
  | _ => True

/-- A handle whose payload pointer is null exactly when its control-block
pointer is null. -/
def SharedPtr.paired (h : SharedPtr) : Prop := h.ptr_ = none ↔ h.block_ = none

/-- The statement keeps the two pointers of a handle paired: a raw pointer that
is adopted is not null, and an aliasing constructor is given a null pointer
exactly when its source has no control block. -/
def pairedOp (s : State) : Op → Bool
  | .ctorPtr _ p _ => p.isSome
  | .resetPtr _ p _ => p.isSome
  | .aliasCtor _ src p => p.isSome == (s.S src).block_.isSome
  | _ => true

/-- Every live handle is paired, and every block whose payload has not been
torn down has a non-null `Get()`. -/
structure Paired (s : State) : Prop where
  handles : ∀ i h, s.sh i = some h → h.paired
  blocks : ∀ b, b < s.next → (s.heap b).destroyed = 0 → ControlBlockBase.Get b s ≠ none

/-- `Node<F, type_name, flag>`.  With `flag = true` the node derives from the
empty class `F` and stores nothing; with `flag = false` it stores `node_`. -/
inductive Node (F : Type) : Bool → Type
  | base : Node F true
  | stored (node_ : F) : Node F false

/-- `Node(const F&)`: the empty-base form runs `F()` and drops its argument, the
stored form is `node_(node)`. -/
def Node.ctorCopy {F : Type} : (flag : Bool) → F → Node F flag
  | true, _ => .base
  | false, node => .stored node

/-- `Node(F&&)`: the empty-base form runs `F()` and drops its argument, the
stored form is `node_(std::move(node))`. -/
def Node.ctorMove {F : Type} : (flag : Bool) → F → Node F flag
  | true, _ => .base
  | false, node => .stored node

/-- `GetNode()`: `*this` seen as the (single-valued) empty class `F`, or `node_`. -/
def Node.GetNode {F : Type} [Inhabited F] : {flag : Bool} → Node F flag → F
  | _, .base => default
  | _, .stored node_ => node_

/-- Assignment through the reference returned by the mutable `GetNode()`. -/
def Node.assign {F : Type} : {flag : Bool} → Node F flag → F → Node F flag
  | _, .base, _ => .base
  | _, .stored _, v => .stored v

/-- `CompressedPair<F, S>`, which derives from `Node<F, 'F'>` and `Node<S, 'S'>`;
`ff` and `fs` are the values of `std::is_empty_v<_> && !std::is_final_v<_>` for
the two slot types. -/
structure CompressedPair (F S : Type) (ff fs : Bool) where
  first : Node F ff
  second : Node S fs

/-- `CompressedPair()`: `Node<F, 'F'>(F()), Node<S, 'S'>(S())`. -/
def CompressedPair.ctorDefault {F S : Type} [Inhabited F] [Inhabited S] {ff fs : Bool} :
    CompressedPair F S ff fs :=
  ⟨Node.ctorMove ff default, Node.ctorMove fs default⟩

/-- `CompressedPair(const F& first, const S& second)`. -/
def CompressedPair.ctorCC {F S : Type} {ff fs : Bool} (first : F) (second : S) :
    CompressedPair F S ff fs :=
  ⟨Node.ctorCopy ff first, Node.ctorCopy fs second⟩

/-- `CompressedPair(F&& first, S&& second)`. -/
def CompressedPair.ctorMM {F S : Type} {ff fs : Bool} (first : F) (second : S) :
    CompressedPair F S ff fs :=
  ⟨Node.ctorMove ff first, Node.ctorMove fs second⟩

/-- `CompressedPair(const F& first, S&& second)`. -/
def CompressedPair.ctorCM {F S : Type} {ff fs : Bool} (first : F) (second : S) :
    CompressedPair F S ff fs :=
  ⟨Node.ctorCopy ff first, Node.ctorMove fs second⟩

/-- `CompressedPair(F&& first, const S& second)`. -/
def CompressedPair.ctorMC {F S : Type} {ff fs : Bool} (first : F) (second : S) :
    CompressedPair F S ff fs :=
  ⟨Node.ctorMove ff first, Node.ctorCopy fs second⟩

/-- `GetFirst()`, read. -/
def CompressedPair.GetFirst {F S : Type} [Inhabited F] {ff fs : Bool}
    (p : CompressedPair F S ff fs) : F := p.first.GetNode

/-- `GetSecond()`, read. -/
def CompressedPair.GetSecond {F S : Type} [Inhabited S] {ff fs : Bool}
    (p : CompressedPair F S ff fs) : S := p.second.GetNode

/-- `GetFirst() = v`, assignment through the mutable accessor. -/
def CompressedPair.setFirst {F S : Type} {ff fs : Bool}
    (p : CompressedPair F S ff fs) (v : F) : CompressedPair F S ff fs :=
  { p with first := p.first.assign v }

/-- `GetSecond() = v`, assignment through the mutable accessor. -/
def CompressedPair.setSecond {F S : Type} {ff fs : Bool}
    (p : CompressedPair F S ff fs) (v : S) : CompressedPair F S ff fs :=
  { p with second := p.second.assign v }

/-- `UniquePtr<T, Deleter>`: `ComPair holder_` with `ComPair = CompressedPair<T*, Deleter>`. -/
structure UniquePtr (fd : Bool) where
  holder_ : CompressedPair Ptr Nat false fd

/-- Program state of the exclusive handles: the objects by address (`none`
outside their lifetime), the number of handle variables of the program, and the
policy calls made so far, oldest first, as (policy, pointer). -/
structure UState (fd : Bool) where
  uq : Nat → Option (UniquePtr fd)
  nU : Nat
  log : List (Nat × Ptr)

/-- Contents of the exclusive handle at address `i`. -/
def UState.U {fd : Bool} (s : UState fd) (i : Nat) : UniquePtr fd :=
  (s.uq i).getD ⟨CompressedPair.ctorDefault⟩

/-- Write the exclusive handle at `i` (it is live afterwards). -/
def UState.setU {fd : Bool} (s : UState fd) (i : Nat) (v : UniquePtr fd) : UState fd :=
  { s with uq := Function.update s.uq i (some v) }

/-- End of lifetime of the exclusive handle at `i`. -/
def UState.killU {fd : Bool} (s : UState fd) (i : Nat) : UState fd :=
  { s with uq := Function.update s.uq i none }

/-- One call `deleter(p)` of the policy object `deleter`. -/
def UState.invoke {fd : Bool} (s : UState fd) (deleter : Nat) (p : Ptr) : UState fd :=
  { s with log := s.log ++ [(deleter, p)] }

/-- `Get()`: `holder_.GetFirst()`. -/
def UniquePtr.Get {fd : Bool} (this : Nat) (s : UState fd) : Ptr :=
  (s.U this).holder_.GetFirst

/-- `GetDeleter()`: `holder_.GetSecond()`. -/
def UniquePtr.GetDeleter {fd : Bool} (this : Nat) (s : UState fd) : Nat :=
  (s.U this).holder_.GetSecond

/-- `explicit operator bool()`: `Get() != nullptr`. -/
def UniquePtr.toBool {fd : Bool} (this : Nat) (s : UState fd) : Bool :=
  (UniquePtr.Get this s).isSome

/-- `UniquePtr(T* ptr = nullptr)` (with `deleter = Deleter()`) and
`UniquePtr(T* ptr, Deleter deleter)`: `holder_(ComPair(ptr, std::move(deleter)))`. -/
def UniquePtr.ctor {fd : Bool} (this : Nat) (ptr : Ptr) (deleter : Nat) (s : UState fd) :
    UState fd :=
  s.setU this ⟨CompressedPair.ctorCM ptr deleter⟩

/-- `Release()`: `tmp = Get(); holder_.GetFirst() = nullptr; return tmp;`. -/
def UniquePtr.Release {fd : Bool} (this : Nat) (s : UState fd) : Ptr × UState fd :=
  let tmp := UniquePtr.Get this s
  (tmp, s.setU this ⟨(s.U this).holder_.setFirst none⟩)

/-- `Reset(T* ptr = nullptr)`: `if (ptr == Get()) return; tmp = Get();
holder_.GetFirst() = ptr; GetDeleter()(tmp);`. -/
def UniquePtr.Reset {fd : Bool} (this : Nat) (ptr : Ptr) (s : UState fd) : UState fd :=
  if ptr = UniquePtr.Get this s then s
  else
    let tmp := UniquePtr.Get this s
    let s := s.setU this ⟨(s.U this).holder_.setFirst ptr⟩
    s.invoke (UniquePtr.GetDeleter this s) tmp

/-- `Swap(UniquePtr& other)`: `std::swap(holder_, other.holder_)`, that is
`tmp = move(a); a = move(b); b = move(tmp)`. -/
def UniquePtr.Swap {fd : Bool} (this other : Nat) (s : UState fd) : UState fd :=
  let tmp := s.U this
  let s := s.setU this (s.U other)
  s.setU other tmp

/-- `UniquePtr(UniquePtr<U, D>&& other)`: `holder_` is default-constructed, then
`holder_.GetFirst() = other.Release();
holder_.GetSecond() = Deleter(std::move(other.GetDeleter()));`. -/
def UniquePtr.moveCtor {fd : Bool} (this other : Nat) (s : UState fd) : UState fd :=
  let s := s.setU this ⟨CompressedPair.ctorDefault⟩
  let r := UniquePtr.Release other s
  let s := r.2.setU this ⟨(r.2.U this).holder_.setFirst r.1⟩
  s.setU this ⟨(s.U this).holder_.setSecond (UniquePtr.GetDeleter other s)⟩

/-- `operator=(UniquePtr&& other)`: `if (this == &other) return *this; Reset();
Swap(other);`. -/
def UniquePtr.moveAssign {fd : Bool} (this other : Nat) (s : UState fd) : UState fd :=
  if this = other then s
  else UniquePtr.Swap this other (UniquePtr.Reset this none s)

/-- `operator=(std::nullptr_t)`: `Reset();`. -/
def UniquePtr.assignNull {fd : Bool} (this : Nat) (s : UState fd) : UState fd :=
  UniquePtr.Reset this none s

/-- `~UniquePtr()`: `GetDeleter()(Get());`, on a null pointer too; the object is
dead afterwards. -/
def UniquePtr.dtor {fd : Bool} (this : Nat) (s : UState fd) : UState fd :=
  (s.invoke (UniquePtr.GetDeleter this s) (UniquePtr.Get this s)).killU this

/-- Statements of a program over exclusive handle variables. -/
inductive UOp
  | ctor (d : Nat) (p : Ptr) (deleter : Nat)
  | moveCtor (d src : Nat)
  | moveAssign (d src : Nat)
  | assignNull (d : Nat)
  | release (u : Nat)
  | reset (u : Nat) (p : Ptr)
  | swap (a b : Nat)
  | dtor (u : Nat)

/-- The handle variable `d` can be constructed. -/
def UState.freeU {fd : Bool} (s : UState fd) (d : Nat) : Bool :=
  decide (d < s.nU) && (s.uq d).isNone

/-- The handle variable `d` is alive. -/
def UState.liveU {fd : Bool} (s : UState fd) (d : Nat) : Bool :=
  decide (d < s.nU) && (s.uq d).isSome

/-- One statement; `none` when it uses a variable outside its lifetime. -/
def ustep {fd : Bool} (op : UOp) (s : UState fd) : Option (UState fd) :=
  match op with
  | .ctor d p deleter => if s.freeU d then some (UniquePtr.ctor d p deleter s) else none
  | .moveCtor d src =>
    if s.freeU d && s.liveU src then some (UniquePtr.moveCtor d src s) else none
  | .moveAssign d src =>
    if s.liveU d && s.liveU src then some (UniquePtr.moveAssign d src s) else none
  | .assignNull d => if s.liveU d then some (UniquePtr.assignNull d s) else none
  | .release u => if s.liveU u then some (UniquePtr.Release u s).2 else none
  | .reset u p => if s.liveU u then some (UniquePtr.Reset u p s) else none
  | .swap a b => if s.liveU a && s.liveU b then some (UniquePtr.Swap a b s) else none
  | .dtor u => if s.liveU u then some (UniquePtr.dtor u s) else none

/-- Execute a sequence of statements, each of which has to pass the test `g`
in the state it starts in. -/
def urunIf {fd : Bool} (g : UState fd → UOp → Bool) : List UOp → UState fd → Option (UState fd)
  | [], s => some s
  | op :: ops, s => if g s op then (ustep op s).bind (urunIf g ops) else none

/-- No exclusive handle alive, no policy call made, `n` handle variables. -/
def uinit (fd : Bool) (n : Nat) : UState fd :=
  { uq := fun _ => none, nU := n, log := [] }

/-- Whether some live handle variable holds the pointer `p`. -/
def UState.owns {fd : Bool} (s : UState fd) (p : Ptr) : Bool :=
  (List.range s.nU).any fun i =>
    match s.uq i with
    | some h => decide (h.holder_.GetFirst = p)
    | none => false

/-- The pointers passed to a policy so far. -/
def UState.passed {fd : Bool} (s : UState fd) : List Ptr := s.log.map Prod.snd

/-- A pointer given to the program from outside (by a constructor or `Reset`)
is null or held by no live handle. -/
def unowned {fd : Bool} (s : UState fd) : UOp → Bool
  | .ctor _ (some a) _ => !s.owns (some a)
  | .reset _ (some a) => !s.owns (some a)
  | _ => true

/-- A pointer given to the program from outside is null, or held by no live
handle and not yet passed to a policy. -/
def freshPtr {fd : Bool} (s : UState fd) : UOp → Bool
  | .ctor _ (some a) _ => !s.owns (some a) && !s.passed.contains (some a)
  | .reset _ (some a) => !s.owns (some a) && !s.passed.contains (some a)
  | _ => true

/-- Ownership facts about the pointers `G i` held at the handle addresses and
the pointers `L` passed to a policy so far: no two addresses hold the same
non-null pointer, no non-null pointer was passed to a policy twice, and no
pointer that is held was passed to a policy. -/
structure PtrInv (G : Nat → Ptr) (L : List Ptr) : Prop where
  distinct : ∀ i j a, G i = some a → G j = some a → i = j
  once : ∀ a, L.count (some a) ≤ 1
  gone : ∀ i a, G i = some a → some a ∉ L

/-- The invariant of the exclusive handles: `PtrInv` for what `Get()` returns
(null outside a lifetime), and handles live at variable addresses only. -/
def UInv {fd : Bool} (s : UState fd) : Prop :=
  PtrInv (fun i => UniquePtr.Get i s) s.passed ∧ ∀ i, s.nU ≤ i → s.uq i = none

/-- A `Destroy()` override whose body releases `j` weak references to its own
block, each by a call `DecrementWeak()` (what tearing down a payload that
holds `j` weak handles on the block, such as `weak_this_`, amounts to). -/
def destroyReleasing (j : Nat) (this : Nat) (s : State) : State :=
  (ControlBlockBase.DecrementWeak this)^[j] s

/-- The state in which `Decrement()` calls `Destroy()`: after `--count_` and
`++count_weak_`. -/
def ControlBlockBase.atDestroy (this : Nat) (s : State) : State :=
  ((s.modBlock this fun c => { c with count_ := (c.count_ + SIZE - 1) % SIZE }).modBlock this
    fun c => { c with count_weak_ := (c.count_weak_ + 1) % SIZE }).modBlock this
    fun c => { c with destroyed := c.destroyed + 1 }

/-- The end of the teardown branch of `Decrement()`: `--count_weak_`. -/
def ControlBlockBase.unbump (this : Nat) (t : State) : State :=
  t.modBlock this fun c => { c with count_weak_ := (c.count_weak_ + SIZE - 1) % SIZE }

/-- Whether a store entry is a live weak handle whose `block_` is `b`. -/
def onBlockW (b : Nat) (o : Option WeakPtr) : Bool :=
  match o with
  | some w => decide (w.block_ = some b)
  | none => false

/-- Number of live weak handles whose `block_` is `b`, among the weak handle
variables below `nW` and the `weak_this_` embedded in the payload of `b`. -/
def weakHandles (wk : WAddr → Option WeakPtr) (nW : Nat) (b : Nat) : Nat :=
  countUpTo (fun i => onBlockW b (wk (.var i))) nW
    + (if onBlockW b (wk (.weakThis b)) = true then 1 else 0)

/-- Number of live weak handles that reference the block `b`. -/
def countWeak (s : State) (b : Nat) : Nat := weakHandles s.wk s.nW b

/-- The weak counters `cw` agree with the weak handles in `wk`, and an embedded
`weak_this_` references no block but that of its own payload. -/
structure WCnt (cw : Nat → Nat) (wk : WAddr → Option WeakPtr) (nW : Nat) : Prop where
  cnt : ∀ b, cw b = weakHandles wk nW b
  own : ∀ c w b, wk (.weakThis c) = some w → w.block_ = some b → b = c

/-- The weak-count invariant of program states; the program has fewer than
`2 ^ 64 - 2` weak handle variables. -/
structure WInv (s : State) : Prop where
  cnt : WCnt (fun b => (s.heap b).count_weak_) s.wk s.nW
  bound : s.nW + 2 < SIZE

/-- The statement is not a move assignment between weak handles that reference
the same block. -/
def weakMoveOk (s : State) : Op → Bool
  | .wmoveAssign w src =>
    decide ((s.W (.var w)).block_ = none ∨ (s.W (.var w)).block_ ≠ (s.W (.var src)).block_)
  | _ => true

/-- An address at which a weak handle may hold the value `o`: a variable in
range, or the `weak_this_` of a payload when `o` references its block only. -/
def WAddr.okFor (a : WAddr) (nW : Nat) (o : Option WeakPtr) : Prop :=
  match a with
  | .var i => i < nW
  | .weakThis c => ∀ w b, o = some w → w.block_ = some b → b = c

/-! ## Counting lemmas -/

theorem countUpTo_le (p : Nat → Bool) (n : Nat) : countUpTo p n ≤ n := by
  induction n with
  | zero => simp [countUpTo]
  | succ k ih => simp only [countUpTo]; split <;> omega

theorem countUpTo_congr (p q : Nat → Bool) (n : Nat) (h : ∀ i, i < n → p i = q i) :
    countUpTo p n = countUpTo q n := by
  induction n with
  | zero => rfl
  | succ k ih =>
    simp only [countUpTo]
    rw [ih (fun i hi => h i (by omega)), h k (by omega)]

theorem countUpTo_false (n : Nat) : countUpTo (fun _ => false) n = 0 := by
  induction n with
  | zero => rfl
  | succ k ih => simp [countUpTo, ih]

theorem countUpTo_update (b : Nat) (f : Nat → Option SharedPtr) (d : Nat)
    (o : Option SharedPtr) (n : Nat) :
    countUpTo (fun i => onBlock b (Function.update f d o i)) n
        + (if d < n ∧ onBlock b (f d) = true then 1 else 0)
      = countUpTo (fun i => onBlock b (f i)) n
        + (if d < n ∧ onBlock b o = true then 1 else 0) := by
  induction n with
  | zero => simp [countUpTo]
  | succ k ih =>
    simp only [countUpTo]
    by_cases hdk : d = k
    · subst hdk
      have h1 : ¬ (d < d) := by omega
      simp only [h1, false_and, if_false, Nat.add_zero] at ih
      simp only [Function.update_same, Nat.lt_succ_self, true_and]
      rw [ih]; omega
    · have hk : Function.update f d o k = f k := Function.update_noteq (Ne.symm hdk) _ _
      have e1 : d < k + 1 ↔ d < k := by omega
      simp only [hk, e1]
      omega

theorem countUpTo_pos (p : Nat → Bool) (n i : Nat) (hi : i < n) (hp : p i = true) :
    1 ≤ countUpTo p n := by
  induction n with
  | zero => omega
  | succ k ih =>
    simp only [countUpTo]
    by_cases hik : i = k
    · subst hik; simp [hp]
    · have := ih (by omega); omega

theorem countUpTo_lt (p : Nat → Bool) (n i : Nat) (hi : i < n) (hp : p i = false) :
    countUpTo p n < n := by
  induction n with
  | zero => omega
  | succ k ih =>
    simp only [countUpTo]
    by_cases hik : i = k
    · subst hik; have := countUpTo_le p i; simp [hp]; omega
    · have := ih (by omega); split <;> omega

section Stores
variable (s : State) (i : Nat) (v : SharedPtr) (a : WAddr) (w : WeakPtr)

@[simp] theorem setS_sh : (s.setS i v).sh = Function.update s.sh i (some v) := rfl
@[simp] theorem setS_wk : (s.setS i v).wk = s.wk := rfl
@[simp] theorem setS_heap : (s.setS i v).heap = s.heap := rfl
@[simp] theorem setS_nS : (s.setS i v).nS = s.nS := rfl
@[simp] theorem setS_nW : (s.setS i v).nW = s.nW := rfl
@[simp] theorem setS_next : (s.setS i v).next = s.next := rfl
@[simp] theorem killS_sh : (s.killS i).sh = Function.update s.sh i none := rfl
@[simp] theorem killS_wk : (s.killS i).wk = s.wk := rfl
@[simp] theorem killS_heap : (s.killS i).heap = s.heap := rfl
@[simp] theorem killS_nS : (s.killS i).nS = s.nS := rfl
@[simp] theorem killS_nW : (s.killS i).nW = s.nW := rfl
@[simp] theorem killS_next : (s.killS i).next = s.next := rfl
@[simp] theorem setW_sh : (s.setW a w).sh = s.sh := rfl
@[simp] theorem setW_wk : (s.setW a w).wk = Function.update s.wk a (some w) := rfl
@[simp] theorem setW_heap : (s.setW a w).heap = s.heap := rfl
@[simp] theorem setW_nS : (s.setW a w).nS = s.nS := rfl
@[simp] theorem setW_nW : (s.setW a w).nW = s.nW := rfl
@[simp] theorem setW_next : (s.setW a w).next = s.next := rfl
@[simp] theorem killW_sh : (s.killW a).sh = s.sh := rfl
@[simp] theorem killW_wk : (s.killW a).wk = Function.update s.wk a none := rfl
@[simp] theorem killW_heap : (s.killW a).heap = s.heap := rfl
@[simp] theorem killW_nS : (s.killW a).nS = s.nS := rfl
@[simp] theorem killW_nW : (s.killW a).nW = s.nW := rfl
@[simp] theorem killW_next : (s.killW a).next = s.next := rfl

end Stores

/-! ## Effect of the control-block operations on each field -/

section Fields
variable (b : Nat) (s : State)

@[simp] theorem Increment_sh : (ControlBlockBase.Increment b s).sh = s.sh := rfl
@[simp] theorem Increment_wk : (ControlBlockBase.Increment b s).wk = s.wk := rfl
@[simp] theorem Increment_nS : (ControlBlockBase.Increment b s).nS = s.nS := rfl
@[simp] theorem Increment_nW : (ControlBlockBase.Increment b s).nW = s.nW := rfl
@[simp] theorem Increment_next : (ControlBlockBase.Increment b s).next = s.next := rfl

@[simp] theorem Increment_count (c : Nat) :
    ((ControlBlockBase.Increment b s).heap c).count_
      = if c = b then ((s.heap b).count_ + 1) % SIZE else (s.heap c).count_ := by
  unfold ControlBlockBase.Increment State.modBlock
  by_cases h : c = b
  · subst h; simp
  · simp [h]

@[simp] theorem Increment_count_weak (c : Nat) :
    ((ControlBlockBase.Increment b s).heap c).count_weak_ = (s.heap c).count_weak_ := by
  unfold ControlBlockBase.Increment State.modBlock
  by_cases h : c = b
  · subst h; simp
  · simp [h]

@[simp] theorem Increment_storage (c : Nat) :
    ((ControlBlockBase.Increment b s).heap c).storage = (s.heap c).storage := by
  unfold ControlBlockBase.Increment State.modBlock
  by_cases h : c = b
  · subst h; simp
  · simp [h]

@[simp] theorem Increment_esft (c : Nat) :
    ((ControlBlockBase.Increment b s).heap c).esft = (s.heap c).esft := by
  unfold ControlBlockBase.Increment State.modBlock
  by_cases h : c = b
  · subst h; simp
  · simp [h]

@[simp] theorem Increment_destroyed (c : Nat) :
    ((ControlBlockBase.Increment b s).heap c).destroyed = (s.heap c).destroyed := by
  unfold ControlBlockBase.Increment State.modBlock
  by_cases h : c = b
  · subst h; simp
  · simp [h]

@[simp] theorem Increment_deleted (c : Nat) :
    ((ControlBlockBase.Increment b s).heap c).deleted = (s.heap c).deleted := by
  unfold ControlBlockBase.Increment State.modBlock
  by_cases h : c = b
  · subst h; simp
  · simp [h]

@[simp] theorem IncrementWeak_sh : (ControlBlockBase.IncrementWeak b s).sh = s.sh := rfl
@[simp] theorem IncrementWeak_wk : (ControlBlockBase.IncrementWeak b s).wk = s.wk := rfl
@[simp] theorem IncrementWeak_nS : (ControlBlockBase.IncrementWeak b s).nS = s.nS := rfl
@[simp] theorem IncrementWeak_nW : (ControlBlockBase.IncrementWeak b s).nW = s.nW := rfl
@[simp] theorem IncrementWeak_next : (ControlBlockBase.IncrementWeak b s).next = s.next := rfl

@[simp] theorem IncrementWeak_count (c : Nat) :
    ((ControlBlockBase.IncrementWeak b s).heap c).count_ = (s.heap c).count_ := by
  unfold ControlBlockBase.IncrementWeak State.modBlock
  by_cases h : c = b
  · subst h; simp
  · simp [h]

@[simp] theorem IncrementWeak_count_weak (c : Nat) :
    ((ControlBlockBase.IncrementWeak b s).heap c).count_weak_
      = if c = b then ((s.heap b).count_weak_ + 1) % SIZE else (s.heap c).count_weak_ := by
  unfold ControlBlockBase.IncrementWeak State.modBlock
  by_cases h : c = b
  · subst h; simp
  · simp [h]

@[simp] theorem IncrementWeak_storage (c : Nat) :
    ((ControlBlockBase.IncrementWeak b s).heap c).storage = (s.heap c).storage := by
  unfold ControlBlockBase.IncrementWeak State.modBlock
  by_cases h : c = b
  · subst h; simp
  · simp [h]

@[simp] theorem IncrementWeak_esft (c : Nat) :
    ((ControlBlockBase.IncrementWeak b s).heap c).esft = (s.heap c).esft := by
  unfold ControlBlockBase.IncrementWeak State.modBlock
  by_cases h : c = b
  · subst h; simp
  · simp [h]

@[simp] theorem IncrementWeak_destroyed (c : Nat) :
    ((ControlBlockBase.IncrementWeak b s).heap c).destroyed = (s.heap c).destroyed := by
  unfold ControlBlockBase.IncrementWeak State.modBlock
  by_cases h : c = b
  · subst h; simp
  · simp [h]

@[simp] theorem IncrementWeak_deleted (c : Nat) :
    ((ControlBlockBase.IncrementWeak b s).heap c).deleted = (s.heap c).deleted := by
  unfold ControlBlockBase.IncrementWeak State.modBlock
  by_cases h : c = b
  · subst h; simp
  · simp [h]

@[simp] theorem DecrementWeak_sh : (ControlBlockBase.DecrementWeak b s).sh = s.sh := by
  unfold ControlBlockBase.DecrementWeak; dsimp only; split <;> rfl
@[simp] theorem DecrementWeak_wk : (ControlBlockBase.DecrementWeak b s).wk = s.wk := by
  unfold ControlBlockBase.DecrementWeak; dsimp only; split <;> rfl
@[simp] theorem DecrementWeak_nS : (ControlBlockBase.DecrementWeak b s).nS = s.nS := by
  unfold ControlBlockBase.DecrementWeak; dsimp only; split <;> rfl
@[simp] theorem DecrementWeak_nW : (ControlBlockBase.DecrementWeak b s).nW = s.nW := by
  unfold ControlBlockBase.DecrementWeak; dsimp only; split <;> rfl
@[simp] theorem DecrementWeak_next : (ControlBlockBase.DecrementWeak b s).next = s.next := by
  unfold ControlBlockBase.DecrementWeak; dsimp only; split <;> rfl

@[simp] theorem DecrementWeak_count (c : Nat) :
    ((ControlBlockBase.DecrementWeak b s).heap c).count_ = (s.heap c).count_ := by
  unfold ControlBlockBase.DecrementWeak ControlBlockBase.deleteThis State.modBlock
  by_cases h : c = b
  · subst h; dsimp only; split <;> simp
  · dsimp only; split <;> simp [h]

@[simp] theorem DecrementWeak_count_weak (c : Nat) :
    ((ControlBlockBase.DecrementWeak b s).heap c).count_weak_
      = if c = b then ((s.heap b).count_weak_ + SIZE - 1) % SIZE else (s.heap c).count_weak_ := by
  unfold ControlBlockBase.DecrementWeak ControlBlockBase.deleteThis State.modBlock
  by_cases h : c = b
  · subst h; dsimp only; split <;> simp
  · dsimp only; split <;> simp [h]

@[simp] theorem DecrementWeak_storage (c : Nat) :
    ((ControlBlockBase.DecrementWeak b s).heap c).storage = (s.heap c).storage := by
  unfold ControlBlockBase.DecrementWeak ControlBlockBase.deleteThis State.modBlock
  by_cases h : c = b
  · subst h; dsimp only; split <;> simp
  · dsimp only; split <;> simp [h]

@[simp] theorem DecrementWeak_esft (c : Nat) :
    ((ControlBlockBase.DecrementWeak b s).heap c).esft = (s.heap c).esft := by
  unfold ControlBlockBase.DecrementWeak ControlBlockBase.deleteThis State.modBlock
  by_cases h : c = b
  · subst h; dsimp only; split <;> simp
  · dsimp only; split <;> simp [h]

@[simp] theorem DecrementWeak_destroyed (c : Nat) :
    ((ControlBlockBase.DecrementWeak b s).heap c).destroyed = (s.heap c).destroyed := by
  unfold ControlBlockBase.DecrementWeak ControlBlockBase.deleteThis State.modBlock
  by_cases h : c = b
  · subst h; dsimp only; split <;> simp
  · dsimp only; split <;> simp [h]

theorem DecrementWeak_deleted (c : Nat) :
    ((ControlBlockBase.DecrementWeak b s).heap c).deleted
      = (s.heap c).deleted
        + (if c = b ∧ ((s.heap b).count_ + ((s.heap b).count_weak_ + SIZE - 1) % SIZE) % SIZE = 0
            then 1 else 0) := by
  unfold ControlBlockBase.DecrementWeak ControlBlockBase.deleteThis State.modBlock
  by_cases h : c = b
  · subst h; dsimp only; split <;> simp_all
  · dsimp only; split <;> simp [h]

end Fields

theorem SIZE_pos : 0 < SIZE := by unfold SIZE; norm_num

section Fields
variable (b : Nat) (s : State)

theorem IncrementWeak_bounded (h : WeakBounded s) :
    WeakBounded (ControlBlockBase.IncrementWeak b s) := by
  intro c
  rw [IncrementWeak_count_weak]
  split
  · exact Nat.mod_lt _ SIZE_pos
  · exact h c

theorem DecrementWeak_bounded (h : WeakBounded s) :
    WeakBounded (ControlBlockBase.DecrementWeak b s) := by
  intro c
  rw [DecrementWeak_count_weak]
  split
  · exact Nat.mod_lt _ SIZE_pos
  · exact h c

theorem Increment_bounded (h : WeakBounded s) :
    WeakBounded (ControlBlockBase.Increment b s) := by
  intro c
  rw [Increment_count_weak]
  exact h c

variable (a : WAddr)

@[simp] theorem WeakPtr_dtor_sh : (WeakPtr.dtor a s).sh = s.sh := by
  unfold WeakPtr.dtor State.killW; dsimp only; split <;> simp
@[simp] theorem WeakPtr_dtor_nS : (WeakPtr.dtor a s).nS = s.nS := by
  unfold WeakPtr.dtor State.killW; dsimp only; split <;> simp
@[simp] theorem WeakPtr_dtor_nW : (WeakPtr.dtor a s).nW = s.nW := by
  unfold WeakPtr.dtor State.killW; dsimp only; split <;> simp
@[simp] theorem WeakPtr_dtor_next : (WeakPtr.dtor a s).next = s.next := by
  unfold WeakPtr.dtor State.killW; dsimp only; split <;> simp
@[simp] theorem WeakPtr_dtor_wk : (WeakPtr.dtor a s).wk = Function.update s.wk a none := by
  unfold WeakPtr.dtor State.killW; dsimp only; split <;> simp
@[simp] theorem WeakPtr_dtor_count (c : Nat) :
    ((WeakPtr.dtor a s).heap c).count_ = (s.heap c).count_ := by
  unfold WeakPtr.dtor State.killW; dsimp only; split <;> simp
@[simp] theorem WeakPtr_dtor_storage (c : Nat) :
    ((WeakPtr.dtor a s).heap c).storage = (s.heap c).storage := by
  unfold WeakPtr.dtor State.killW; dsimp only; split <;> simp
@[simp] theorem WeakPtr_dtor_esft (c : Nat) :
    ((WeakPtr.dtor a s).heap c).esft = (s.heap c).esft := by
  unfold WeakPtr.dtor State.killW; dsimp only; split <;> simp
@[simp] theorem WeakPtr_dtor_destroyed (c : Nat) :
    ((WeakPtr.dtor a s).heap c).destroyed = (s.heap c).destroyed := by
  unfold WeakPtr.dtor State.killW; dsimp only; split <;> simp
theorem WeakPtr_dtor_bounded (h : WeakBounded s) : WeakBounded (WeakPtr.dtor a s) := by
  unfold WeakPtr.dtor State.killW; dsimp only
  split
  · exact h
  · exact DecrementWeak_bounded _ _ h

@[simp] theorem payloadDtor_sh : (payloadDtor b s).sh = s.sh := by
  unfold payloadDtor; split <;> simp
@[simp] theorem payloadDtor_nS : (payloadDtor b s).nS = s.nS := by
  unfold payloadDtor; split <;> simp
@[simp] theorem payloadDtor_nW : (payloadDtor b s).nW = s.nW := by
  unfold payloadDtor; split <;> simp
@[simp] theorem payloadDtor_next : (payloadDtor b s).next = s.next := by
  unfold payloadDtor; split <;> simp
theorem payloadDtor_wk :
    (payloadDtor b s).wk
      = if (s.heap b).esft = true then Function.update s.wk (.weakThis b) none else s.wk := by
  unfold payloadDtor; split <;> simp
@[simp] theorem payloadDtor_count (c : Nat) :
    ((payloadDtor b s).heap c).count_ = (s.heap c).count_ := by
  unfold payloadDtor; split <;> simp
@[simp] theorem payloadDtor_storage (c : Nat) :
    ((payloadDtor b s).heap c).storage = (s.heap c).storage := by
  unfold payloadDtor; split <;> simp
@[simp] theorem payloadDtor_esft (c : Nat) :
    ((payloadDtor b s).heap c).esft = (s.heap c).esft := by
  unfold payloadDtor; split <;> simp
@[simp] theorem payloadDtor_destroyed (c : Nat) :
    ((payloadDtor b s).heap c).destroyed = (s.heap c).destroyed := by
  unfold payloadDtor; split <;> simp
theorem payloadDtor_bounded (h : WeakBounded s) : WeakBounded (payloadDtor b s) := by
  unfold payloadDtor
  split
  · exact WeakPtr_dtor_bounded _ _ h
  · exact h
@[simp] theorem payloadDtor_wk_var (i : Nat) : (payloadDtor b s).wk (.var i) = s.wk (.var i) := by
  rw [payloadDtor_wk]; split <;> simp
theorem payloadDtor_wk_other (c : Nat) (h : c ≠ b) :
    (payloadDtor b s).wk (.weakThis c) = s.wk (.weakThis c) := by
  rw [payloadDtor_wk]; split <;> simp [h]

@[simp] theorem Destroy_sh : (Destroy b s).sh = s.sh := by
  unfold Destroy State.modBlock; split <;> [skip; simp]
  dsimp only; split <;> simp
@[simp] theorem Destroy_nS : (Destroy b s).nS = s.nS := by
  unfold Destroy State.modBlock; split <;> [skip; simp]
  dsimp only; split <;> simp
@[simp] theorem Destroy_nW : (Destroy b s).nW = s.nW := by
  unfold Destroy State.modBlock; split <;> [skip; simp]
  dsimp only; split <;> simp
@[simp] theorem Destroy_next : (Destroy b s).next = s.next := by
  unfold Destroy State.modBlock; split <;> [skip; simp]
  dsimp only; split <;> simp
@[simp] theorem Destroy_wk_var (i : Nat) : (Destroy b s).wk (.var i) = s.wk (.var i) := by
  unfold Destroy State.modBlock; split <;> [skip; simp]
  dsimp only; split <;> simp
theorem Destroy_wk_other (c : Nat) (h : c ≠ b) :
    (Destroy b s).wk (.weakThis c) = s.wk (.weakThis c) := by
  unfold Destroy State.modBlock; split <;> [skip; simp [payloadDtor_wk_other _ _ _ h]]
  dsimp only; split <;> simp [payloadDtor_wk_other _ _ _ h]
@[simp] theorem Destroy_count (c : Nat) :
    ((Destroy b s).heap c).count_ = (s.heap c).count_ := by
  unfold Destroy State.modBlock; split <;> [skip; simp]
  dsimp only
  by_cases h : c = b
  · subst h; split <;> simp
  · split <;> simp [h]
@[simp] theorem Destroy_esft (c : Nat) :
    ((Destroy b s).heap c).esft = (s.heap c).esft := by
  unfold Destroy State.modBlock; split <;> [skip; simp]
  dsimp only
  by_cases h : c = b
  · subst h; split <;> simp
  · split <;> simp [h]
@[simp] theorem Destroy_destroyed (c : Nat) :
    ((Destroy b s).heap c).destroyed = (s.heap c).destroyed := by
  unfold Destroy State.modBlock; split <;> [skip; simp]
  dsimp only
  by_cases h : c = b
  · subst h; split <;> simp
  · split <;> simp [h]
theorem Destroy_storage (c : Nat) :
    ((Destroy b s).heap c).storage
      = if c = b then (s.heap b).storage.afterDestroy else (s.heap c).storage := by
  unfold Destroy State.modBlock
  split
  · rename_i p hp
    dsimp only
    by_cases h : c = b
    · subst h; split <;> simp [hp, Storage.afterDestroy]
    · split <;> simp [h]
  · rename_i buf hp
    by_cases h : c = b
    · subst h; simp [hp, Storage.afterDestroy]
    · simp [h]
theorem Destroy_bounded (h : WeakBounded s) : WeakBounded (Destroy b s) := by
  unfold Destroy
  split
  · rename_i p hp
    dsimp only
    have h1 : WeakBounded (if p.isSome = true then payloadDtor b s else s) := by
      split
      · exact payloadDtor_bounded _ _ h
      · exact h
    intro c
    have := h1 c
    unfold State.modBlock
    by_cases hc : c = b
    · subst hc; simpa using this
    · simpa [hc] using this
  · exact payloadDtor_bounded _ _ h

end Fields

section Fields
variable (b : Nat) (s : State)

@[simp] theorem Decrement_sh : (ControlBlockBase.Decrement Destroy b s).sh = s.sh := by
  unfold ControlBlockBase.Decrement ControlBlockBase.deleteThis State.modBlock
  dsimp only; split <;> split <;> simp
@[simp] theorem Decrement_nS : (ControlBlockBase.Decrement Destroy b s).nS = s.nS := by
  unfold ControlBlockBase.Decrement ControlBlockBase.deleteThis State.modBlock
  dsimp only; split <;> split <;> simp
@[simp] theorem Decrement_nW : (ControlBlockBase.Decrement Destroy b s).nW = s.nW := by
  unfold ControlBlockBase.Decrement ControlBlockBase.deleteThis State.modBlock
  dsimp only; split <;> split <;> simp
@[simp] theorem Decrement_next : (ControlBlockBase.Decrement Destroy b s).next = s.next := by
  unfold ControlBlockBase.Decrement ControlBlockBase.deleteThis State.modBlock
  dsimp only; split <;> split <;> simp
@[simp] theorem Decrement_wk_var (i : Nat) :
    (ControlBlockBase.Decrement Destroy b s).wk (.var i) = s.wk (.var i) := by
  unfold ControlBlockBase.Decrement ControlBlockBase.deleteThis State.modBlock
  dsimp only; split <;> split <;> simp
theorem Decrement_wk_other (c : Nat) (h : c ≠ b) :
    (ControlBlockBase.Decrement Destroy b s).wk (.weakThis c) = s.wk (.weakThis c) := by
  unfold ControlBlockBase.Decrement ControlBlockBase.deleteThis State.modBlock
  dsimp only; split <;> split <;> simp [Destroy_wk_other _ _ _ h]
theorem Decrement_wk_alive (a : WAddr) (h : ((s.heap b).count_ + SIZE - 1) % SIZE ≠ 0) :
    (ControlBlockBase.Decrement Destroy b s).wk a = s.wk a := by
  unfold ControlBlockBase.Decrement ControlBlockBase.deleteThis State.modBlock
  dsimp only
  simp only [Function.update_same, h, if_false]
  split <;> simp

@[simp] theorem Decrement_count (c : Nat) :
    ((ControlBlockBase.Decrement Destroy b s).heap c).count_
      = if c = b then ((s.heap b).count_ + SIZE - 1) % SIZE else (s.heap c).count_ := by
  unfold ControlBlockBase.Decrement ControlBlockBase.deleteThis State.modBlock
  dsimp only
  by_cases h : c = b
  · subst h; split <;> split <;> simp
  · split <;> split <;> simp [h]

@[simp] theorem Decrement_esft (c : Nat) :
    ((ControlBlockBase.Decrement Destroy b s).heap c).esft = (s.heap c).esft := by
  unfold ControlBlockBase.Decrement ControlBlockBase.deleteThis State.modBlock
  dsimp only
  by_cases h : c = b
  · subst h; split <;> split <;> simp
  · split <;> split <;> simp [h]

theorem Decrement_destroyed (c : Nat) :
    ((ControlBlockBase.Decrement Destroy b s).heap c).destroyed
      = (s.heap c).destroyed
        + (if c = b ∧ ((s.heap b).count_ + SIZE - 1) % SIZE = 0 then 1 else 0) := by
  unfold ControlBlockBase.Decrement ControlBlockBase.deleteThis State.modBlock
  dsimp only
  by_cases h : c = b
  · subst h
    by_cases h0 : ((s.heap c).count_ + SIZE - 1) % SIZE = 0
    · simp only [Function.update_same, h0, if_true]
      split <;> simp
    · simp only [Function.update_same, h0, if_false]
      split <;> simp
  · split <;> split <;> simp [h]

theorem Decrement_storage (c : Nat) :
    ((ControlBlockBase.Decrement Destroy b s).heap c).storage
      = if c = b ∧ ((s.heap b).count_ + SIZE - 1) % SIZE = 0
          then (s.heap b).storage.afterDestroy else (s.heap c).storage := by
  unfold ControlBlockBase.Decrement ControlBlockBase.deleteThis State.modBlock
  dsimp only
  by_cases h : c = b
  · subst h
    by_cases h0 : ((s.heap c).count_ + SIZE - 1) % SIZE = 0
    · simp only [Function.update_same, h0, if_true]
      split <;> simp [Destroy_storage]
    · simp only [Function.update_same, h0, if_false]
      split <;> simp
  · split <;> split <;> simp [h, Destroy_storage]

theorem modBlock_bounded (f : ControlBlockBase → ControlBlockBase)
    (hf : (f (s.heap b)).count_weak_ < SIZE) (h : WeakBounded s) :
    WeakBounded (s.modBlock b f) := by
  intro c
  unfold State.modBlock
  by_cases hc : c = b
  · subst hc; simpa using hf
  · simpa [hc] using h c

theorem Decrement_bounded (h : WeakBounded s) :
    WeakBounded (ControlBlockBase.Decrement Destroy b s) := by
  unfold ControlBlockBase.Decrement ControlBlockBase.deleteThis
  dsimp only
  have h1 : WeakBounded
      (s.modBlock b fun c => { c with count_ := (c.count_ + SIZE - 1) % SIZE }) :=
    modBlock_bounded _ _ _ (h b) h
  generalize (s.modBlock b fun c => { c with count_ := (c.count_ + SIZE - 1) % SIZE }) = s1 at h1 ⊢
  have h2 : WeakBounded (if (s1.heap b).count_ = 0 then
      (Destroy b ((s1.modBlock b fun c => { c with count_weak_ := (c.count_weak_ + 1) % SIZE }).modBlock b
        fun c => { c with destroyed := c.destroyed + 1 })).modBlock b
        fun c => { c with count_weak_ := (c.count_weak_ + SIZE - 1) % SIZE }
      else s1) := by
    split
    · apply modBlock_bounded _ _ _ (Nat.mod_lt _ SIZE_pos)
      apply Destroy_bounded
      apply modBlock_bounded
      · exact modBlock_bounded _ _ _ (Nat.mod_lt _ SIZE_pos) h1 b
      · exact modBlock_bounded _ _ _ (Nat.mod_lt _ SIZE_pos) h1
    · exact h1
  revert h2
  generalize (if (s1.heap b).count_ = 0 then _ else s1) = s2
  intro h2
  split
  · exact modBlock_bounded _ _ _ (h2 b) h2
  · exact h2

end Fields

theorem countShared_eq (s : State) (b : Nat) : countShared s b = liveOn s.sh s.nS b := rfl

theorem liveOn_update (b : Nat) (sh : Nat → Option SharedPtr) (d : Nat)
    (o : Option SharedPtr) (n : Nat) (hd : d < n) :
    liveOn (Function.update sh d o) n b + (if onBlock b (sh d) = true then 1 else 0)
      = liveOn sh n b + (if onBlock b o = true then 1 else 0) := by
  have := countUpTo_update b sh d o n
  simpa [liveOn, hd] using this

theorem liveOn_le (sh : Nat → Option SharedPtr) (n b : Nat) : liveOn sh n b ≤ n :=
  countUpTo_le _ _

theorem liveOn_pos (sh : Nat → Option SharedPtr) (n b i : Nat) (h : SharedPtr)
    (hi : i < n) (hs : sh i = some h) (hb : h.block_ = some b) : 1 ≤ liveOn sh n b := by
  apply countUpTo_pos _ _ i hi
  simp [onBlock, hs, hb]

theorem liveOn_lt (sh : Nat → Option SharedPtr) (n b i : Nat)
    (hi : i < n) (hs : onBlock b (sh i) = false) : liveOn sh n b < n :=
  countUpTo_lt _ _ i hi hs

theorem liveOn_succ (sh : Nat → Option SharedPtr) (n b : Nat) (h : sh n = none) :
    liveOn sh (n + 1) b = liveOn sh n b := by
  simp [liveOn, countUpTo, h, onBlock]

theorem InvN.fresh {n : Nat} {s : State} (hI : InvN n s) (b : Nat) (hb : s.next ≤ b) :
    liveOn s.sh n b = 0 := by
  unfold liveOn
  rw [countUpTo_congr _ (fun _ => false), countUpTo_false]
  intro i _
  cases hi : s.sh i with
  | none => rfl
  | some h =>
    simp only [onBlock, decide_eq_false_iff_not]
    intro hh
    have := hI.ref i h b hi hh
    omega

/-- A temporary slot may be added to the range. -/
theorem InvN.succ {n : Nat} {s : State} (hI : InvN n s) (hn : n + 1 < SIZE) :
    InvN (n + 1) s :=
  { n_lt := hn
    dead := fun i hi => hI.dead i (by omega)
    ref := hI.ref
    wref := hI.wref
    cnt := fun b => by rw [liveOn_succ _ _ _ (hI.dead n (le_refl n))]; exact hI.cnt b
    des := hI.des
    wlt := hI.wlt
    self := hI.self }

/-- A dead temporary slot may be dropped from the range. -/
theorem InvN.pred {n : Nat} {s : State} (hI : InvN (n + 1) s) (h : s.sh n = none) :
    InvN n s :=
  { n_lt := by have := hI.n_lt; omega
    dead := fun i hi => by
      by_cases hin : i = n
      · subst hin; exact h
      · exact hI.dead i (by omega)
    ref := hI.ref
    wref := hI.wref
    cnt := fun b => by rw [← liveOn_succ _ _ _ h]; exact hI.cnt b
    des := hI.des
    wlt := hI.wlt
    self := hI.self }

/-- Transfer of the store-related facts across a method that rewrites one
handle. -/
theorem InvN.of_update {n : Nat} {s : State} (hI : InvN n s) (t : State) (d : Nat)
    (o : Option SharedPtr) (hd : d < n)
    (hsh : t.sh = Function.update s.sh d o)
    (hnext : s.next ≤ t.next)
    (hnew : ∀ h b, o = some h → h.block_ = some b → b < t.next)
    (hwref : ∀ a w b, t.wk a = some w → w.block_ = some b → b < t.next)
    (hcnt : ∀ b, (t.heap b).count_ + (if onBlock b (s.sh d) = true then 1 else 0)
      = (s.heap b).count_ + (if onBlock b o = true then 1 else 0))
    (hdes : ∀ b, b < t.next → (t.heap b).destroyed = if (t.heap b).count_ = 0 then 1 else 0)
    (hwlt : WeakBounded t)
    (hself : ∀ b, b < t.next → (t.heap b).esft = true → (t.heap b).count_ ≠ 0 →
      t.wk (.weakThis b) = some ⟨some b⟩ ∧ ControlBlockBase.Get b t ≠ none) :
    InvN n t := by
  refine ⟨hI.n_lt, ?_, ?_, hwref, ?_, hdes, hwlt, hself⟩
  · intro i hi
    have hid : i ≠ d := by omega
    rw [hsh, Function.update_noteq hid]
    exact hI.dead i hi
  · intro i h b hi hb
    rw [hsh] at hi
    by_cases hid : i = d
    · subst hid
      rw [Function.update_same] at hi
      exact hnew h b hi hb
    · rw [Function.update_noteq hid] at hi
      have := hI.ref i h b hi hb
      omega
  · intro b
    have h1 := liveOn_update b s.sh d o n hd
    have h2 := hcnt b
    have h3 := hI.cnt b
    rw [hsh]
    omega

theorem Get_congr (s t : State) (b : Nat) (h : (t.heap b).storage = (s.heap b).storage) :
    ControlBlockBase.Get b t = ControlBlockBase.Get b s := by
  unfold ControlBlockBase.Get; rw [h]

@[simp] theorem Get_setS (s : State) (b i : Nat) (v : SharedPtr) :
    ControlBlockBase.Get b (s.setS i v) = ControlBlockBase.Get b s := rfl
@[simp] theorem Get_killS (s : State) (b i : Nat) :
    ControlBlockBase.Get b (s.killS i) = ControlBlockBase.Get b s := rfl
@[simp] theorem Get_setW (s : State) (b : Nat) (a : WAddr) (v : WeakPtr) :
    ControlBlockBase.Get b (s.setW a v) = ControlBlockBase.Get b s := rfl
@[simp] theorem Get_killW (s : State) (b : Nat) (a : WAddr) :
    ControlBlockBase.Get b (s.killW a) = ControlBlockBase.Get b s := rfl
@[simp] theorem Get_Increment (s : State) (b c : Nat) :
    ControlBlockBase.Get b (ControlBlockBase.Increment c s) = ControlBlockBase.Get b s :=
  Get_congr _ _ _ (Increment_storage _ _ _)
@[simp] theorem Get_IncrementWeak (s : State) (b c : Nat) :
    ControlBlockBase.Get b (ControlBlockBase.IncrementWeak c s) = ControlBlockBase.Get b s :=
  Get_congr _ _ _ (IncrementWeak_storage _ _ _)
@[simp] theorem Get_DecrementWeak (s : State) (b c : Nat) :
    ControlBlockBase.Get b (ControlBlockBase.DecrementWeak c s) = ControlBlockBase.Get b s :=
  Get_congr _ _ _ (DecrementWeak_storage _ _ _)

theorem onBlock_some (b : Nat) (p : Ptr) (blk : Option Nat) :
    onBlock b (some ⟨p, blk⟩) = decide (blk = some b) := rfl

@[simp] theorem onBlock_none (b : Nat) : onBlock b none = false := rfl

/-- Rewriting a handle that references no block by one that references none. -/
theorem InvN.setFree {n : Nat} {s : State} (hI : InvN n s) (d : Nat) (o : Option SharedPtr)
    (hd : d < n) (hold : ∀ b, onBlock b (s.sh d) = false) (hnew : ∀ b, onBlock b o = false) :
    InvN n { s with sh := Function.update s.sh d o } := by
  refine hI.of_update _ d o hd ?_ ?_ ?_ ?_ ?_ ?_ ?_ ?_
  · rfl
  · exact le_refl _
  · intro h b ho hb
    have := hnew b
    simp [ho, onBlock, hb] at this
  · exact hI.wref
  · intro b; simp [hold b, hnew b]
  · exact hI.des
  · exact hI.wlt
  · exact hI.self

/-- `Increment()` on a live block followed by storing the new reference. -/
theorem InvN.acquire {n : Nat} {s : State} (hI : InvN n s) (d b : Nat) (p : Ptr)
    (hd : d < n) (hold : ∀ c, onBlock c (s.sh d) = false)
    (hb : b < s.next) (hc : (s.heap b).count_ ≠ 0) :
    InvN n ((ControlBlockBase.Increment b s).setS d ⟨p, some b⟩) := by
  have hlt : (s.heap b).count_ + 1 < SIZE := by
    have h1 := liveOn_lt s.sh n b d hd (hold b)
    have h2 := hI.cnt b
    have h3 := hI.n_lt
    omega
  have hmod : ((s.heap b).count_ + 1) % SIZE = (s.heap b).count_ + 1 := Nat.mod_eq_of_lt hlt
  refine hI.of_update _ d (some ⟨p, some b⟩) hd ?_ ?_ ?_ ?_ ?_ ?_ ?_ ?_
  · rfl
  · exact le_refl _
  · intro h c ho hh
    simp only [Option.some.injEq] at ho
    subst ho
    simp only [Option.some.injEq] at hh
    subst hh
    exact hb
  · exact hI.wref
  · intro c
    simp only [setS_heap, Increment_count, hold c, onBlock_some, decide_eq_true_eq,
      Option.some.injEq]
    by_cases hcb : c = b
    · subst hcb; simp [hmod]
    · have : ¬ b = c := fun h => hcb h.symm
      simp [hcb, this]
  · intro c hcn
    simp only [setS_heap, Increment_count, Increment_destroyed]
    have := hI.des c hcn
    by_cases hcb : c = b
    · subst hcb; simp [hmod, this, hc]
    · simpa [hcb] using this
  · exact Increment_bounded _ _ hI.wlt
  · intro c hcn he hcc
    simp only [setS_heap, Increment_esft] at he
    simp only [setS_heap, Increment_count] at hcc
    simp only [setS_wk, Increment_wk, Get_setS, Get_Increment]
    apply hI.self c hcn he
    by_cases hcb : c = b
    · subst hcb; exact hc
    · simpa [hcb] using hcc

theorem Destroy_wk (b : Nat) (s : State) :
    (Destroy b s).wk
      = if (s.heap b).esft = true ∧ (s.heap b).storage.hasPayload = true
          then Function.update s.wk (.weakThis b) none else s.wk := by
  unfold Destroy
  split
  · rename_i p hp
    cases p with
    | none => simp [State.modBlock, hp, Storage.hasPayload]
    | some x =>
      by_cases he : (s.heap b).esft = true
      · simp [State.modBlock, hp, Storage.hasPayload, payloadDtor_wk, he]
      · simp [State.modBlock, hp, Storage.hasPayload, payloadDtor_wk, he]
  · rename_i buf hp
    by_cases he : (s.heap b).esft = true
    · simp [hp, Storage.hasPayload, payloadDtor_wk, he]
    · simp [hp, Storage.hasPayload, payloadDtor_wk, he]

theorem Decrement_wk (b : Nat) (s : State) :
    (ControlBlockBase.Decrement Destroy b s).wk
      = if ((s.heap b).count_ + SIZE - 1) % SIZE = 0 ∧ (s.heap b).esft = true
            ∧ (s.heap b).storage.hasPayload = true
          then Function.update s.wk (.weakThis b) none else s.wk := by
  by_cases h0 : ((s.heap b).count_ + SIZE - 1) % SIZE = 0
  · unfold ControlBlockBase.Decrement ControlBlockBase.deleteThis
    dsimp only
    have e1 : ((s.modBlock b fun c => { c with count_ := (c.count_ + SIZE - 1) % SIZE }).heap b).count_ = 0 := by
      simp [State.modBlock, h0]
    rw [if_pos e1]
    have e2 : ∀ u : State, (if ((u.heap b).count_ + (u.heap b).count_weak_) % SIZE = 0
        then u.modBlock b (fun c => { c with deleted := c.deleted + 1 }) else u).wk = u.wk := by
      intro u; split <;> rfl
    rw [e2]
    show (Destroy b _).wk = _
    rw [Destroy_wk]
    simp [State.modBlock, h0]
  · funext a
    rw [Decrement_wk_alive _ _ _ h0]
    simp [h0]

theorem Decrement_wk_sub (b : Nat) (s : State) (a : WAddr) (w : WeakPtr)
    (h : (ControlBlockBase.Decrement Destroy b s).wk a = some w) : s.wk a = some w := by
  rw [Decrement_wk] at h
  split at h
  · by_cases ha : a = .weakThis b
    · subst ha; simp at h
    · rwa [Function.update_noteq ha] at h
  · exact h

theorem SIZE_eq : SIZE = 18446744073709551616 := by norm_num [SIZE]

theorem dec_mod (c : Nat) (h1 : 1 ≤ c) (h2 : c < SIZE) : (c + SIZE - 1) % SIZE = c - 1 := by
  rw [SIZE_eq] at *; omega

theorem inc_mod (c : Nat) (h2 : c + 1 < SIZE) : (c + 1) % SIZE = c + 1 :=
  Nat.mod_eq_of_lt h2

theorem inc_dec_mod (c : Nat) (h2 : c < SIZE) : ((c + 1) % SIZE + SIZE - 1) % SIZE = c := by
  rw [SIZE_eq] at *; omega

theorem dec_inc_mod (c : Nat) (h2 : c < SIZE) : ((c + SIZE - 1) % SIZE + 1) % SIZE = c := by
  rw [SIZE_eq] at *; omega

/-- `Decrement()` on the block of a live handle followed by clearing the handle. -/
theorem InvN.release {n : Nat} {s : State} (hI : InvN n s) (d b : Nat) (p q : Ptr)
    (hd : d < n) (hs : s.sh d = some ⟨p, some b⟩) :
    InvN n ((ControlBlockBase.Decrement Destroy b s).setS d ⟨q, none⟩) := by
  have hb : b < s.next := hI.ref d _ b hs rfl
  have h1 : 1 ≤ (s.heap b).count_ := by
    rw [hI.cnt b]; exact liveOn_pos s.sh n b d _ hd hs rfl
  have h2 : (s.heap b).count_ < SIZE := by
    have := liveOn_le s.sh n b
    have := hI.n_lt
    rw [hI.cnt b]; omega
  have hdec := dec_mod _ h1 h2
  refine hI.of_update _ d (some ⟨q, none⟩) hd ?_ ?_ ?_ ?_ ?_ ?_ ?_ ?_
  · simp
  · simp
  · intro h c ho hh
    simp only [Option.some.injEq] at ho
    subst ho
    simp at hh
  · intro a w c ha hw
    simp only [setS_wk, setS_next, Decrement_next] at ha ⊢
    exact hI.wref a w c (Decrement_wk_sub _ _ _ _ ha) hw
  · intro c
    simp only [setS_heap, Decrement_count, hs, onBlock_some, decide_eq_true_eq,
      Option.some.injEq, hdec]
    by_cases hcb : c = b
    · subst hcb; simp; omega
    · have : ¬ b = c := fun h => hcb h.symm
      simp [hcb, this]
  · intro c hcn
    simp only [setS_next, Decrement_next] at hcn
    simp only [setS_heap, Decrement_count, Decrement_destroyed, hdec]
    have h3 := hI.des c hcn
    by_cases hcb : c = b
    · subst hcb
      have h4 : (s.heap c).count_ ≠ 0 := by omega
      simp only [h4, if_false] at h3
      simp only [h3, true_and, if_true]
      split <;> simp_all
    · simpa [hcb] using h3
  · exact Decrement_bounded _ _ hI.wlt
  · intro c hcn he hcc
    simp only [setS_next, Decrement_next] at hcn
    simp only [setS_heap, Decrement_esft] at he
    simp only [setS_heap, Decrement_count, hdec] at hcc
    simp only [setS_wk, Get_setS]
    by_cases hcb : c = b
    · subst hcb
      simp only [if_true] at hcc
      have h0 : ((s.heap c).count_ + SIZE - 1) % SIZE ≠ 0 := by rw [hdec]; exact hcc
      have h5 := hI.self c hcn he (by omega)
      rw [Decrement_wk_alive _ _ _ h0]
      refine ⟨h5.1, ?_⟩
      rw [Get_congr s _ c (by rw [Decrement_storage]; simp [h0])]
      exact h5.2
    · simp only [hcb, if_false] at hcc
      have h5 := hI.self c hcn he hcc
      rw [Decrement_wk_other _ _ _ hcb]
      refine ⟨h5.1, ?_⟩
      rw [Get_congr s _ c (by rw [Decrement_storage]; simp [hcb])]
      exact h5.2

/-- `Swap` of two live handles. -/
theorem InvN.swap {n : Nat} {s : State} (hI : InvN n s) (a b : Nat) (x y : SharedPtr)
    (ha : a < n) (hb : b < n) (hx : s.sh a = some x) (hy : s.sh b = some y) :
    InvN n ((s.setS a y).setS b x) := by
  refine ⟨hI.n_lt, ?_, ?_, hI.wref, ?_, hI.des, hI.wlt, hI.self⟩
  · intro i hi
    have h1 : i ≠ a := by omega
    have h2 : i ≠ b := by omega
    simp [h1, h2, hI.dead i hi]
  · intro i h c hi hc
    simp only [setS_sh] at hi
    by_cases h2 : i = b
    · subst h2
      simp only [Function.update_same, Option.some.injEq] at hi
      subst hi
      exact hI.ref a _ c hx hc
    · rw [Function.update_noteq h2] at hi
      by_cases h1 : i = a
      · subst h1
        simp only [Function.update_same, Option.some.injEq] at hi
        subst hi
        exact hI.ref b _ c hy hc
      · rw [Function.update_noteq h1] at hi
        exact hI.ref i h c hi hc
  · intro c
    have e1 := liveOn_update c s.sh a (some y) n ha
    have e2 := liveOn_update c (Function.update s.sh a (some y)) b (some x) n hb
    have e3 := hI.cnt c
    simp only [setS_sh, setS_heap]
    rw [hx] at e1
    by_cases hab : b = a
    · subst hab
      rw [Function.update_same] at e2
      rw [hx] at hy
      simp only [Option.some.injEq] at hy
      subst hy
      omega
    · rw [Function.update_noteq hab, hy] at e2
      omega

theorem SameStrong.same_refl (s : State) : SameStrong s s :=
  ⟨rfl, rfl, rfl, rfl, fun _ => rfl, fun _ => rfl, fun _ => rfl, fun _ => rfl, id⟩

theorem SameStrong.same_then {s t u : State} (h1 : SameStrong s t) (h2 : SameStrong t u) :
    SameStrong s u :=
  ⟨h2.sh.trans h1.sh, h2.nS.trans h1.nS, h2.nW.trans h1.nW, h2.next.trans h1.next,
    fun b => (h2.count b).trans (h1.count b), fun b => (h2.storage b).trans (h1.storage b),
    fun b => (h2.esft b).trans (h1.esft b), fun b => (h2.destroyed b).trans (h1.destroyed b),
    fun h => h2.wlt (h1.wlt h)⟩

theorem SameStrong.setW (s : State) (a : WAddr) (w : WeakPtr) : SameStrong s (s.setW a w) :=
  ⟨rfl, rfl, rfl, rfl, fun _ => rfl, fun _ => rfl, fun _ => rfl, fun _ => rfl, id⟩

theorem SameStrong.killW (s : State) (a : WAddr) : SameStrong s (s.killW a) :=
  ⟨rfl, rfl, rfl, rfl, fun _ => rfl, fun _ => rfl, fun _ => rfl, fun _ => rfl, id⟩

theorem SameStrong.incWeak (s : State) (b : Nat) :
    SameStrong s (ControlBlockBase.IncrementWeak b s) :=
  ⟨rfl, rfl, rfl, rfl, fun _ => by simp, fun _ => by simp, fun _ => by simp, fun _ => by simp,
    IncrementWeak_bounded b s⟩

theorem SameStrong.decWeak (s : State) (b : Nat) :
    SameStrong s (ControlBlockBase.DecrementWeak b s) :=
  ⟨by simp, by simp, by simp, by simp, fun _ => by simp, fun _ => by simp, fun _ => by simp,
    fun _ => by simp, DecrementWeak_bounded b s⟩

/-- `IncrementWeak()` on the block of an optional reference. -/
theorem SameStrong.incWeakOpt (s : State) (blk : Option Nat) :
    SameStrong s (match blk with
      | some b => ControlBlockBase.IncrementWeak b s
      | none => s) := by
  cases blk with
  | none => exact SameStrong.same_refl s
  | some b => exact SameStrong.incWeak s b

/-- `DecrementWeak()` on the block of an optional reference. -/
theorem SameStrong.decWeakOpt (s : State) (blk : Option Nat) :
    SameStrong s (match blk with
      | some b => ControlBlockBase.DecrementWeak b s
      | none => s) := by
  cases blk with
  | none => exact SameStrong.same_refl s
  | some b => exact SameStrong.decWeak s b

theorem incWeakOpt_wk (s : State) (blk : Option Nat) :
    (match blk with
      | some b => ControlBlockBase.IncrementWeak b s
      | none => s).wk = s.wk := by
  cases blk <;> rfl

theorem decWeakOpt_wk (s : State) (blk : Option Nat) :
    (match blk with
      | some b => ControlBlockBase.DecrementWeak b s
      | none => s).wk = s.wk := by
  cases blk <;> simp

theorem incWeakOpt_sh (s : State) (blk : Option Nat) :
    (match blk with
      | some b => ControlBlockBase.IncrementWeak b s
      | none => s).sh = s.sh := by
  cases blk <;> rfl

theorem decWeakOpt_sh (s : State) (blk : Option Nat) :
    (match blk with
      | some b => ControlBlockBase.DecrementWeak b s
      | none => s).sh = s.sh := by
  cases blk <;> simp

@[simp] theorem W_setW_same (s : State) (a : WAddr) (w : WeakPtr) : (s.setW a w).W a = w := by
  simp [State.W]

theorem W_congr (s t : State) (a : WAddr) (h : t.wk = s.wk) : t.W a = s.W a := by
  simp [State.W, h]

theorem S_congr (s t : State) (i : Nat) (h : t.sh = s.sh) : t.S i = s.S i := by
  simp [State.S, h]

/-! ### The weak handle methods -/

theorem WeakPtr_copyCtor_same (this other : WAddr) (s : State) :
    SameStrong s (WeakPtr.copyCtor this other s) :=
  (SameStrong.incWeakOpt s _).same_then (SameStrong.setW _ _ _)

theorem WeakPtr_copyCtor_wk (this other : WAddr) (s : State) :
    (WeakPtr.copyCtor this other s).wk
      = Function.update s.wk this (some ⟨(s.W other).block_⟩) := by
  unfold WeakPtr.copyCtor
  simp only [setW_wk, incWeakOpt_wk]

theorem WeakPtr_moveCtor_same (this other : WAddr) (s : State) :
    SameStrong s (WeakPtr.moveCtor this other s) :=
  (SameStrong.setW _ _ _).same_then (SameStrong.setW _ _ _)

theorem WeakPtr_moveCtor_wk (this other : WAddr) (s : State) :
    (WeakPtr.moveCtor this other s).wk
      = Function.update (Function.update s.wk this (some ⟨(s.W other).block_⟩)) other
          (some ⟨none⟩) := rfl

theorem WeakPtr_fromShared_same (this : WAddr) (other : Nat) (s : State) :
    SameStrong s (WeakPtr.fromShared this other s) :=
  (SameStrong.incWeakOpt s _).same_then (SameStrong.setW _ _ _)

theorem WeakPtr_fromShared_wk (this : WAddr) (other : Nat) (s : State) :
    (WeakPtr.fromShared this other s).wk
      = Function.update s.wk this (some ⟨(s.S other).block_⟩) := by
  unfold WeakPtr.fromShared
  simp only [setW_wk, incWeakOpt_wk]

theorem WeakPtr_Reset_same (this : WAddr) (s : State) : SameStrong s (WeakPtr.Reset this s) :=
  (SameStrong.decWeakOpt s _).same_then (SameStrong.setW _ _ _)

theorem WeakPtr_Reset_wk (this : WAddr) (s : State) :
    (WeakPtr.Reset this s).wk = Function.update s.wk this (some ⟨none⟩) := by
  unfold WeakPtr.Reset WeakPtr.MakeNull
  simp only [setW_wk, decWeakOpt_wk]

theorem WeakPtr_assignShared_same (this : WAddr) (other : Nat) (s : State) :
    SameStrong s (WeakPtr.assignShared this other s) :=
  ((WeakPtr_Reset_same this s).same_then (SameStrong.setW _ _ _)).same_then
    (SameStrong.incWeakOpt _ _)

theorem WeakPtr_assignShared_wk (this : WAddr) (other : Nat) (s : State) :
    (WeakPtr.assignShared this other s).wk
      = Function.update s.wk this (some ⟨(s.S other).block_⟩) := by
  unfold WeakPtr.assignShared
  simp only [incWeakOpt_wk, setW_wk, WeakPtr_Reset_wk, Function.update_idem]
  rw [S_congr s _ other (WeakPtr_Reset_same this s).sh]

theorem WeakPtr_copyAssign_same (this other : WAddr) (s : State) :
    SameStrong s (WeakPtr.copyAssign this other s) :=
  ((SameStrong.incWeakOpt s _).same_then (SameStrong.decWeakOpt _ _)).same_then (SameStrong.setW _ _ _)

theorem WeakPtr_copyAssign_wk (this other : WAddr) (s : State) :
    (WeakPtr.copyAssign this other s).wk
      = Function.update s.wk this (some ⟨(s.W other).block_⟩) := by
  unfold WeakPtr.copyAssign
  simp only [setW_wk, decWeakOpt_wk, incWeakOpt_wk]
  rw [W_congr s _ other (by simp only [decWeakOpt_wk, incWeakOpt_wk])]

theorem WeakPtr_moveAssign_same (this other : WAddr) (s : State) :
    SameStrong s (WeakPtr.moveAssign this other s) := by
  unfold WeakPtr.moveAssign WeakPtr.MakeNull
  refine (SameStrong.same_then ?_ (SameStrong.setW _ _ _)).same_then (SameStrong.setW _ _ _)
  split
  · split
    · exact SameStrong.decWeak _ _
    · exact SameStrong.same_refl _
  · exact SameStrong.same_refl _

theorem WeakPtr_moveAssign_wk (this other : WAddr) (s : State) :
    (WeakPtr.moveAssign this other s).wk
      = Function.update (Function.update s.wk this (some ⟨(s.W other).block_⟩)) other
          (some ⟨none⟩) := by
  have e : ∀ (blk : Option Nat) (c : Prop) [Decidable c], (match blk with
      | some b => if c then ControlBlockBase.DecrementWeak b s else s
      | none => s).wk = s.wk := by
    intro blk c _
    cases blk with
    | none => rfl
    | some b => dsimp only; split <;> simp
  unfold WeakPtr.moveAssign WeakPtr.MakeNull
  simp only [setW_wk, e]
  rw [W_congr s _ other (e _ _)]

theorem WeakPtr_dtor_same (this : WAddr) (s : State) : SameStrong s (WeakPtr.dtor this s) := by
  unfold WeakPtr.dtor
  refine SameStrong.same_then ?_ (SameStrong.killW _ _)
  split
  · exact SameStrong.same_refl _
  · exact SameStrong.decWeak _ _

theorem WeakPtr_Swap_wk (this other : WAddr) (s : State) :
    (WeakPtr.Swap this other s).wk
      = Function.update (Function.update s.wk this (some (s.W other))) other
          (some (s.W this)) := rfl

theorem WeakPtr_Swap_same (this other : WAddr) (s : State) :
    SameStrong s (WeakPtr.Swap this other s) :=
  (SameStrong.setW _ _ _).same_then (SameStrong.setW _ _ _)

theorem W_block (s : State) (a : WAddr) (b : Nat) (h : (s.W a).block_ = some b) :
    ∃ w, s.wk a = some w ∧ w.block_ = some b := by
  unfold State.W at h
  cases hw : s.wk a with
  | none => simp [hw] at h
  | some w => exact ⟨w, rfl, by simpa [hw] using h⟩

theorem S_block (s : State) (i : Nat) (b : Nat) (h : (s.S i).block_ = some b) :
    ∃ v, s.sh i = some v ∧ v.block_ = some b := by
  unfold State.S at h
  cases hv : s.sh i with
  | none => simp [hv] at h
  | some v => exact ⟨v, rfl, by simpa [hv] using h⟩

theorem S_of_sh (s : State) (i : Nat) (v : SharedPtr) (h : s.sh i = some v) : s.S i = v := by
  simp [State.S, h]

theorem W_of_wk (s : State) (a : WAddr) (w : WeakPtr) (h : s.wk a = some w) : s.W a = w := by
  simp [State.W, h]

theorem InvN.W_lt {n : Nat} {s : State} (hI : InvN n s) (a : WAddr) (b : Nat)
    (h : (s.W a).block_ = some b) : b < s.next := by
  obtain ⟨w, hw, hb⟩ := W_block s a b h
  exact hI.wref a w b hw hb

theorem InvN.S_lt {n : Nat} {s : State} (hI : InvN n s) (i : Nat) (b : Nat)
    (h : (s.S i).block_ = some b) : b < s.next := by
  obtain ⟨v, hv, hb⟩ := S_block s i b h
  exact hI.ref i v b hv hb

/-- Transfer of the invariant across a method that only touches the weak side. -/
theorem InvN.weakSide {n : Nat} {s : State} (hI : InvN n s) (t : State) (hS : SameStrong s t)
    (hwref : ∀ a w b, t.wk a = some w → w.block_ = some b → b < s.next)
    (hself : ∀ b, s.wk (.weakThis b) = some ⟨some b⟩ → t.wk (.weakThis b) = some ⟨some b⟩) :
    InvN n t := by
  refine ⟨hI.n_lt, ?_, ?_, ?_, ?_, ?_, hS.wlt hI.wlt, ?_⟩
  · intro i hi; rw [hS.sh]; exact hI.dead i hi
  · intro i h b hi hb; rw [hS.sh] at hi; rw [hS.next]; exact hI.ref i h b hi hb
  · intro a w b ha hb; rw [hS.next]; exact hwref a w b ha hb
  · intro b; rw [hS.count, hS.sh]; exact hI.cnt b
  · intro b hb; rw [hS.next] at hb; rw [hS.count, hS.destroyed]; exact hI.des b hb
  · intro b hb he hc
    rw [hS.next] at hb
    rw [hS.esft] at he
    rw [hS.count] at hc
    have := hI.self b hb he hc
    exact ⟨hself b this.1, by rw [Get_congr s t b (hS.storage b)]; exact this.2⟩

/-- One weak handle variable is rewritten. -/
theorem InvN.weakUpdate {n : Nat} {s : State} (hI : InvN n s) (t : State) (hS : SameStrong s t)
    (i : Nat) (o : Option WeakPtr) (hwk : t.wk = Function.update s.wk (.var i) o)
    (ho : ∀ w b, o = some w → w.block_ = some b → b < s.next) : InvN n t := by
  apply hI.weakSide t hS
  · intro a w b ha hb
    rw [hwk] at ha
    by_cases hai : a = .var i
    · subst hai; rw [Function.update_same] at ha; exact ho w b ha hb
    · rw [Function.update_noteq hai] at ha; exact hI.wref a w b ha hb
  · intro b hb
    rw [hwk, Function.update_noteq (by simp)]
    exact hb

/-- Two weak handle variables are rewritten. -/
theorem InvN.weakUpdate2 {n : Nat} {s : State} (hI : InvN n s) (t : State)
    (hS : SameStrong s t) (i j : Nat) (o1 o2 : Option WeakPtr)
    (hwk : t.wk = Function.update (Function.update s.wk (.var i) o1) (.var j) o2)
    (ho1 : ∀ w b, o1 = some w → w.block_ = some b → b < s.next)
    (ho2 : ∀ w b, o2 = some w → w.block_ = some b → b < s.next) : InvN n t := by
  apply hI.weakSide t hS
  · intro a w b ha hb
    rw [hwk] at ha
    by_cases haj : a = .var j
    · subst haj; rw [Function.update_same] at ha; exact ho2 w b ha hb
    · rw [Function.update_noteq haj] at ha
      by_cases hai : a = .var i
      · subst hai; rw [Function.update_same] at ha; exact ho1 w b ha hb
      · rw [Function.update_noteq hai] at ha; exact hI.wref a w b ha hb
  · intro b hb
    rw [hwk, Function.update_noteq (by simp), Function.update_noteq (by simp)]
    exact hb

/-- `InitWeakThis` for a handle that already references the block. -/
theorem InvN.initWeakThis {n : Nat} {s : State} (hI : InvN n s) (this b : Nat) (p : Ptr)
    (hs : s.sh this = some ⟨p, some b⟩) : InvN n (SharedPtr.InitWeakThis this b s) := by
  unfold SharedPtr.InitWeakThis
  have hb : b < s.next := hI.ref this _ b hs rfl
  apply hI.weakSide _ (WeakPtr_assignShared_same _ _ _)
  · intro a w c ha hc
    rw [WeakPtr_assignShared_wk, S_of_sh s this _ hs] at ha
    by_cases hab : a = .weakThis b
    · subst hab
      simp only [Function.update_same, Option.some.injEq] at ha
      subst ha
      simp only [Option.some.injEq] at hc
      omega
    · rw [Function.update_noteq hab] at ha; exact hI.wref a w c ha hc
  · intro c hc
    rw [WeakPtr_assignShared_wk, S_of_sh s this _ hs]
    by_cases hcb : c = b
    · subst hcb; simp
    · rw [Function.update_noteq (by simpa using hcb)]; exact hc

@[simp] theorem create_sh (st : Storage) (esft : Bool) (s : State) :
    (ControlBlockBase.create st esft s).sh = s.sh := by
  unfold ControlBlockBase.create; cases esft <;> rfl
@[simp] theorem create_nS (st : Storage) (esft : Bool) (s : State) :
    (ControlBlockBase.create st esft s).nS = s.nS := by
  unfold ControlBlockBase.create; cases esft <;> rfl
@[simp] theorem create_nW (st : Storage) (esft : Bool) (s : State) :
    (ControlBlockBase.create st esft s).nW = s.nW := by
  unfold ControlBlockBase.create; cases esft <;> rfl
@[simp] theorem create_next (st : Storage) (esft : Bool) (s : State) :
    (ControlBlockBase.create st esft s).next = s.next + 1 := by
  unfold ControlBlockBase.create; cases esft <;> rfl
@[simp] theorem create_heap (st : Storage) (esft : Bool) (s : State) :
    (ControlBlockBase.create st esft s).heap
      = Function.update s.heap s.next (ControlBlockBase.fresh st esft) := by
  unfold ControlBlockBase.create; cases esft <;> rfl
theorem create_wk (st : Storage) (esft : Bool) (s : State) :
    (ControlBlockBase.create st esft s).wk
      = if esft = true then Function.update s.wk (.weakThis s.next) (some ⟨none⟩) else s.wk := by
  unfold ControlBlockBase.create; cases esft <;> rfl

/-- Allocation of a block whose first reference is stored in the handle `d`;
`t` is the state once the self-reference, if any, has been set up. -/
theorem InvN.createCore {n : Nat} {s : State} (hI : InvN n s) (d : Nat) (st : Storage)
    (esft : Bool) (p : Ptr) (hd : d < n) (hold : ∀ c, onBlock c (s.sh d) = false)
    (hget : esft = true → st.Get ≠ none) (t : State)
    (hS : SameStrong ((ControlBlockBase.create st esft s).setS d ⟨p, some s.next⟩) t)
    (hwk : t.wk = if esft = true
      then Function.update s.wk (.weakThis s.next) (some ⟨some s.next⟩) else s.wk) :
    InvN n t := by
  have hfresh : (s.heap s.next).count_ = 0 := by
    rw [hI.cnt]; exact hI.fresh _ (le_refl _)
  have hnext : t.next = s.next + 1 := by rw [hS.next]; simp
  refine hI.of_update _ d (some ⟨p, some s.next⟩) hd ?_ ?_ ?_ ?_ ?_ ?_ ?_ ?_
  · rw [hS.sh]; simp
  · omega
  · intro h c ho hh
    simp only [Option.some.injEq] at ho
    subst ho
    simp only [Option.some.injEq] at hh
    subst hh
    omega
  · intro a w c ha hc
    rw [hwk] at ha
    rw [hnext]
    split at ha
    · by_cases haw : a = .weakThis s.next
      · subst haw
        simp only [Function.update_same, Option.some.injEq] at ha
        subst ha
        simp only [Option.some.injEq] at hc
        omega
      · rw [Function.update_noteq haw] at ha
        have := hI.wref a w c ha hc
        omega
    · have := hI.wref a w c ha hc
      omega
  · intro c
    rw [hS.count]
    simp only [setS_heap, create_heap, hold c, onBlock_some, decide_eq_true_eq,
      Option.some.injEq]
    by_cases hc : c = s.next
    · subst hc; simp [ControlBlockBase.fresh, hfresh]
    · have : ¬ s.next = c := fun h => hc h.symm
      simp [hc, this]
  · intro c hc
    rw [hnext] at hc
    rw [hS.count, hS.destroyed]
    simp only [setS_heap, create_heap]
    by_cases hcn : c = s.next
    · subst hcn; simp [ControlBlockBase.fresh]
    · simp only [Function.update_noteq hcn]
      exact hI.des c (by omega)
  · apply hS.wlt
    intro c
    simp only [setS_heap, create_heap]
    by_cases hcn : c = s.next
    · subst hcn; simp [ControlBlockBase.fresh, SIZE_pos]
    · simp only [Function.update_noteq hcn]; exact hI.wlt c
  · intro c hc he hcc
    rw [hnext] at hc
    rw [hS.esft] at he
    rw [hS.count] at hcc
    simp only [setS_heap, create_heap] at he hcc
    rw [Get_congr _ t c (hS.storage c)]
    by_cases hcn : c = s.next
    · subst hcn
      simp only [Function.update_same, ControlBlockBase.fresh] at he
      subst he
      rw [hwk]
      simp only [if_true, Function.update_same, true_and]
      simpa [ControlBlockBase.Get, ControlBlockBase.fresh] using hget rfl
    · simp only [Function.update_noteq hcn] at he hcc
      have h5 := hI.self c (by omega) he hcc
      constructor
      · rw [hwk]
        split
        · rw [Function.update_noteq (by simpa using hcn)]; exact h5.1
        · exact h5.1
      · rw [Get_congr s _ c (by simp [hcn])]
        exact h5.2

/-- Allocation of a block whose first reference is stored in the handle `d`,
with the self-reference set up when the payload supports it. -/
theorem InvN.createInto {n : Nat} {s : State} (hI : InvN n s) (d : Nat) (st : Storage)
    (esft : Bool) (p : Ptr) (hd : d < n) (hold : ∀ c, onBlock c (s.sh d) = false)
    (hget : esft = true → st.Get ≠ none) :
    InvN n (if esft = true
      then SharedPtr.InitWeakThis d s.next ((ControlBlockBase.create st esft s).setS d ⟨p, some s.next⟩)
      else (ControlBlockBase.create st esft s).setS d ⟨p, some s.next⟩) := by
  apply hI.createCore d st esft p hd hold hget
  · split
    · exact WeakPtr_assignShared_same _ _ _
    · exact SameStrong.same_refl _
  · cases esft with
    | false => simp [create_wk]
    | true =>
      simp only [if_true, SharedPtr.InitWeakThis, WeakPtr_assignShared_wk, setS_wk, create_wk,
        Function.update_idem]
      simp [State.S]

/-- Copy assignment between two handles that both reference a block:
`Increment()` on the source's block, `Decrement()` on the target's, then the copy. -/
theorem InvN.assign {n : Nat} {s : State} (hI : InvN n s) (d src bd bs : Nat) (pd ps : Ptr)
    (hd : d < n) (hsrc : src < n)
    (hsd : s.sh d = some ⟨pd, some bd⟩) (hss : s.sh src = some ⟨ps, some bs⟩) :
    InvN n ((ControlBlockBase.Decrement Destroy bd (ControlBlockBase.Increment bs s)).setS d
      ⟨ps, some bs⟩) := by
  have hbd : bd < s.next := hI.ref d _ bd hsd rfl
  have hbs : bs < s.next := hI.ref src _ bs hss rfl
  have hn := hI.n_lt
  have d1 : 1 ≤ (s.heap bd).count_ := by
    rw [hI.cnt bd]; exact liveOn_pos s.sh n bd d _ hd hsd rfl
  have d2 : (s.heap bd).count_ < SIZE := by
    have := liveOn_le s.sh n bd
    rw [hI.cnt bd]; omega
  have s1 : 1 ≤ (s.heap bs).count_ := by
    rw [hI.cnt bs]; exact liveOn_pos s.sh n bs src _ hsrc hss rfl
  -- the strong count of the target's block after both calls
  have key : ((if bd = bs then ((s.heap bs).count_ + 1) % SIZE else (s.heap bd).count_)
      + SIZE - 1) % SIZE = if bd = bs then (s.heap bd).count_ else (s.heap bd).count_ - 1 := by
    by_cases h : bd = bs
    · subst h; simp only [if_true]; exact inc_dec_mod _ d2
    · simp only [h, if_false]; exact dec_mod _ d1 d2
  have keys : bd ≠ bs → ((s.heap bs).count_ + 1) % SIZE = (s.heap bs).count_ + 1 := by
    intro h
    apply inc_mod
    have h1 : onBlock bs (s.sh d) = false := by
      simp [hsd, onBlock_some, h]
    have := liveOn_lt s.sh n bs d hd h1
    rw [hI.cnt bs]; omega
  have halive : bd = bs ∨ (s.heap bd).count_ - 1 ≠ 0 →
      (((ControlBlockBase.Increment bs s).heap bd).count_ + SIZE - 1) % SIZE ≠ 0 := by
    intro h
    rw [Increment_count, key]
    by_cases hb : bd = bs
    · rw [if_pos hb]; omega
    · rw [if_neg hb]
      rcases h with h | h
      · exact absurd h hb
      · exact h
  refine hI.of_update _ d (some ⟨ps, some bs⟩) hd ?_ ?_ ?_ ?_ ?_ ?_ ?_ ?_
  · simp
  · simp
  · intro h c ho hh
    simp only [Option.some.injEq] at ho
    subst ho
    simp only [Option.some.injEq] at hh
    subst hh
    rw [setS_next, Decrement_next, Increment_next]
    exact hbs
  · intro a w c ha hw
    rw [setS_next, Decrement_next, Increment_next]
    have ha1 : (ControlBlockBase.Decrement Destroy bd (ControlBlockBase.Increment bs s)).wk a
        = some w := ha
    have ha2 : (ControlBlockBase.Increment bs s).wk a = some w :=
      Decrement_wk_sub bd (ControlBlockBase.Increment bs s) a w ha1
    exact hI.wref a w c ha2 hw
  · intro c
    simp only [setS_heap, Decrement_count, Increment_count, hsd, onBlock_some,
      decide_eq_true_eq, Option.some.injEq, key]
    by_cases hb : bd = bs
    · subst hb
      by_cases hc : c = bd
      · subst hc; simp
      · have : ¬ bd = c := fun h => hc h.symm
        simp [hc, this]
    · have ks := keys hb
      by_cases hc : c = bd
      · subst hc
        have : ¬ bs = c := fun h => hb h.symm
        simp [hb, this]; omega
      · have h1 : ¬ bd = c := fun h => hc h.symm
        by_cases hc2 : c = bs
        · subst hc2; simp [hc, h1, ks]
        · have h2 : ¬ bs = c := fun h => hc2 h.symm
          simp [hc, h1, hc2, h2]
  · intro c hcn
    simp only [setS_next, Decrement_next, Increment_next] at hcn
    simp only [setS_heap, Decrement_count, Decrement_destroyed, Increment_count,
      Increment_destroyed, key]
    have h3 := hI.des c hcn
    by_cases hb : bd = bs
    · subst hb
      by_cases hc : c = bd
      · subst hc
        have : (s.heap c).count_ ≠ 0 := by omega
        simp [this, h3]
      · simpa [hc] using h3
    · have ks := keys hb
      have h4 := hI.des bd hbd
      have h5 := hI.des bs hbs
      by_cases hc : c = bd
      · subst hc
        have : (s.heap c).count_ ≠ 0 := by omega
        simp only [this, if_false] at h3
        simp only [hb, if_false, true_and, if_true, h3]
        split <;> simp_all
      · by_cases hc2 : c = bs
        · subst hc2
          have : (s.heap c).count_ ≠ 0 := by omega
          simp [hc, ks, h3, this]
        · simpa [hc, hc2] using h3
  · exact Decrement_bounded _ _ (Increment_bounded _ _ hI.wlt)
  · intro c hcn he hcc
    simp only [setS_next, Decrement_next, Increment_next] at hcn
    simp only [setS_heap, Decrement_esft, Increment_esft] at he
    simp only [setS_heap, Decrement_count, Increment_count, key] at hcc
    simp only [setS_wk, Get_setS]
    have hold : (s.heap c).count_ ≠ 0 := by
      by_cases hc : c = bd
      · subst hc; omega
      · by_cases hc2 : c = bs
        · subst hc2; omega
        · simpa [hc, hc2] using hcc
    have h5 := hI.self c hcn he hold
    by_cases hc : c = bd
    · have h0 := halive (by
        by_cases hb : bd = bs
        · exact Or.inl hb
        · right; subst hc; simpa [hb] using hcc)
      rw [Decrement_wk_alive _ _ _ h0]
      refine ⟨h5.1, ?_⟩
      rw [Get_congr s _ c (by
        rw [Decrement_storage, if_neg (fun h => h0 h.2), Increment_storage])]
      exact h5.2
    · rw [Decrement_wk_other _ _ _ hc]
      refine ⟨h5.1, ?_⟩
      rw [Get_congr s _ c (by
        rw [Decrement_storage, if_neg (fun h => hc h.1), Increment_storage])]
      exact h5.2

@[simp] theorem S_Increment (s : State) (b i : Nat) :
    (ControlBlockBase.Increment b s).S i = s.S i := rfl
@[simp] theorem S_Decrement (s : State) (b i : Nat) :
    (ControlBlockBase.Decrement Destroy b s).S i = s.S i :=
  S_congr _ _ _ (Decrement_sh _ _)
@[simp] theorem W_Increment (s : State) (b : Nat) (a : WAddr) :
    (ControlBlockBase.Increment b s).W a = s.W a := rfl
@[simp] theorem W_setS (s : State) (i : Nat) (v : SharedPtr) (a : WAddr) :
    (s.setS i v).W a = s.W a := rfl
@[simp] theorem S_setS_same (s : State) (i : Nat) (v : SharedPtr) : (s.setS i v).S i = v := by
  simp [State.S]
theorem S_setS_other (s : State) (i j : Nat) (v : SharedPtr) (h : j ≠ i) :
    (s.setS i v).S j = s.S j := by
  simp [State.S, h]

theorem noBlock_of_none (s : State) (d : Nat) (h : s.sh d = none) :
    ∀ c, onBlock c (s.sh d) = false := by
  intro c; rw [h]; rfl

/-! ### Shared handle methods preserve the invariant -/

theorem ctorDefault_inv {n : Nat} {s : State} (hI : InvN n s) (d : Nat) (hd : d < n)
    (hfree : s.sh d = none) : InvN n (SharedPtr.ctorDefault d s) :=
  hI.setFree d (some ⟨none, none⟩) hd (noBlock_of_none s d hfree) (fun _ => rfl)

theorem Reset_sh (d : Nat) (s : State) :
    (SharedPtr.Reset d s).sh = Function.update s.sh d (some ⟨none, none⟩) := by
  unfold SharedPtr.Reset
  cases (s.S d).block_ <;> simp

theorem Reset_nS (d : Nat) (s : State) : (SharedPtr.Reset d s).nS = s.nS := by
  unfold SharedPtr.Reset
  cases (s.S d).block_ <;> simp

theorem Reset_inv {n : Nat} {s : State} (hI : InvN n s) (d : Nat) (v : SharedPtr) (hd : d < n)
    (hv : s.sh d = some v) : InvN n (SharedPtr.Reset d s) := by
  obtain ⟨p, blk⟩ := v
  unfold SharedPtr.Reset
  rw [S_of_sh s d _ hv]
  cases blk with
  | none =>
    exact hI.setFree d (some ⟨none, none⟩) hd (by intro c; rw [hv]; rfl) (fun _ => rfl)
  | some b => exact hI.release d b p none hd hv

theorem Swap_sh (a b : Nat) (s : State) :
    (SharedPtr.Swap a b s).sh
      = Function.update (Function.update s.sh a (some (s.S b))) b (some (s.S a)) := rfl

theorem Swap_inv {n : Nat} {s : State} (hI : InvN n s) (a b : Nat) (x y : SharedPtr)
    (ha : a < n) (hb : b < n) (hx : s.sh a = some x) (hy : s.sh b = some y) :
    InvN n (SharedPtr.Swap a b s) := by
  unfold SharedPtr.Swap
  rw [S_of_sh s a _ hx, S_of_sh s b _ hy]
  exact hI.swap a b x y ha hb hx hy

theorem moveAssign_sh (d src : Nat) (s : State) :
    (SharedPtr.moveAssign d src s).sh
      = Function.update (Function.update (Function.update s.sh d (some ⟨none, none⟩)) d
          (some ((SharedPtr.Reset d s).S src))) src (some ((SharedPtr.Reset d s).S d)) := by
  unfold SharedPtr.moveAssign
  rw [Swap_sh, Reset_sh]

theorem moveAssign_nS (d src : Nat) (s : State) : (SharedPtr.moveAssign d src s).nS = s.nS := by
  unfold SharedPtr.moveAssign SharedPtr.Swap
  simp [Reset_nS]

theorem moveAssign_inv {n : Nat} {s : State} (hI : InvN n s) (d src : Nat) (x y : SharedPtr)
    (hd : d < n) (hsrc : src < n) (hx : s.sh d = some x) (hy : s.sh src = some y) :
    InvN n (SharedPtr.moveAssign d src s) := by
  unfold SharedPtr.moveAssign
  have h1 := Reset_inv hI d x hd hx
  have hd1 : (SharedPtr.Reset d s).sh d = some ⟨none, none⟩ := by rw [Reset_sh]; simp
  by_cases h : src = d
  · subst h
    exact Swap_inv h1 src src _ _ hd hd hd1 hd1
  · have hs1 : (SharedPtr.Reset d s).sh src = some y := by
      rw [Reset_sh, Function.update_noteq h]; exact hy
    exact Swap_inv h1 d src _ _ hd hsrc hd1 hs1

theorem dtor_sh_self (d : Nat) (s : State) : (SharedPtr.dtor d s).sh d = none := by
  unfold SharedPtr.dtor
  cases (s.S d).block_ <;> simp

theorem dtor_nS (d : Nat) (s : State) : (SharedPtr.dtor d s).nS = s.nS := by
  unfold SharedPtr.dtor
  cases (s.S d).block_ <;> simp [Reset_nS]

theorem dtor_inv {n : Nat} {s : State} (hI : InvN n s) (d : Nat) (v : SharedPtr) (hd : d < n)
    (hv : s.sh d = some v) : InvN n (SharedPtr.dtor d s) := by
  unfold SharedPtr.dtor
  cases hb : (s.S d).block_ with
  | none =>
    refine hI.setFree d none hd ?_ (fun _ => rfl)
    intro c
    rw [S_of_sh s d _ hv] at hb
    simp [hv, onBlock, hb]
  | some b =>
    have h1 := Reset_inv hI d v hd hv
    refine h1.setFree d none hd ?_ (fun _ => rfl)
    intro c
    rw [Reset_sh]; simp [onBlock]

theorem aliasCtor_nS (d src : Nat) (p : Ptr) (s : State) :
    (SharedPtr.aliasCtor d src p s).nS = s.nS := by
  unfold SharedPtr.aliasCtor
  cases (s.S src).block_ <;> rfl

theorem aliasCtor_inv {n : Nat} {s : State} (hI : InvN n s) (d src : Nat) (p : Ptr)
    (v : SharedPtr) (hd : d < n) (hfree : s.sh d = none) (hsrc : src < n)
    (hv : s.sh src = some v) : InvN n (SharedPtr.aliasCtor d src p s) := by
  obtain ⟨q, blk⟩ := v
  unfold SharedPtr.aliasCtor
  rw [S_of_sh s src _ hv]
  cases blk with
  | none =>
    exact hI.setFree d (some ⟨p, none⟩) hd (noBlock_of_none s d hfree) (fun _ => rfl)
  | some b =>
    have hb : b < s.next := hI.ref src _ b hv rfl
    have hc : (s.heap b).count_ ≠ 0 := by
      have := liveOn_pos s.sh n b src _ hsrc hv rfl
      rw [hI.cnt b]; omega
    exact hI.acquire d b p hd (noBlock_of_none s d hfree) hb hc

theorem copyCtor_eq (d src : Nat) (s : State) :
    SharedPtr.copyCtor d src s = SharedPtr.aliasCtor d src (s.S src).ptr_ s := by
  unfold SharedPtr.copyCtor SharedPtr.aliasCtor
  cases (s.S src).block_ <;> rfl

theorem copyCtor_inv {n : Nat} {s : State} (hI : InvN n s) (d src : Nat)
    (v : SharedPtr) (hd : d < n) (hfree : s.sh d = none) (hsrc : src < n)
    (hv : s.sh src = some v) : InvN n (SharedPtr.copyCtor d src s) := by
  rw [copyCtor_eq]
  exact aliasCtor_inv hI d src _ v hd hfree hsrc hv

theorem setS_setS (s : State) (d : Nat) (v w : SharedPtr) :
    (s.setS d v).setS d w = s.setS d w := by
  unfold State.setS
  simp [Function.update_idem]

theorem moveCtor_inv {n : Nat} {s : State} (hI : InvN n s) (d src : Nat)
    (v : SharedPtr) (hd : d < n) (hfree : s.sh d = none) (hsrc : src < n)
    (hv : s.sh src = some v) : InvN n (SharedPtr.moveCtor d src s) := by
  have hne : src ≠ d := by
    intro h; subst h; rw [hfree] at hv; simp at hv
  have h1 : InvN n (s.setS d ⟨none, none⟩) :=
    hI.setFree d (some ⟨none, none⟩) hd (noBlock_of_none s d hfree) (fun _ => rfl)
  have h2 := h1.swap d src ⟨none, none⟩ v hd hsrc (by simp)
    (by rw [setS_sh, Function.update_noteq hne]; exact hv)
  rw [setS_setS] at h2
  unfold SharedPtr.moveCtor SharedPtr.MakeNull
  simp only
  have e : (⟨(s.S src).ptr_, (s.S src).block_⟩ : SharedPtr) = v := by
    rw [S_of_sh s src v hv]
  rw [e]
  exact h2

theorem moveCtor_nS (d src : Nat) (s : State) : (SharedPtr.moveCtor d src s).nS = s.nS := rfl

theorem InitWeakThis_same (this b : Nat) (s : State) :
    SameStrong s (SharedPtr.InitWeakThis this b s) :=
  WeakPtr_assignShared_same _ _ _

theorem ctorPtr_eq (d : Nat) (p : Ptr) (esft : Bool) (s : State) :
    SharedPtr.ctorPtr d p esft s
      = if esft = true
        then SharedPtr.InitWeakThis d s.next
          ((ControlBlockBase.create (.pointer p) esft s).setS d ⟨p, some s.next⟩)
        else (ControlBlockBase.create (.pointer p) esft s).setS d ⟨p, some s.next⟩ := rfl

theorem ctorPtr_inv {n : Nat} {s : State} (hI : InvN n s) (d : Nat) (p : Ptr) (esft : Bool)
    (hd : d < n) (hold : ∀ c, onBlock c (s.sh d) = false) (hp : esft = true → p ≠ none) :
    InvN n (SharedPtr.ctorPtr d p esft s) := by
  rw [ctorPtr_eq]
  exact hI.createInto d (.pointer p) esft p hd hold hp

theorem ctorPtr_sh (d : Nat) (p : Ptr) (esft : Bool) (s : State) :
    (SharedPtr.ctorPtr d p esft s).sh = Function.update s.sh d (some ⟨p, some s.next⟩) := by
  rw [ctorPtr_eq]
  split
  · rw [(InitWeakThis_same _ _ _).sh]; simp
  · simp

theorem ctorPtr_nS (d : Nat) (p : Ptr) (esft : Bool) (s : State) :
    (SharedPtr.ctorPtr d p esft s).nS = s.nS := by
  rw [ctorPtr_eq]
  split
  · rw [(InitWeakThis_same _ _ _).nS]; simp
  · simp

theorem MakeShared_eq (d buf : Nat) (esft : Bool) (s : State) :
    MakeShared d buf esft s
      = if esft = true
        then SharedPtr.InitWeakThis d s.next
          ((ControlBlockBase.create (.element buf) esft s).setS d ⟨some buf, some s.next⟩)
        else (ControlBlockBase.create (.element buf) esft s).setS d ⟨some buf, some s.next⟩ := by
  unfold MakeShared SharedPtr.ctorBlockPtr
  simp [ControlBlockBase.Get, ControlBlockBase.fresh, Storage.Get]

theorem MakeShared_inv {n : Nat} {s : State} (hI : InvN n s) (d buf : Nat) (esft : Bool)
    (hd : d < n) (hold : ∀ c, onBlock c (s.sh d) = false) :
    InvN n (MakeShared d buf esft s) := by
  rw [MakeShared_eq]
  exact hI.createInto d (.element buf) esft (some buf) hd hold (fun _ => by simp [Storage.Get])

theorem MakeShared_nS (d buf : Nat) (esft : Bool) (s : State) :
    (MakeShared d buf esft s).nS = s.nS := by
  rw [MakeShared_eq]
  split
  · rw [(InitWeakThis_same _ _ _).nS]; simp
  · simp

theorem fromWeak_inv {n : Nat} {s t : State} (hI : InvN n s) (d : Nat) (w : WAddr)
    (hd : d < n) (hfree : s.sh d = none) (h : SharedPtr.fromWeak d w s = .ok t) :
    InvN n t := by
  unfold SharedPtr.fromWeak at h
  cases hb : (s.W w).block_ with
  | none => simp [hb] at h
  | some b =>
    simp only [hb] at h
    split at h
    · simp at h
    · rename_i hc
      simp only [Except.ok.injEq] at h
      subst h
      exact hI.acquire d b _ hd (noBlock_of_none s d hfree) (hI.W_lt w b hb) hc

theorem fromWeak_nS (d : Nat) (w : WAddr) (s t : State)
    (h : SharedPtr.fromWeak d w s = .ok t) : t.nS = s.nS := by
  unfold SharedPtr.fromWeak at h
  cases hb : (s.W w).block_ with
  | none => simp [hb] at h
  | some b =>
    simp only [hb] at h
    split at h
    · simp at h
    · simp only [Except.ok.injEq] at h
      subst h
      rfl

theorem copyAssign_nS (d src : Nat) (s : State) : (SharedPtr.copyAssign d src s).nS = s.nS := by
  unfold SharedPtr.copyAssign
  cases (s.S src).block_ <;> simp only [S_Increment] <;> cases (s.S d).block_ <;> simp

theorem copyAssign_inv {n : Nat} {s : State} (hI : InvN n s) (d src : Nat) (x y : SharedPtr)
    (hd : d < n) (hsrc : src < n) (hx : s.sh d = some x) (hy : s.sh src = some y) :
    InvN n (SharedPtr.copyAssign d src s) := by
  obtain ⟨pd, bd⟩ := x
  obtain ⟨ps, bs⟩ := y
  unfold SharedPtr.copyAssign
  rw [S_of_sh s src _ hy]
  cases bs with
  | none =>
    simp only [S_of_sh s d _ hx]
    cases bd with
    | none =>
      simp only [S_of_sh s src _ hy]
      exact hI.setFree d (some ⟨ps, none⟩) hd (by intro c; rw [hx]; rfl) (fun _ => rfl)
    | some b =>
      simp only [S_Decrement, S_of_sh s src _ hy]
      exact hI.release d b pd ps hd hx
  | some b =>
    simp only [S_Increment, S_of_sh s d _ hx]
    cases bd with
    | none =>
      simp only [S_Increment, S_of_sh s src _ hy]
      have hb : b < s.next := hI.ref src _ b hy rfl
      have hc : (s.heap b).count_ ≠ 0 := by
        have := liveOn_pos s.sh n b src _ hsrc hy rfl
        rw [hI.cnt b]; omega
      exact hI.acquire d b ps hd (by intro c; rw [hx]; rfl) hb hc
    | some b2 =>
      simp only [S_Decrement, S_Increment, S_of_sh s src _ hy]
      exact hI.assign d src b2 b pd ps hd hsrc hx hy

theorem ctorBlockPtr_sh (d b : Nat) (p : Ptr) (s : State) :
    (SharedPtr.ctorBlockPtr d b p s).sh = Function.update s.sh d (some ⟨p, some b⟩) := by
  unfold SharedPtr.ctorBlockPtr
  dsimp only
  split
  · rw [(InitWeakThis_same _ _ _).sh]; simp
  · simp

theorem ctorBlockPtr_nS (d b : Nat) (p : Ptr) (s : State) :
    (SharedPtr.ctorBlockPtr d b p s).nS = s.nS := by
  unfold SharedPtr.ctorBlockPtr
  dsimp only
  split
  · rw [(InitWeakThis_same _ _ _).nS]; simp
  · simp

/-- The temporary of `Lock()`: the count was raised, then the handle is
constructed from the block. -/
theorem ctorBlockPtr_inv {n : Nat} {s : State} (hI : InvN n s) (d b : Nat) (p : Ptr)
    (hd : d < n) (hold : ∀ c, onBlock c (s.sh d) = false)
    (hb : b < s.next) (hc : (s.heap b).count_ ≠ 0) :
    InvN n (SharedPtr.ctorBlockPtr d b p (ControlBlockBase.Increment b s)) := by
  have h1 := hI.acquire d b p hd hold hb hc
  unfold SharedPtr.ctorBlockPtr
  dsimp only
  split
  · exact h1.initWeakThis d b p (by simp)
  · exact h1

theorem Lock_nS (w : WAddr) (cur : Nat) (s : State) : (WeakPtr.Lock w cur s).nS = s.nS := by
  unfold WeakPtr.Lock
  dsimp only
  split
  · rfl
  · split
    · rw [dtor_nS, moveAssign_nS, ctorBlockPtr_nS]; rfl
    · rfl

theorem Lock_inv {s : State} (hI : InvN s.nS s) (hn : s.nS + 1 < SIZE) (w : WAddr) (cur : Nat)
    (hcur : cur < s.nS) (hfree : s.sh cur = none) :
    InvN s.nS (WeakPtr.Lock w cur s) := by
  have h1 : InvN s.nS (SharedPtr.ctorDefault cur s) := ctorDefault_inv hI cur hcur hfree
  unfold WeakPtr.Lock
  dsimp only
  have eW : (SharedPtr.ctorDefault cur s).W w = s.W w := rfl
  rw [eW]
  cases hb : (s.W w).block_ with
  | none => exact h1
  | some b =>
    dsimp only
    split
    · rename_i hc
      have hcnt : ((SharedPtr.ctorDefault cur s).heap b).count_ ≠ 0 := hc
      have hbn : b < (SharedPtr.ctorDefault cur s).next := hI.W_lt w b hb
      have e1 : (ControlBlockBase.Increment b (SharedPtr.ctorDefault cur s)).nS = s.nS := rfl
      rw [e1]
      have hdead : (SharedPtr.ctorDefault cur s).sh s.nS = none := h1.dead _ (le_refl _)
      have h2 := ctorBlockPtr_inv (h1.succ hn) s.nS b
        (ControlBlockBase.Get b (ControlBlockBase.Increment b (SharedPtr.ctorDefault cur s)))
        (by omega) (noBlock_of_none _ _ hdead) hbn hcnt
      generalize hs3 : SharedPtr.ctorBlockPtr s.nS b
        (ControlBlockBase.Get b (ControlBlockBase.Increment b (SharedPtr.ctorDefault cur s)))
        (ControlBlockBase.Increment b (SharedPtr.ctorDefault cur s)) = s3 at h2 ⊢
      have hsh3 : s3.sh = Function.update (Function.update s.sh cur (some ⟨none, none⟩)) s.nS
          (some ⟨ControlBlockBase.Get b (ControlBlockBase.Increment b
            (SharedPtr.ctorDefault cur s)), some b⟩) := by
        rw [← hs3, ctorBlockPtr_sh]; rfl
      have hne : cur ≠ s.nS := by omega
      have hcur3 : s3.sh cur = some ⟨none, none⟩ := by
        rw [hsh3, Function.update_noteq hne]; simp
      obtain ⟨v3, htmp3⟩ : ∃ v, s3.sh s.nS = some v := by
        rw [hsh3, Function.update_same]; exact ⟨_, rfl⟩
      have h4 := moveAssign_inv h2 cur s.nS _ _ (by omega) (by omega) hcur3 htmp3
      obtain ⟨v4, htmp4⟩ : ∃ v, (SharedPtr.moveAssign cur s.nS s3).sh s.nS = some v := by
        rw [moveAssign_sh, Function.update_same]; exact ⟨_, rfl⟩
      have h5 := dtor_inv h4 s.nS _ (by omega) htmp4
      exact h5.pred (dtor_sh_self _ _)
    · exact h1

theorem ResetPtr_nS (d : Nat) (p : Ptr) (esft : Bool) (s : State) :
    (SharedPtr.ResetPtr d p esft s).nS = s.nS := by
  unfold SharedPtr.ResetPtr
  dsimp only
  rw [dtor_nS, moveAssign_nS, ctorPtr_nS]

theorem ResetPtr_inv {s : State} (hI : InvN s.nS s) (hn : s.nS + 1 < SIZE) (d : Nat) (p : Ptr)
    (esft : Bool) (v : SharedPtr) (hd : d < s.nS) (hv : s.sh d = some v)
    (hp : esft = true → p ≠ none) :
    InvN s.nS (SharedPtr.ResetPtr d p esft s) := by
  unfold SharedPtr.ResetPtr
  dsimp only
  have hdead : s.sh s.nS = none := hI.dead _ (le_refl _)
  have h1 := ctorPtr_inv (hI.succ hn) s.nS p esft (by omega) (noBlock_of_none _ _ hdead) hp
  have hsh1 := ctorPtr_sh s.nS p esft s
  generalize SharedPtr.ctorPtr s.nS p esft s = s1 at h1 hsh1 ⊢
  have hne : d ≠ s.nS := by omega
  have hd1 : s1.sh d = some v := by rw [hsh1, Function.update_noteq hne]; exact hv
  obtain ⟨v1, htmp1⟩ : ∃ v, s1.sh s.nS = some v := by
    rw [hsh1, Function.update_same]; exact ⟨_, rfl⟩
  have h2 := moveAssign_inv h1 d s.nS _ _ (by omega) (by omega) hd1 htmp1
  obtain ⟨v2, htmp2⟩ : ∃ v, (SharedPtr.moveAssign d s.nS s1).sh s.nS = some v := by
    rw [moveAssign_sh, Function.update_same]; exact ⟨_, rfl⟩
  have h3 := dtor_inv h2 s.nS _ (by omega) htmp2
  exact h3.pred (dtor_sh_self _ _)

theorem Inv.mk_of {s t : State} (hs : Inv s) (h : InvN s.nS t) (hn : t.nS = s.nS) : Inv t := by
  unfold Inv
  rw [hn]
  exact ⟨h, hs.2⟩

theorem wblock_lt {s : State} (blk : Option Nat) (w : WeakPtr) (b : Nat)
    (hblk : ∀ c, blk = some c → c < s.next)
    (ho : some (⟨blk⟩ : WeakPtr) = some w) (hb : w.block_ = some b) : b < s.next := by
  simp only [Option.some.injEq] at ho
  subst ho
  exact hblk b hb

/-- Every statement preserves the invariant. -/
theorem step_inv (op : Op) (s t : State) (hs : Inv s) (h : step op s = some t) : Inv t := by
  have hI := hs.1
  have hn := hs.2
  cases op with
  | ctorDefault d =>
    simp only [step] at h
    split at h <;> simp only [Option.some.injEq, reduceCtorEq] at h
    rename_i hg
    subst h
    exact hs.mk_of (ctorDefault_inv hI d hg.1 hg.2) rfl
  | ctorPtr d p esft =>
    simp only [step] at h
    split at h <;> simp only [Option.some.injEq, reduceCtorEq] at h
    rename_i hg
    subst h
    exact hs.mk_of (ctorPtr_inv hI d p esft hg.1.1 (noBlock_of_none s d hg.1.2) hg.2)
      (ctorPtr_nS _ _ _ _)
  | makeShared d buf esft =>
    simp only [step] at h
    split at h <;> simp only [Option.some.injEq, reduceCtorEq] at h
    rename_i hg
    subst h
    exact hs.mk_of (MakeShared_inv hI d buf esft hg.1 (noBlock_of_none s d hg.2))
      (MakeShared_nS _ _ _ _)
  | copyCtor d src =>
    simp only [step] at h
    split at h <;> simp only [Option.some.injEq, reduceCtorEq] at h
    rename_i hg
    subst h
    obtain ⟨v, hv⟩ := Option.ne_none_iff_exists'.mp hg.2.2
    refine hs.mk_of (copyCtor_inv hI d src v hg.1.1 hg.1.2 hg.2.1 hv) ?_
    rw [copyCtor_eq]; exact aliasCtor_nS _ _ _ _
  | moveCtor d src =>
    simp only [step] at h
    split at h <;> simp only [Option.some.injEq, reduceCtorEq] at h
    rename_i hg
    subst h
    obtain ⟨v, hv⟩ := Option.ne_none_iff_exists'.mp hg.2.2
    exact hs.mk_of (moveCtor_inv hI d src v hg.1.1 hg.1.2 hg.2.1 hv) rfl
  | aliasCtor d src p =>
    simp only [step] at h
    split at h <;> simp only [Option.some.injEq, reduceCtorEq] at h
    rename_i hg
    subst h
    obtain ⟨v, hv⟩ := Option.ne_none_iff_exists'.mp hg.2.2
    exact hs.mk_of (aliasCtor_inv hI d src p v hg.1.1 hg.1.2 hg.2.1 hv) (aliasCtor_nS _ _ _ _)
  | fromWeak d w =>
    simp only [step] at h
    split at h <;> [skip; simp only [reduceCtorEq] at h]
    rename_i hg
    split at h
    · rename_i u hu
      simp only [Option.some.injEq] at h
      subst h
      exact hs.mk_of (fromWeak_inv hI d w hg.1.1 hg.1.2 hu) (fromWeak_nS _ _ _ _ hu)
    · simp only [Option.some.injEq] at h
      subst h
      exact hs
  | lock d w =>
    simp only [step] at h
    split at h <;> simp only [Option.some.injEq, reduceCtorEq] at h
    rename_i hg
    subst h
    exact hs.mk_of (Lock_inv hI hn w d hg.1.1 hg.1.2) (Lock_nS _ _ _)
  | copyAssign d src =>
    simp only [step] at h
    split at h <;> simp only [Option.some.injEq, reduceCtorEq] at h
    rename_i hg
    subst h
    obtain ⟨x, hx⟩ := Option.ne_none_iff_exists'.mp hg.1.2
    obtain ⟨y, hy⟩ := Option.ne_none_iff_exists'.mp hg.2.2
    exact hs.mk_of (copyAssign_inv hI d src x y hg.1.1 hg.2.1 hx hy) (copyAssign_nS _ _ _)
  | moveAssign d src =>
    simp only [step] at h
    split at h <;> simp only [Option.some.injEq, reduceCtorEq] at h
    rename_i hg
    subst h
    obtain ⟨x, hx⟩ := Option.ne_none_iff_exists'.mp hg.1.2
    obtain ⟨y, hy⟩ := Option.ne_none_iff_exists'.mp hg.2.2
    exact hs.mk_of (moveAssign_inv hI d src x y hg.1.1 hg.2.1 hx hy) (moveAssign_nS _ _ _)
  | reset d =>
    simp only [step] at h
    split at h <;> simp only [Option.some.injEq, reduceCtorEq] at h
    rename_i hg
    subst h
    obtain ⟨x, hx⟩ := Option.ne_none_iff_exists'.mp hg.2
    exact hs.mk_of (Reset_inv hI d x hg.1 hx) (Reset_nS _ _)
  | resetPtr d p esft =>
    simp only [step] at h
    split at h <;> simp only [Option.some.injEq, reduceCtorEq] at h
    rename_i hg
    subst h
    obtain ⟨x, hx⟩ := Option.ne_none_iff_exists'.mp hg.1.2
    exact hs.mk_of (ResetPtr_inv hI hn d p esft x hg.1.1 hx hg.2) (ResetPtr_nS _ _ _ _)
  | swap a b =>
    simp only [step] at h
    split at h <;> simp only [Option.some.injEq, reduceCtorEq] at h
    rename_i hg
    subst h
    obtain ⟨x, hx⟩ := Option.ne_none_iff_exists'.mp hg.1.2
    obtain ⟨y, hy⟩ := Option.ne_none_iff_exists'.mp hg.2.2
    exact hs.mk_of (Swap_inv hI a b x y hg.1.1 hg.2.1 hx hy) rfl
  | dtor d =>
    simp only [step] at h
    split at h <;> simp only [Option.some.injEq, reduceCtorEq] at h
    rename_i hg
    subst h
    obtain ⟨x, hx⟩ := Option.ne_none_iff_exists'.mp hg.2
    exact hs.mk_of (dtor_inv hI d x hg.1 hx) (dtor_nS _ _)
  | wctorDefault w =>
    simp only [step] at h
    split at h <;> simp only [Option.some.injEq, reduceCtorEq] at h
    subst h
    exact hs.mk_of (hI.weakUpdate _ (SameStrong.setW _ _ _) w (some ⟨none⟩) rfl
      (fun v b ho hb => wblock_lt none v b (by simp) ho hb)) rfl
  | wcopyCtor w src =>
    simp only [step] at h
    split at h <;> simp only [Option.some.injEq, reduceCtorEq] at h
    subst h
    exact hs.mk_of (hI.weakUpdate _ (WeakPtr_copyCtor_same _ _ _) w _ (WeakPtr_copyCtor_wk _ _ _)
      (fun v b ho hb => wblock_lt _ v b (fun c hc => hI.W_lt src c hc) ho hb))
      (WeakPtr_copyCtor_same _ _ _).nS
  | wmoveCtor w src =>
    simp only [step] at h
    split at h <;> simp only [Option.some.injEq, reduceCtorEq] at h
    subst h
    exact hs.mk_of (hI.weakUpdate2 _ (WeakPtr_moveCtor_same _ _ _) w src _ _
      (WeakPtr_moveCtor_wk _ _ _)
      (fun v b ho hb => wblock_lt _ v b (fun c hc => hI.W_lt (.var src) c hc) ho hb)
      (fun v b ho hb => wblock_lt none v b (by simp) ho hb)) rfl
  | wfromShared w src =>
    simp only [step] at h
    split at h <;> simp only [Option.some.injEq, reduceCtorEq] at h
    subst h
    exact hs.mk_of (hI.weakUpdate _ (WeakPtr_fromShared_same _ _ _) w _
      (WeakPtr_fromShared_wk _ _ _)
      (fun v b ho hb => wblock_lt _ v b (fun c hc => hI.S_lt src c hc) ho hb))
      (WeakPtr_fromShared_same _ _ _).nS
  | wassignShared w src =>
    simp only [step] at h
    split at h <;> simp only [Option.some.injEq, reduceCtorEq] at h
    subst h
    exact hs.mk_of (hI.weakUpdate _ (WeakPtr_assignShared_same _ _ _) w _
      (WeakPtr_assignShared_wk _ _ _)
      (fun v b ho hb => wblock_lt _ v b (fun c hc => hI.S_lt src c hc) ho hb))
      (WeakPtr_assignShared_same _ _ _).nS
  | wcopyAssign w src =>
    simp only [step] at h
    split at h <;> simp only [Option.some.injEq, reduceCtorEq] at h
    subst h
    exact hs.mk_of (hI.weakUpdate _ (WeakPtr_copyAssign_same _ _ _) w _
      (WeakPtr_copyAssign_wk _ _ _)
      (fun v b ho hb => wblock_lt _ v b (fun c hc => hI.W_lt src c hc) ho hb))
      (WeakPtr_copyAssign_same _ _ _).nS
  | wmoveAssign w src =>
    simp only [step] at h
    split at h <;> simp only [Option.some.injEq, reduceCtorEq] at h
    subst h
    exact hs.mk_of (hI.weakUpdate2 _ (WeakPtr_moveAssign_same _ _ _) w src _ _
      (WeakPtr_moveAssign_wk _ _ _)
      (fun v b ho hb => wblock_lt _ v b (fun c hc => hI.W_lt (.var src) c hc) ho hb)
      (fun v b ho hb => wblock_lt none v b (by simp) ho hb))
      (WeakPtr_moveAssign_same _ _ _).nS
  | wreset w =>
    simp only [step] at h
    split at h <;> simp only [Option.some.injEq, reduceCtorEq] at h
    subst h
    exact hs.mk_of (hI.weakUpdate _ (WeakPtr_Reset_same _ _) w _ (WeakPtr_Reset_wk _ _)
      (fun v b ho hb => wblock_lt none v b (by simp) ho hb))
      (WeakPtr_Reset_same _ _).nS
  | wswap a b =>
    simp only [step] at h
    split at h <;> simp only [Option.some.injEq, reduceCtorEq] at h
    subst h
    exact hs.mk_of (hI.weakUpdate2 _ (WeakPtr_Swap_same _ _ _) a b _ _ (WeakPtr_Swap_wk _ _ _)
      (fun v c ho hb => by
        simp only [Option.some.injEq] at ho; subst ho; exact hI.W_lt _ c hb)
      (fun v c ho hb => by
        simp only [Option.some.injEq] at ho; subst ho; exact hI.W_lt _ c hb)) rfl
  | wdtor w =>
    simp only [step] at h
    split at h <;> simp only [Option.some.injEq, reduceCtorEq] at h
    subst h
    exact hs.mk_of (hI.weakUpdate _ (WeakPtr_dtor_same _ _) w none (WeakPtr_dtor_wk _ _)
      (fun v b ho hb => by simp at ho))
      (WeakPtr_dtor_same _ _).nS

theorem init_inv (nS nW : Nat) (h : nS + 1 < SIZE) : Inv (init nS nW) := by
  refine ⟨⟨by show nS < SIZE; omega, fun _ _ => rfl, ?_, ?_, ?_, ?_, ?_, ?_⟩, h⟩
  · intro i v b hv; simp [init] at hv
  · intro a w b hv; simp [init] at hv
  · intro b
    show 0 = liveOn (fun _ => none) nS b
    unfold liveOn
    simp [onBlock, countUpTo_false]
  · intro b hb; simp [init] at hb
  · intro b; simp [init, ControlBlockBase.fresh, SIZE_pos]
  · intro b hb; simp [init] at hb

theorem runIf_inv (g : State → Op → Bool) (ops : List Op) (s t : State) (hs : Inv s)
    (h : runIf g ops s = some t) : Inv t := by
  induction ops generalizing s with
  | nil =>
    simp only [runIf, Option.some.injEq] at h
    subst h; exact hs
  | cons op ops ih =>
    simp only [runIf] at h
    split at h <;> [skip; simp only [reduceCtorEq] at h]
    cases hst : step op s with
    | none => simp [hst] at h
    | some u =>
      rw [hst] at h
      exact ih u (step_inv op s u hs hst) h

theorem run_inv (ops : List Op) (s t : State) (hs : Inv s) (h : run ops s = some t) : Inv t :=
  runIf_inv _ ops s t hs h

theorem Evolves.evolves_refl {P : Storage → Prop} (s : State) : Evolves P s s :=
  ⟨le_refl _, fun _ _ => le_refl _, fun _ _ _ => rfl, fun _ _ => rfl,
    fun b h1 h2 _ => absurd h2 (by omega)⟩

theorem Evolves.evolves_then {P : Storage → Prop} {s t u : State} (h1 : Evolves P s t)
    (h2 : Evolves P t u) : Evolves P s u := by
  refine ⟨le_trans h1.next h2.next, ?_, ?_, ?_, ?_⟩
  · intro b hb
    exact le_trans (h1.destroyed b hb) (h2.destroyed b (lt_of_lt_of_le hb h1.next))
  · intro b hb he
    have a1 := h1.destroyed b hb
    have a2 := h2.destroyed b (lt_of_lt_of_le hb h1.next)
    rw [h2.storage b (lt_of_lt_of_le hb h1.next) (by omega), h1.storage b hb (by omega)]
  · intro b hb
    rw [h2.esft b (lt_of_lt_of_le hb h1.next), h1.esft b hb]
  · intro b hb1 hb2 hd
    by_cases hbt : b < t.next
    · have a2 := h2.destroyed b hbt
      have e : (t.heap b).destroyed = 0 := by omega
      rw [h2.storage b hbt (by omega)]
      exact h1.alloc b hb1 hbt e
    · exact h2.alloc b (by omega) hb2 hd

theorem Evolves.of_heap {P : Storage → Prop} {s t : State} (hh : t.heap = s.heap)
    (hn : t.next = s.next) : Evolves P s t :=
  ⟨by omega, fun b _ => by rw [hh], fun b _ _ => by rw [hh], fun b _ => by rw [hh],
    fun b h1 h2 _ => absurd h2 (by omega)⟩

theorem Evolves.of_same {P : Storage → Prop} {s t : State} (h : SameStrong s t) :
    Evolves P s t :=
  ⟨by rw [h.next], fun b _ => by rw [h.destroyed], fun b _ _ => h.storage b, fun b _ => h.esft b,
    fun b h1 h2 _ => absurd h2 (by rw [h.next]; omega)⟩

theorem Evolves.setS {P : Storage → Prop} (s : State) (i : Nat) (v : SharedPtr) :
    Evolves P s (s.setS i v) :=
  Evolves.of_heap rfl rfl

theorem Evolves.killS {P : Storage → Prop} (s : State) (i : Nat) : Evolves P s (s.killS i) :=
  Evolves.of_heap rfl rfl

theorem Evolves.increment {P : Storage → Prop} (s : State) (b : Nat) :
    Evolves P s (ControlBlockBase.Increment b s) :=
  ⟨le_refl _, fun c _ => by simp, fun c _ _ => by simp, fun c _ => by simp,
    fun c h1 h2 _ => absurd h2 (by simp only [Increment_next]; omega)⟩

theorem Evolves.decrement {P : Storage → Prop} (s : State) (b : Nat) :
    Evolves P s (ControlBlockBase.Decrement Destroy b s) := by
  refine ⟨by simp, ?_, ?_, fun c _ => by simp, ?_⟩
  · intro c _; rw [Decrement_destroyed]; omega
  · intro c _ h
    rw [Decrement_destroyed] at h
    rw [Decrement_storage]
    split
    · rename_i hc
      rw [if_pos hc] at h
      omega
    · rfl
  · intro c h1 h2 _
    rw [Decrement_next] at h2
    omega

theorem Evolves.create {P : Storage → Prop} (st : Storage) (esft : Bool) (s : State)
    (hP : P st) : Evolves P s (ControlBlockBase.create st esft s) := by
  refine ⟨by simp, ?_, ?_, ?_, ?_⟩
  · intro c hc
    have : c ≠ s.next := by omega
    simp [this]
  · intro c hc _
    have : c ≠ s.next := by omega
    simp [this]
  · intro c hc
    have : c ≠ s.next := by omega
    simp [this]
  · intro c h1 h2 _
    rw [create_next] at h2
    have : c = s.next := by omega
    subst this
    simpa [ControlBlockBase.fresh] using hP

/-- `Increment()` on the block of an optional reference. -/
theorem Evolves.incOpt {P : Storage → Prop} (s : State) (blk : Option Nat) :
    Evolves P s (match blk with
      | some b => ControlBlockBase.Increment b s
      | none => s) := by
  cases blk with
  | none => exact Evolves.evolves_refl s
  | some b => exact Evolves.increment s b

/-- `Decrement()` on the block of an optional reference. -/
theorem Evolves.decOpt {P : Storage → Prop} (s : State) (blk : Option Nat) :
    Evolves P s (match blk with
      | some b => ControlBlockBase.Decrement Destroy b s
      | none => s) := by
  cases blk with
  | none => exact Evolves.evolves_refl s
  | some b => exact Evolves.decrement s b

theorem Reset_evolves {P : Storage → Prop} (d : Nat) (s : State) :
    Evolves P s (SharedPtr.Reset d s) :=
  (Evolves.decOpt s _).evolves_then (Evolves.setS _ _ _)

theorem Swap_evolves {P : Storage → Prop} (a b : Nat) (s : State) :
    Evolves P s (SharedPtr.Swap a b s) :=
  Evolves.of_heap rfl rfl

theorem moveAssign_evolves {P : Storage → Prop} (d src : Nat) (s : State) :
    Evolves P s (SharedPtr.moveAssign d src s) :=
  (Reset_evolves d s).evolves_then (Swap_evolves _ _ _)

theorem dtor_evolves {P : Storage → Prop} (d : Nat) (s : State) :
    Evolves P s (SharedPtr.dtor d s) := by
  unfold SharedPtr.dtor
  refine Evolves.evolves_then ?_ (Evolves.killS _ _)
  split
  · exact Evolves.evolves_refl s
  · exact Reset_evolves d s

theorem aliasCtor_evolves {P : Storage → Prop} (d src : Nat) (p : Ptr) (s : State) :
    Evolves P s (SharedPtr.aliasCtor d src p s) :=
  (Evolves.incOpt s _).evolves_then (Evolves.setS _ _ _)

theorem ctorPtr_evolves {P : Storage → Prop} (d : Nat) (p : Ptr) (esft : Bool) (s : State)
    (hP : P (.pointer p)) : Evolves P s (SharedPtr.ctorPtr d p esft s) := by
  rw [ctorPtr_eq]
  have h := (Evolves.create (.pointer p) esft s hP).evolves_then
    (Evolves.setS _ d ⟨p, some s.next⟩)
  split
  · exact h.evolves_then (Evolves.of_same (InitWeakThis_same _ _ _))
  · exact h

theorem MakeShared_evolves {P : Storage → Prop} (d buf : Nat) (esft : Bool) (s : State)
    (hP : P (.element buf)) : Evolves P s (MakeShared d buf esft s) := by
  rw [MakeShared_eq]
  have h := (Evolves.create (.element buf) esft s hP).evolves_then
    (Evolves.setS _ d ⟨some buf, some s.next⟩)
  split
  · exact h.evolves_then (Evolves.of_same (InitWeakThis_same _ _ _))
  · exact h

theorem ctorBlockPtr_evolves {P : Storage → Prop} (d b : Nat) (p : Ptr) (s : State) :
    Evolves P s (SharedPtr.ctorBlockPtr d b p s) := by
  unfold SharedPtr.ctorBlockPtr
  dsimp only
  split
  · exact (Evolves.setS _ _ _).evolves_then (Evolves.of_same (InitWeakThis_same _ _ _))
  · exact Evolves.setS _ _ _

theorem fromWeak_evolves {P : Storage → Prop} (d : Nat) (w : WAddr) (s t : State)
    (h : SharedPtr.fromWeak d w s = .ok t) : Evolves P s t := by
  unfold SharedPtr.fromWeak at h
  cases hb : (s.W w).block_ with
  | none => simp [hb] at h
  | some b =>
    simp only [hb] at h
    split at h
    · simp at h
    · simp only [Except.ok.injEq] at h
      subst h
      exact (Evolves.setS _ _ _).evolves_then (Evolves.increment _ _)

theorem copyAssign_evolves {P : Storage → Prop} (d src : Nat) (s : State) :
    Evolves P s (SharedPtr.copyAssign d src s) :=
  ((Evolves.incOpt s _).evolves_then (Evolves.decOpt _ _)).evolves_then (Evolves.setS _ _ _)

theorem ResetPtr_evolves {P : Storage → Prop} (d : Nat) (p : Ptr) (esft : Bool) (s : State)
    (hP : P (.pointer p)) : Evolves P s (SharedPtr.ResetPtr d p esft s) :=
  ((ctorPtr_evolves _ _ _ _ hP).evolves_then (moveAssign_evolves _ _ _)).evolves_then
    (dtor_evolves _ _)

theorem Lock_evolves {P : Storage → Prop} (w : WAddr) (cur : Nat) (s : State) :
    Evolves P s (WeakPtr.Lock w cur s) := by
  unfold WeakPtr.Lock
  dsimp only
  have h1 : Evolves P s (SharedPtr.ctorDefault cur s) := Evolves.setS _ _ _
  split
  · exact h1
  · split
    · exact (((h1.evolves_then (Evolves.increment _ _)).evolves_then
        (ctorBlockPtr_evolves _ _ _ _)).evolves_then
        (moveAssign_evolves _ _ _)).evolves_then (dtor_evolves _ _)
    · exact h1

/-- Every statement lets the blocks evolve. -/
theorem step_evolves {P : Storage → Prop} (op : Op) (s t : State) (h : step op s = some t)
    (hP : op.allocates P) : Evolves P s t := by
  cases op with
  | fromWeak d w =>
    simp only [step] at h
    split at h <;> [skip; simp only [reduceCtorEq] at h]
    split at h
    · rename_i u hu
      simp only [Option.some.injEq] at h
      subst h
      exact fromWeak_evolves d w s u hu
    · simp only [Option.some.injEq] at h
      subst h
      exact Evolves.evolves_refl s
  | ctorDefault d =>
    simp only [step] at h
    split at h <;> simp only [Option.some.injEq, reduceCtorEq] at h
    subst h; exact Evolves.setS _ _ _
  | ctorPtr d p esft =>
    simp only [step] at h
    split at h <;> simp only [Option.some.injEq, reduceCtorEq] at h
    subst h; exact ctorPtr_evolves _ _ _ _ hP
  | makeShared d buf esft =>
    simp only [step] at h
    split at h <;> simp only [Option.some.injEq, reduceCtorEq] at h
    subst h; exact MakeShared_evolves _ _ _ _ hP
  | copyCtor d src =>
    simp only [step] at h
    split at h <;> simp only [Option.some.injEq, reduceCtorEq] at h
    subst h; rw [copyCtor_eq]; exact aliasCtor_evolves _ _ _ _
  | moveCtor d src =>
    simp only [step] at h
    split at h <;> simp only [Option.some.injEq, reduceCtorEq] at h
    subst h; exact Evolves.of_heap rfl rfl
  | aliasCtor d src p =>
    simp only [step] at h
    split at h <;> simp only [Option.some.injEq, reduceCtorEq] at h
    subst h; exact aliasCtor_evolves _ _ _ _
  | lock d w =>
    simp only [step] at h
    split at h <;> simp only [Option.some.injEq, reduceCtorEq] at h
    subst h; exact Lock_evolves _ _ _
  | copyAssign d src =>
    simp only [step] at h
    split at h <;> simp only [Option.some.injEq, reduceCtorEq] at h
    subst h; exact copyAssign_evolves _ _ _
  | moveAssign d src =>
    simp only [step] at h
    split at h <;> simp only [Option.some.injEq, reduceCtorEq] at h
    subst h; exact moveAssign_evolves _ _ _
  | reset d =>
    simp only [step] at h
    split at h <;> simp only [Option.some.injEq, reduceCtorEq] at h
    subst h; exact Reset_evolves _ _
  | resetPtr d p esft =>
    simp only [step] at h
    split at h <;> simp only [Option.some.injEq, reduceCtorEq] at h
    subst h; exact ResetPtr_evolves _ _ _ _ hP
  | swap a b =>
    simp only [step] at h
    split at h <;> simp only [Option.some.injEq, reduceCtorEq] at h
    subst h; exact Swap_evolves _ _ _
  | dtor d =>
    simp only [step] at h
    split at h <;> simp only [Option.some.injEq, reduceCtorEq] at h
    subst h; exact dtor_evolves _ _
  | wctorDefault w =>
    simp only [step] at h
    split at h <;> simp only [Option.some.injEq, reduceCtorEq] at h
    subst h; exact Evolves.of_heap rfl rfl
  | wcopyCtor w src =>
    simp only [step] at h
    split at h <;> simp only [Option.some.injEq, reduceCtorEq] at h
    subst h; exact Evolves.of_same (WeakPtr_copyCtor_same _ _ _)
  | wmoveCtor w src =>
    simp only [step] at h
    split at h <;> simp only [Option.some.injEq, reduceCtorEq] at h
    subst h; exact Evolves.of_same (WeakPtr_moveCtor_same _ _ _)
  | wfromShared w src =>
    simp only [step] at h
    split at h <;> simp only [Option.some.injEq, reduceCtorEq] at h
    subst h; exact Evolves.of_same (WeakPtr_fromShared_same _ _ _)
  | wassignShared w src =>
    simp only [step] at h
    split at h <;> simp only [Option.some.injEq, reduceCtorEq] at h
    subst h; exact Evolves.of_same (WeakPtr_assignShared_same _ _ _)
  | wcopyAssign w src =>
    simp only [step] at h
    split at h <;> simp only [Option.some.injEq, reduceCtorEq] at h
    subst h; exact Evolves.of_same (WeakPtr_copyAssign_same _ _ _)
  | wmoveAssign w src =>
    simp only [step] at h
    split at h <;> simp only [Option.some.injEq, reduceCtorEq] at h
    subst h; exact Evolves.of_same (WeakPtr_moveAssign_same _ _ _)
  | wreset w =>
    simp only [step] at h
    split at h <;> simp only [Option.some.injEq, reduceCtorEq] at h
    subst h; exact Evolves.of_same (WeakPtr_Reset_same _ _)
  | wswap a b =>
    simp only [step] at h
    split at h <;> simp only [Option.some.injEq, reduceCtorEq] at h
    subst h; exact Evolves.of_same (WeakPtr_Swap_same _ _ _)
  | wdtor w =>
    simp only [step] at h
    split at h <;> simp only [Option.some.injEq, reduceCtorEq] at h
    subst h; exact Evolves.of_same (WeakPtr_dtor_same _ _)

/-! ## The claims -/

theorem reach_inv (nS nW : Nat) (ops : List Op) (s : State) (hn : nS + 1 < SIZE)
    (hr : run ops (init nS nW) = some s) : Inv s :=
  run_inv ops _ s (init_inv nS nW hn) hr

theorem Inv.count_lt {s : State} (hs : Inv s) (b : Nat) : (s.heap b).count_ < SIZE := by
  have h1 := hs.1.cnt b
  have h2 := liveOn_le s.sh s.nS b
  have h3 := hs.2
  omega

/-- C1: after every statement of a program that starts with no handle alive, the
strong count of each control block (`GetCount`, and `UseCount` of every handle
on the block) equals the number of live shared handles whose control-block
pointer is that block.  The program has fewer than `2 ^ 64 - 1` shared handle
variables. -/
theorem strong_count_eq_live_handles (nS nW : Nat) (ops : List Op) (s : State) (b : Nat)
    (hn : nS + 1 < SIZE) (hr : run ops (init nS nW) = some s) :
    ControlBlockBase.GetCount b s = countShared s b
      ∧ ∀ i, (s.S i).block_ = some b → SharedPtr.UseCount i s = countShared s b := by
  have hs := reach_inv nS nW ops s hn hr
  refine ⟨hs.1.cnt b, ?_⟩
  intro i hi
  unfold SharedPtr.UseCount
  rw [hi]
  exact hs.1.cnt b

theorem strong_count_eq_live_handles_witness :
    2 + 1 < SIZE ∧ ∃ s, run [.makeShared 0 7 false, .copyCtor 1 0, .wfromShared 0 1,
        .lock 2 (.var 0), .reset 0] (init 3 1) = some s
      ∧ ControlBlockBase.GetCount 0 s = countShared s 0 ∧ countShared s 0 = 2 := by
  refine ⟨by norm_num [SIZE], _, rfl, ?_, rfl⟩
  exact (strong_count_eq_live_handles 3 1 [.makeShared 0 7 false, .copyCtor 1 0,
    .wfromShared 0 1, .lock 2 (.var 0), .reset 0] _ 0 (by norm_num [SIZE]) rfl).1

/-- C2: `Destroy()` runs at most once on a block; a `Decrement()` call invokes it
exactly when it takes the strong count from 1 to 0, so over a statement the
number of `Destroy()` calls grows exactly when the strong count goes from
nonzero to zero; and a strong count that has reached 0 is never raised again
by any statement. -/
theorem destroy_exactly_once (nS nW : Nat) (ops : List Op) (s t : State) (op : Op) (b : Nat)
    (hn : nS + 1 < SIZE) (hr : run ops (init nS nW) = some s)
    (hst : step op s = some t) (hb : b < s.next) :
    (s.heap b).destroyed ≤ 1 ∧ (t.heap b).destroyed ≤ 1
      ∧ ((ControlBlockBase.Decrement Destroy b s).heap b).destroyed
          = (s.heap b).destroyed + (if (s.heap b).count_ = 1 then 1 else 0)
      ∧ (t.heap b).destroyed = (s.heap b).destroyed
          + (if (s.heap b).count_ ≠ 0 ∧ (t.heap b).count_ = 0 then 1 else 0)
      ∧ ((s.heap b).count_ = 0 → (t.heap b).count_ = 0) := by
  have hs := reach_inv nS nW ops s hn hr
  have ht := step_inv op s t hs hst
  have he : Evolves (fun _ => True) s t :=
    step_evolves op s t hst (by cases op <;> trivial)
  have d1 := hs.1.des b hb
  have d2 := ht.1.des b (lt_of_lt_of_le hb he.next)
  have d3 := he.destroyed b hb
  have hlt := hs.count_lt b
  have key : (s.heap b).count_ = 0 → (t.heap b).count_ = 0 := by
    intro h0
    rw [if_pos h0] at d1
    by_contra h1
    rw [if_neg h1] at d2
    omega
  refine ⟨?_, ?_, ?_, ?_, key⟩
  · rw [d1]; split <;> omega
  · rw [d2]; split <;> omega
  · rw [Decrement_destroyed]
    have e : ((s.heap b).count_ + SIZE - 1) % SIZE = 0 ↔ (s.heap b).count_ = 1 := by
      rw [SIZE_eq] at *
      omega
    simp only [true_and, e]
  · by_cases h0 : (s.heap b).count_ = 0
    · have := key h0
      rw [d1, d2, if_pos h0, if_pos this]
      simp [h0]
    · rw [d1, d2, if_neg h0]
      by_cases h1 : (t.heap b).count_ = 0
      · simp [h0, h1]
      · simp [h0, h1]

theorem destroy_exactly_once_witness :
    ∃ s t, run [.makeShared 0 7 false, .copyCtor 1 0, .reset 0] (init 2 1) = some s
      ∧ step (.reset 1) s = some t
      ∧ (s.heap 0).destroyed = 0 ∧ (t.heap 0).destroyed = 1
      ∧ (t.heap 0).destroyed = (s.heap 0).destroyed
          + (if (s.heap 0).count_ ≠ 0 ∧ (t.heap 0).count_ = 0 then 1 else 0) := by
  refine ⟨_, _, rfl, rfl, rfl, rfl, ?_⟩
  exact (destroy_exactly_once 2 1 [.makeShared 0 7 false, .copyCtor 1 0, .reset 0] _ _
    (.reset 1) 0 (by norm_num [SIZE]) rfl rfl (by decide)).2.2.2.1

@[simp] theorem modBlock_heap_same (s : State) (b : Nat) (f : ControlBlockBase → ControlBlockBase) :
    (s.modBlock b f).heap b = f (s.heap b) := by
  simp [State.modBlock]

/-- The closing test of `Decrement()` and `DecrementWeak()`:
`if (count_ + count_weak_ == 0) delete this;`. -/
theorem deleteIfZero_counters (u : State) (b : Nat) :
    ((if ((u.heap b).count_ + (u.heap b).count_weak_) % SIZE = 0
        then ControlBlockBase.deleteThis b u else u).heap b).count_ = (u.heap b).count_
    ∧ ((if ((u.heap b).count_ + (u.heap b).count_weak_) % SIZE = 0
        then ControlBlockBase.deleteThis b u else u).heap b).count_weak_ = (u.heap b).count_weak_
    ∧ ((if ((u.heap b).count_ + (u.heap b).count_weak_) % SIZE = 0
        then ControlBlockBase.deleteThis b u else u).heap b).deleted
        = (u.heap b).deleted
          + (if ((u.heap b).count_ + (u.heap b).count_weak_) % SIZE = 0 then 1 else 0) := by
  by_cases h : ((u.heap b).count_ + (u.heap b).count_weak_) % SIZE = 0
  · rw [if_pos h, if_pos h]
    unfold ControlBlockBase.deleteThis
    rw [modBlock_heap_same]
    exact ⟨rfl, rfl, rfl⟩
  · rw [if_neg h, if_neg h]
    exact ⟨rfl, rfl, rfl⟩

/-- The counters of the block after `Decrement()`, for any `Destroy()` that
leaves the counters of its own block alone. -/
theorem Decrement_counters (D : Nat → State → State) (s : State) (b : Nat)
    (hD : ∀ t, t = (((s.modBlock b fun c =>
        { c with count_ := (c.count_ + SIZE - 1) % SIZE }).modBlock b fun c =>
        { c with count_weak_ := (c.count_weak_ + 1) % SIZE }).modBlock b fun c =>
        { c with destroyed := c.destroyed + 1 }) →
      ((D b t).heap b).count_ = (t.heap b).count_
      ∧ ((D b t).heap b).count_weak_ = (t.heap b).count_weak_
      ∧ ((D b t).heap b).deleted = (t.heap b).deleted) :
    ((ControlBlockBase.Decrement D b s).heap b).count_ = ((s.heap b).count_ + SIZE - 1) % SIZE
    ∧ ((ControlBlockBase.Decrement D b s).heap b).count_weak_
        = (if ((s.heap b).count_ + SIZE - 1) % SIZE = 0
            then (((s.heap b).count_weak_ + 1) % SIZE + SIZE - 1) % SIZE
            else (s.heap b).count_weak_)
    ∧ ((ControlBlockBase.Decrement D b s).heap b).deleted
        = (s.heap b).deleted
          + (if (((s.heap b).count_ + SIZE - 1) % SIZE
              + (if ((s.heap b).count_ + SIZE - 1) % SIZE = 0
                  then (((s.heap b).count_weak_ + 1) % SIZE + SIZE - 1) % SIZE
                  else (s.heap b).count_weak_)) % SIZE = 0 then 1 else 0) := by
  unfold ControlBlockBase.Decrement
  dsimp only
  by_cases h0 : ((s.heap b).count_ + SIZE - 1) % SIZE = 0
  · have e1 : ((s.modBlock b fun c => { c with count_ := (c.count_ + SIZE - 1) % SIZE }).heap
        b).count_ = 0 := by
      rw [modBlock_heap_same]; exact h0
    rw [if_pos e1]
    simp only [if_pos h0]
    obtain ⟨a1, a2, a3⟩ := hD (((s.modBlock b fun c =>
      { c with count_ := (c.count_ + SIZE - 1) % SIZE }).modBlock b fun c =>
      { c with count_weak_ := (c.count_weak_ + 1) % SIZE }).modBlock b fun c =>
      { c with destroyed := c.destroyed + 1 }) rfl
    simp only [modBlock_heap_same] at a1 a2 a3
    generalize D b (((s.modBlock b fun c =>
      { c with count_ := (c.count_ + SIZE - 1) % SIZE }).modBlock b fun c =>
      { c with count_weak_ := (c.count_weak_ + 1) % SIZE }).modBlock b fun c =>
      { c with destroyed := c.destroyed + 1 }) = s3 at a1 a2 a3 ⊢
    obtain ⟨b1, b2, b3⟩ := deleteIfZero_counters
      (s3.modBlock b fun c => { c with count_weak_ := (c.count_weak_ + SIZE - 1) % SIZE }) b
    rw [b1, b2, b3]
    simp only [modBlock_heap_same, a1, a2, a3, h0]
    exact ⟨trivial, trivial, trivial⟩
  · have e1 : ¬ ((s.modBlock b fun c => { c with count_ := (c.count_ + SIZE - 1) % SIZE }).heap
        b).count_ = 0 := by
      rw [modBlock_heap_same]; exact h0
    rw [if_neg e1]
    simp only [if_neg h0]
    obtain ⟨b1, b2, b3⟩ := deleteIfZero_counters
      (s.modBlock b fun c => { c with count_ := (c.count_ + SIZE - 1) % SIZE }) b
    rw [b1, b2, b3]
    simp only [modBlock_heap_same]
    exact ⟨trivial, trivial, trivial⟩

theorem dec_arith (c k : Nat) (h : c + k < SIZE) (h1 : 1 ≤ c) :
    (c + SIZE - 1) % SIZE = c - 1
    ∧ (if (c + SIZE - 1) % SIZE = 0 then ((k + 1) % SIZE + SIZE - 1) % SIZE else k) = k
    ∧ (c - 1 + k) % SIZE = c - 1 + k := by
  rw [SIZE_eq] at *
  refine ⟨by omega, ?_, by omega⟩
  split
  · omega
  · rfl

theorem decWeak_arith (c k : Nat) (h : c + k < SIZE) (h1 : 1 ≤ k) :
    (k + SIZE - 1) % SIZE = k - 1 ∧ (c + (k - 1)) % SIZE = c + (k - 1) := by
  rw [SIZE_eq] at *
  omega

/-- C3: for a block with strong count `s`, weak count `k`, `s + k < 2 ^ 64`, and
a `Destroy()` that leaves the counters alone: `Decrement()` with `s ≥ 1` runs
`delete this` once if afterwards both counts are 0, which is the case iff
`s = 1` and `k = 0`, and not at all otherwise; `DecrementWeak()` with `k ≥ 1`
runs `delete this` once if afterwards both counts are 0, which is the case iff
`s = 0` and `k = 1`, and not at all otherwise; a new block starts with strong
count 1 and weak count 0. -/
theorem block_freed_iff_both_zero (D : Nat → State → State) (s : State) (b : Nat)
    (hD : ∀ t, ((D b t).heap b).count_ = (t.heap b).count_
      ∧ ((D b t).heap b).count_weak_ = (t.heap b).count_weak_
      ∧ ((D b t).heap b).deleted = (t.heap b).deleted)
    (hsum : (s.heap b).count_ + (s.heap b).count_weak_ < SIZE) :
    (1 ≤ (s.heap b).count_ →
      ((ControlBlockBase.Decrement D b s).heap b).deleted
          = (s.heap b).deleted
            + (if ((ControlBlockBase.Decrement D b s).heap b).count_ = 0
                ∧ ((ControlBlockBase.Decrement D b s).heap b).count_weak_ = 0 then 1 else 0)
        ∧ ((((ControlBlockBase.Decrement D b s).heap b).count_ = 0
              ∧ ((ControlBlockBase.Decrement D b s).heap b).count_weak_ = 0)
            ↔ ((s.heap b).count_ = 1 ∧ (s.heap b).count_weak_ = 0)))
    ∧ (1 ≤ (s.heap b).count_weak_ →
      ((ControlBlockBase.DecrementWeak b s).heap b).deleted
          = (s.heap b).deleted
            + (if ((ControlBlockBase.DecrementWeak b s).heap b).count_ = 0
                ∧ ((ControlBlockBase.DecrementWeak b s).heap b).count_weak_ = 0 then 1 else 0)
        ∧ ((((ControlBlockBase.DecrementWeak b s).heap b).count_ = 0
              ∧ ((ControlBlockBase.DecrementWeak b s).heap b).count_weak_ = 0)
            ↔ ((s.heap b).count_ = 0 ∧ (s.heap b).count_weak_ = 1)))
    ∧ (∀ st esft, ((ControlBlockBase.create st esft s).heap s.next).count_ = 1
        ∧ ((ControlBlockBase.create st esft s).heap s.next).count_weak_ = 0
        ∧ ((ControlBlockBase.create st esft s).heap s.next).deleted = 0) := by
  refine ⟨?_, ?_, ?_⟩
  · intro h1
    obtain ⟨a1, a2, a3⟩ := Decrement_counters D s b (fun t _ => hD t)
    obtain ⟨e1, e2, e3⟩ := dec_arith _ _ hsum h1
    rw [a1, a2, a3, e2, e1, e3]
    have hiff : (s.heap b).count_ - 1 + (s.heap b).count_weak_ = 0
        ↔ ((s.heap b).count_ - 1 = 0 ∧ (s.heap b).count_weak_ = 0) := by omega
    have hiff2 : ((s.heap b).count_ - 1 = 0 ∧ (s.heap b).count_weak_ = 0)
        ↔ ((s.heap b).count_ = 1 ∧ (s.heap b).count_weak_ = 0) := by omega
    refine ⟨?_, hiff2⟩
    simp only [hiff]
  · intro h1
    obtain ⟨e1, e2⟩ := decWeak_arith _ _ hsum h1
    rw [DecrementWeak_deleted, DecrementWeak_count, DecrementWeak_count_weak]
    simp only [if_true, true_and, e1, e2]
    have hiff : (s.heap b).count_ + ((s.heap b).count_weak_ - 1) = 0
        ↔ ((s.heap b).count_ = 0 ∧ (s.heap b).count_weak_ - 1 = 0) := by omega
    have hiff2 : ((s.heap b).count_ = 0 ∧ (s.heap b).count_weak_ - 1 = 0)
        ↔ ((s.heap b).count_ = 0 ∧ (s.heap b).count_weak_ = 1) := by omega
    refine ⟨?_, hiff2⟩
    simp only [hiff]
  · intro st esft
    simp [ControlBlockBase.fresh]

theorem block_freed_iff_both_zero_witness :
    ((ControlBlockBase.Decrement (fun _ t => t) 0 (MakeShared 0 7 false (init 1 1))).heap 0).deleted
      = ((MakeShared 0 7 false (init 1 1)).heap 0).deleted + 1
    ∧ ((ControlBlockBase.Decrement (fun _ t => t) 0
        (WeakPtr.fromShared (.var 0) 0 (MakeShared 0 7 false (init 1 1)))).heap 0).deleted
      = ((WeakPtr.fromShared (.var 0) 0 (MakeShared 0 7 false (init 1 1))).heap 0).deleted := by
  have h1 := (block_freed_iff_both_zero (fun _ t => t) (MakeShared 0 7 false (init 1 1)) 0
    (fun _ => ⟨rfl, rfl, rfl⟩) (by norm_num [SIZE]; decide)).1 (by decide)
  have h2 := (block_freed_iff_both_zero (fun _ t => t)
    (WeakPtr.fromShared (.var 0) 0 (MakeShared 0 7 false (init 1 1))) 0
    (fun _ => ⟨rfl, rfl, rfl⟩) (by norm_num [SIZE]; decide)).1 (by decide)
  exact ⟨h1.1.trans rfl, h2.1.trans rfl⟩

/-! ### Closed forms for `Lock()` -/

theorem Lock_none (w : WAddr) (cur : Nat) (s : State) (hb : (s.W w).block_ = none) :
    WeakPtr.Lock w cur s = s.setS cur ⟨none, none⟩ := by
  unfold WeakPtr.Lock
  dsimp only
  have eW : (SharedPtr.ctorDefault cur s).W w = s.W w := rfl
  rw [eW, hb]
  rfl

theorem Lock_zero (w : WAddr) (cur b : Nat) (s : State) (hb : (s.W w).block_ = some b)
    (hc : (s.heap b).count_ = 0) : WeakPtr.Lock w cur s = s.setS cur ⟨none, none⟩ := by
  unfold WeakPtr.Lock
  dsimp only
  have eW : (SharedPtr.ctorDefault cur s).W w = s.W w := rfl
  rw [eW, hb]
  dsimp only
  have e : ControlBlockBase.GetCount b (SharedPtr.ctorDefault cur s) = 0 := hc
  rw [if_neg (by rw [e]; simp)]
  rfl

/-- The state in which the temporary of `Lock()` has been constructed. -/
theorem Lock_some (w : WAddr) (cur b : Nat) (s : State) (hb : (s.W w).block_ = some b)
    (hc : (s.heap b).count_ ≠ 0) :
    WeakPtr.Lock w cur s
      = SharedPtr.dtor s.nS (SharedPtr.moveAssign cur s.nS
          (SharedPtr.ctorBlockPtr s.nS b (ControlBlockBase.Get b s)
            (ControlBlockBase.Increment b (s.setS cur ⟨none, none⟩)))) := by
  unfold WeakPtr.Lock
  dsimp only
  have eW : (SharedPtr.ctorDefault cur s).W w = s.W w := rfl
  rw [eW, hb]
  dsimp only
  have e : ControlBlockBase.GetCount b (SharedPtr.ctorDefault cur s) ≠ 0 := hc
  rw [if_pos e]
  simp only [SharedPtr.ctorDefault, Get_Increment, Get_setS, Increment_nS, setS_nS]

/-- Move assignment from a temporary into a null handle followed by the
destruction of the temporary. -/
theorem moveAssign_dtor_tmp (cur tmp : Nat) (v : SharedPtr) (u : State) (hne : cur ≠ tmp)
    (hcur : u.sh cur = some ⟨none, none⟩) (htmp : u.sh tmp = some v) :
    (SharedPtr.dtor tmp (SharedPtr.moveAssign cur tmp u)).heap = u.heap
    ∧ (SharedPtr.dtor tmp (SharedPtr.moveAssign cur tmp u)).wk = u.wk
    ∧ (SharedPtr.dtor tmp (SharedPtr.moveAssign cur tmp u)).next = u.next
    ∧ (SharedPtr.dtor tmp (SharedPtr.moveAssign cur tmp u)).sh
        = Function.update (Function.update u.sh cur (some v)) tmp none := by
  have hS : u.S cur = ⟨none, none⟩ := S_of_sh u cur _ hcur
  have hR : SharedPtr.Reset cur u = u.setS cur ⟨none, none⟩ := by
    unfold SharedPtr.Reset
    rw [hS]
  have hSc : (u.setS cur ⟨none, none⟩).S cur = ⟨none, none⟩ := S_setS_same _ _ _
  have hSt : (u.setS cur ⟨none, none⟩).S tmp = v := by
    rw [S_setS_other _ _ _ _ (Ne.symm hne)]; exact S_of_sh u tmp v htmp
  have hM : SharedPtr.moveAssign cur tmp u
      = ((u.setS cur ⟨none, none⟩).setS cur v).setS tmp ⟨none, none⟩ := by
    unfold SharedPtr.moveAssign SharedPtr.Swap
    rw [hR, hSc, hSt]
  have hD : SharedPtr.dtor tmp (SharedPtr.moveAssign cur tmp u)
      = (((u.setS cur ⟨none, none⟩).setS cur v).setS tmp ⟨none, none⟩).killS tmp := by
    rw [hM]
    unfold SharedPtr.dtor
    rw [S_setS_same]
  rw [hD]
  refine ⟨rfl, rfl, rfl, ?_⟩
  simp only [killS_sh, setS_sh, Function.update_idem]

theorem InitWeakThis_count_weak (d b : Nat) (s : State)
    (hwt : s.wk (.weakThis b) = some ⟨some b⟩) (hS : (s.S d).block_ = some b)
    (hk : WeakBounded s) (c : Nat) :
    ((SharedPtr.InitWeakThis d b s).heap c).count_weak_ = (s.heap c).count_weak_ := by
  unfold SharedPtr.InitWeakThis WeakPtr.assignShared WeakPtr.Reset WeakPtr.MakeNull
  dsimp only
  rw [W_of_wk s _ _ hwt]
  dsimp only
  have e : (((ControlBlockBase.DecrementWeak b s).setW (.weakThis b) ⟨none⟩).S d).block_
      = some b := by
    rw [S_congr s _ d (by simp)]; exact hS
  rw [e]
  dsimp only
  rw [IncrementWeak_count_weak]
  by_cases hcb : c = b
  · subst hcb
    simp only [if_true, setW_heap, DecrementWeak_count_weak]
    exact dec_inc_mod _ (hk c)
  · simp only [hcb, if_false, setW_heap, DecrementWeak_count_weak]

theorem ctorBlockPtr_count (d b : Nat) (p : Ptr) (s : State) (c : Nat) :
    ((SharedPtr.ctorBlockPtr d b p s).heap c).count_ = (s.heap c).count_ := by
  unfold SharedPtr.ctorBlockPtr
  dsimp only
  split
  · rw [(InitWeakThis_same _ _ _).count]; rfl
  · rfl

theorem ctorBlockPtr_count_weak (d b : Nat) (p : Ptr) (s : State)
    (hwt : (s.heap b).esft = true → s.wk (.weakThis b) = some ⟨some b⟩)
    (hk : WeakBounded s) (c : Nat) :
    ((SharedPtr.ctorBlockPtr d b p s).heap c).count_weak_ = (s.heap c).count_weak_ := by
  unfold SharedPtr.ctorBlockPtr
  dsimp only
  split
  · rename_i he
    have h1 : (s.setS d ⟨p, some b⟩).wk (.weakThis b) = some ⟨some b⟩ := hwt he
    have h2 : ((s.setS d ⟨p, some b⟩).S d).block_ = some b := by rw [S_setS_same]
    have h3 : WeakBounded (s.setS d ⟨p, some b⟩) := hk
    rw [InitWeakThis_count_weak d b (s.setS d ⟨p, some b⟩) h1 h2 h3]
    rfl
  · rfl

/-- What a successful `Lock()` does, in a state that satisfies the invariant. -/
theorem Lock_effect {s : State} (hs : Inv s) (w : WAddr) (cur b : Nat)
    (hcur : cur < s.nS) (hfree : s.sh cur = none)
    (hb : (s.W w).block_ = some b) (hc : (s.heap b).count_ ≠ 0) :
    (WeakPtr.Lock w cur s).sh
        = Function.update s.sh cur (some ⟨ControlBlockBase.Get b s, some b⟩)
    ∧ (∀ c, ((WeakPtr.Lock w cur s).heap c).count_
        = if c = b then (s.heap b).count_ + 1 else (s.heap c).count_)
    ∧ (∀ c, ((WeakPtr.Lock w cur s).heap c).count_weak_ = (s.heap c).count_weak_)
    ∧ (WeakPtr.Lock w cur s).next = s.next := by
  have hI := hs.1
  have hbn : b < s.next := hI.W_lt w b hb
  have hne : cur ≠ s.nS := by omega
  have hdead : s.sh s.nS = none := hI.dead _ (le_refl _)
  rw [Lock_some w cur b s hb hc]
  generalize hu : SharedPtr.ctorBlockPtr s.nS b (ControlBlockBase.Get b s)
    (ControlBlockBase.Increment b (s.setS cur ⟨none, none⟩)) = u
  have hush : u.sh = Function.update (Function.update s.sh cur (some ⟨none, none⟩)) s.nS
      (some ⟨ControlBlockBase.Get b s, some b⟩) := by
    rw [← hu, ctorBlockPtr_sh]; rfl
  have hucnt : ∀ c, (u.heap c).count_
      = if c = b then ((s.heap b).count_ + 1) % SIZE else (s.heap c).count_ := by
    intro c
    rw [← hu, ctorBlockPtr_count]
    exact Increment_count b (s.setS cur ⟨none, none⟩) c
  have huw : ∀ c, (u.heap c).count_weak_ = (s.heap c).count_weak_ := by
    intro c
    have hb1 : WeakBounded (ControlBlockBase.Increment b (s.setS cur ⟨none, none⟩)) :=
      Increment_bounded _ _ hI.wlt
    have hw1 : ((ControlBlockBase.Increment b (s.setS cur ⟨none, none⟩)).heap b).esft = true →
        (ControlBlockBase.Increment b (s.setS cur ⟨none, none⟩)).wk (.weakThis b)
          = some ⟨some b⟩ := by
      intro he
      rw [Increment_esft] at he
      exact (hI.self b hbn he hc).1
    rw [← hu, ctorBlockPtr_count_weak s.nS b (ControlBlockBase.Get b s)
      (ControlBlockBase.Increment b (s.setS cur ⟨none, none⟩)) hw1 hb1 c,
      Increment_count_weak]
    rfl
  have hun : u.next = s.next := by
    rw [← hu]
    unfold SharedPtr.ctorBlockPtr
    dsimp only
    split
    · rw [(InitWeakThis_same _ _ _).next]; rfl
    · rfl
  have hcur3 : u.sh cur = some ⟨none, none⟩ := by
    rw [hush, Function.update_noteq hne, Function.update_same]
  have htmp3 : u.sh s.nS = some ⟨ControlBlockBase.Get b s, some b⟩ := by
    rw [hush, Function.update_same]
  obtain ⟨m1, m2, m3, m4⟩ := moveAssign_dtor_tmp cur s.nS _ u hne hcur3 htmp3
  have hlt : (s.heap b).count_ + 1 < SIZE := by
    have h1 := liveOn_lt s.sh s.nS b cur hcur (by rw [hfree]; rfl)
    have h2 := hI.cnt b
    have h3 := hI.n_lt
    omega
  refine ⟨?_, ?_, ?_, ?_⟩
  · rw [m4, hush]
    funext i
    by_cases hi : i = s.nS
    · subst hi
      rw [Function.update_same, Function.update_noteq (Ne.symm hne), hdead]
    · rw [Function.update_noteq hi]
      by_cases hic : i = cur
      · subst hic
        rw [Function.update_same, Function.update_same]
      · rw [Function.update_noteq hic, Function.update_noteq hi, Function.update_noteq hic,
          Function.update_noteq hic]
  · intro c
    rw [m1, hucnt, inc_mod _ hlt]
  · intro c
    rw [m1, huw]
  · rw [m3, hun]

theorem fromWeak_ok (d : Nat) (w : WAddr) (b : Nat) (s : State)
    (hb : (s.W w).block_ = some b) (hc : (s.heap b).count_ ≠ 0) :
    SharedPtr.fromWeak d w s
      = .ok (ControlBlockBase.Increment b (s.setS d ⟨ControlBlockBase.Get b s, some b⟩)) := by
  unfold SharedPtr.fromWeak
  rw [hb]
  dsimp only
  have e : ControlBlockBase.GetCount b s ≠ 0 := hc
  rw [if_neg e]

/-- C4: constructing a shared handle from a weak handle `w` throws `BadWeakPtr`
iff `w` has no control block or the block's strong count is 0; a throw leaves
the state (every counter) as it was; otherwise the new handle references `w`'s
block, its payload pointer is the block's `Get()`, the strong count has grown
by exactly 1 and no other counter has changed. -/
theorem fromWeak_throws_iff_expired (nS nW : Nat) (ops : List Op) (s : State) (d : Nat)
    (w : WAddr) (hn : nS + 1 < SIZE) (hr : run ops (init nS nW) = some s)
    (hd : s.freeS d) (hw : s.liveWA w) :
    (SharedPtr.fromWeak d w s = .error .mk
        ↔ ((s.W w).block_ = none
          ∨ ∃ b, (s.W w).block_ = some b ∧ ControlBlockBase.GetCount b s = 0))
    ∧ (SharedPtr.fromWeak d w s = .error .mk → step (.fromWeak d w) s = some s)
    ∧ (∀ b, (s.W w).block_ = some b → ControlBlockBase.GetCount b s ≠ 0 →
        ∃ t, SharedPtr.fromWeak d w s = .ok t ∧ step (.fromWeak d w) s = some t
          ∧ SharedPtr.GetBlock d t = some b
          ∧ SharedPtr.Get d t = ControlBlockBase.Get b t
          ∧ ControlBlockBase.GetCount b t = ControlBlockBase.GetCount b s + 1
          ∧ (∀ c, c ≠ b → ControlBlockBase.GetCount c t = ControlBlockBase.GetCount c s)
          ∧ (∀ c, ControlBlockBase.GetCountWeak c t = ControlBlockBase.GetCountWeak c s)) := by
  have hs := reach_inv nS nW ops s hn hr
  refine ⟨?_, ?_, ?_⟩
  · unfold SharedPtr.fromWeak
    cases hb : (s.W w).block_ with
    | none => simp
    | some b =>
      dsimp only
      by_cases hc : ControlBlockBase.GetCount b s = 0
      · simp [hc]
      · simp [hc]
  · intro he
    simp only [step, hd, hw, and_self, if_true, he]
  · intro b hb hc
    have hok := fromWeak_ok d w b s hb hc
    refine ⟨_, hok, ?_, ?_, ?_, ?_, ?_, ?_⟩
    · simp only [step, hd, hw, and_self, if_true, hok]
    · simp [SharedPtr.GetBlock, State.S]
    · simp [SharedPtr.Get, State.S]
    · unfold ControlBlockBase.GetCount
      rw [Increment_count, if_pos rfl]
      apply inc_mod
      have h1 := liveOn_lt s.sh s.nS b d hd.1 (by rw [hd.2]; rfl)
      have h2 := hs.1.cnt b
      have h3 := hs.1.n_lt
      show (s.heap b).count_ + 1 < SIZE
      omega
    · intro c hcb
      unfold ControlBlockBase.GetCount
      rw [Increment_count, if_neg hcb]
      rfl
    · intro c
      unfold ControlBlockBase.GetCountWeak
      rw [Increment_count_weak]
      rfl

theorem fromWeak_throws_iff_expired_witness :
    ∃ s t, run [.makeShared 0 7 false, .wfromShared 0 0] (init 2 1) = some s
      ∧ SharedPtr.fromWeak 1 (.var 0) s = .ok t
      ∧ SharedPtr.GetBlock 1 t = some 0 ∧ ControlBlockBase.GetCount 0 t = 2 := by
  obtain ⟨t, h1, _, h3, _, h5, _⟩ :=
    (fromWeak_throws_iff_expired 2 1 [.makeShared 0 7 false, .wfromShared 0 0] _ 1 (.var 0)
      (by norm_num [SIZE]) rfl (by decide) (by decide)).2.2 0 rfl (by decide)
  exact ⟨_, t, rfl, h1, h3, h5⟩

/-- C5: `Lock()` always returns a handle (the model has no error result).  If
the weak handle has no control block or the strong count is 0, the result is a
null handle (`Get() == nullptr`, `UseCount() == 0`) and the heap is unchanged;
otherwise the result is a non-null handle on the block, the strong count has
grown by exactly 1 and no weak count has changed. -/
theorem Lock_returns_handle (nS nW : Nat) (ops : List Op) (s : State) (d : Nat)
    (w : WAddr) (hn : nS + 1 < SIZE) (hr : run ops (init nS nW) = some s)
    (hd : s.freeS d) (hw : s.liveWA w) :
    step (.lock d w) s = some (WeakPtr.Lock w d s)
    ∧ (((s.W w).block_ = none
          ∨ ∃ b, (s.W w).block_ = some b ∧ ControlBlockBase.GetCount b s = 0) →
        SharedPtr.Get d (WeakPtr.Lock w d s) = none
          ∧ SharedPtr.UseCount d (WeakPtr.Lock w d s) = 0
          ∧ SharedPtr.toBool d (WeakPtr.Lock w d s) = false
          ∧ (WeakPtr.Lock w d s).heap = s.heap)
    ∧ (∀ b, (s.W w).block_ = some b → ControlBlockBase.GetCount b s ≠ 0 →
        SharedPtr.toBool d (WeakPtr.Lock w d s) = true
          ∧ SharedPtr.GetBlock d (WeakPtr.Lock w d s) = some b
          ∧ SharedPtr.UseCount d (WeakPtr.Lock w d s) = ControlBlockBase.GetCount b s + 1
          ∧ ControlBlockBase.GetCount b (WeakPtr.Lock w d s)
              = ControlBlockBase.GetCount b s + 1
          ∧ (∀ c, c ≠ b → ControlBlockBase.GetCount c (WeakPtr.Lock w d s)
              = ControlBlockBase.GetCount c s)
          ∧ (∀ c, ControlBlockBase.GetCountWeak c (WeakPtr.Lock w d s)
              = ControlBlockBase.GetCountWeak c s)) := by
  have hs := reach_inv nS nW ops s hn hr
  refine ⟨?_, ?_, ?_⟩
  · simp only [step, hd, hw, and_self, if_true]
  · intro h
    have e : WeakPtr.Lock w d s = s.setS d ⟨none, none⟩ := by
      rcases h with h | ⟨b, hb, hc⟩
      · exact Lock_none w d s h
      · exact Lock_zero w d b s hb hc
    rw [e]
    refine ⟨?_, ?_, ?_, rfl⟩
    · simp [SharedPtr.Get, State.S]
    · simp [SharedPtr.UseCount, State.S]
    · simp [SharedPtr.toBool, State.S]
  · intro b hb hc
    obtain ⟨e1, e2, e3, _⟩ := Lock_effect hs w d b hd.1 hd.2 hb hc
    have hS : (WeakPtr.Lock w d s).S d = ⟨ControlBlockBase.Get b s, some b⟩ := by
      apply S_of_sh
      rw [e1, Function.update_same]
    have hcount : ControlBlockBase.GetCount b (WeakPtr.Lock w d s)
        = ControlBlockBase.GetCount b s + 1 := by
      unfold ControlBlockBase.GetCount
      rw [e2, if_pos rfl]
    refine ⟨?_, ?_, ?_, hcount, ?_, ?_⟩
    · simp [SharedPtr.toBool, hS]
    · simp [SharedPtr.GetBlock, hS]
    · unfold SharedPtr.UseCount
      rw [hS]
      exact hcount
    · intro c hcb
      unfold ControlBlockBase.GetCount
      rw [e2, if_neg hcb]
    · intro c
      exact e3 c

theorem Lock_returns_handle_witness :
    ∃ s, run [.makeShared 0 7 true, .wfromShared 0 0] (init 2 1) = some s
      ∧ step (.lock 1 (.var 0)) s = some (WeakPtr.Lock (.var 0) 1 s)
      ∧ ControlBlockBase.GetCount 0 (WeakPtr.Lock (.var 0) 1 s) = 2 := by
  have h := Lock_returns_handle 2 1 [.makeShared 0 7 true, .wfromShared 0 0] _ 1 (.var 0)
    (by norm_num [SIZE]) rfl (by decide) (by decide)
  exact ⟨_, rfl, h.1, (h.2.2 0 rfl (by decide)).2.2.2.1⟩

/-- C6 fails for an aliasing handle: `s1` adopts the payload at address 5, `s2`
aliases it with the pointer 7, and the handle locked from `WeakPtr(s2)` has
`Get() == 5`, so it is not equal to `s2`. -/
theorem lock_of_alias_loses_pointer :
    (run [.ctorPtr 0 (some 5) false, .aliasCtor 1 0 (some 7), .wfromShared 0 1,
        .lock 2 (.var 0)] (init 3 1)).map
      (fun s => (SharedPtr.Get 1 s, SharedPtr.Get 2 s, SharedPtr.eq 2 1 s))
      = some (some 7, some 5, false) := by
  rfl

/-- C6, amended: for a live handle `i` on a block whose payload pointer is the
block's own `Get()`, a weak handle constructed from it references the same
block, and as long as that handle and the weak handle are alive, `Lock()`
returns a handle with the same payload pointer, equal to the handle `i`. -/
theorem lock_same_payload_as_owner (nS nW : Nat) (ops : List Op) (s : State)
    (i k : Nat) (w : WAddr) (p : Ptr) (b : Nat)
    (hn : nS + 1 < SIZE) (hr : run ops (init nS nW) = some s)
    (hi : i < s.nS) (hsi : s.sh i = some ⟨p, some b⟩) (hp : p = ControlBlockBase.Get b s)
    (hk : s.freeS k) :
    (∀ j, ((WeakPtr.fromShared (.var j) i s).W (.var j)).block_ = some b)
    ∧ ((s.W w).block_ = some b →
        SharedPtr.Get k (WeakPtr.Lock w k s) = SharedPtr.Get i (WeakPtr.Lock w k s)
        ∧ SharedPtr.Get i (WeakPtr.Lock w k s) = SharedPtr.Get i s
        ∧ SharedPtr.eq k i (WeakPtr.Lock w k s) = true) := by
  have hs := reach_inv nS nW ops s hn hr
  refine ⟨?_, ?_⟩
  · intro j
    apply congrArg WeakPtr.block_ (W_of_wk _ _ ⟨some b⟩ ?_)
    rw [WeakPtr_fromShared_wk, Function.update_same, S_of_sh s i _ hsi]
  · intro hw
    have hc : (s.heap b).count_ ≠ 0 := by
      have := liveOn_pos s.sh s.nS b i _ hi hsi rfl
      rw [hs.1.cnt b]; omega
    obtain ⟨e1, _, _, _⟩ := Lock_effect hs w k b hk.1 hk.2 hw hc
    have hne : i ≠ k := by
      intro h; subst h; rw [hk.2] at hsi; simp at hsi
    have hSk : (WeakPtr.Lock w k s).S k = ⟨ControlBlockBase.Get b s, some b⟩ := by
      apply S_of_sh
      rw [e1, Function.update_same]
    have hSi : (WeakPtr.Lock w k s).S i = ⟨p, some b⟩ := by
      apply S_of_sh
      rw [e1, Function.update_noteq hne]
      exact hsi
    refine ⟨?_, ?_, ?_⟩
    · simp [SharedPtr.Get, hSk, hSi, hp]
    · simp [SharedPtr.Get, hSi, S_of_sh s i _ hsi]
    · simp [SharedPtr.eq, hSk, hSi, hp]

theorem lock_same_payload_as_owner_witness :
    ∃ s, run [.makeShared 0 7 false, .wfromShared 0 0] (init 2 1) = some s
      ∧ SharedPtr.eq 1 0 (WeakPtr.Lock (.var 0) 1 s) = true := by
  have h := lock_same_payload_as_owner 2 1 [.makeShared 0 7 false, .wfromShared 0 0] _ 0 1
    (.var 0) (some 7) 0 (by norm_num [SIZE]) rfl (by decide) rfl rfl (by decide)
  exact ⟨_, rfl, (h.2 rfl).2.2⟩

/-- C7: the aliasing construction `d(a, p)` from a non-null handle `a` gives
`d.Get() == p` on `a`'s block with the strong count raised by 1; destroying or
resetting `a` afterwards succeeds and leaves `d` untouched; and in every later
state in which `d` is still that handle the strong count is at least 1 and
`Destroy()` has not run on the block. -/
theorem alias_keeps_payload_alive (nS nW : Nat) (ops : List Op) (s : State)
    (a d : Nat) (q p : Ptr) (b : Nat)
    (hn : nS + 1 < SIZE) (hr : run ops (init nS nW) = some s)
    (ha : a < s.nS) (hsa : s.sh a = some ⟨q, some b⟩) (hd : s.freeS d) :
    ∃ s1, step (.aliasCtor d a p) s = some s1
      ∧ SharedPtr.Get d s1 = p
      ∧ SharedPtr.GetBlock d s1 = some b
      ∧ SharedPtr.GetBlock a s1 = some b
      ∧ ControlBlockBase.GetCount b s1 = ControlBlockBase.GetCount b s + 1
      ∧ (∃ s2, step (.dtor a) s1 = some s2 ∧ s2.sh d = some ⟨p, some b⟩)
      ∧ (∃ s2, step (.reset a) s1 = some s2 ∧ s2.sh d = some ⟨p, some b⟩)
      ∧ (∀ ops2 s2, run ops2 s1 = some s2 → s2.sh d = some ⟨p, some b⟩ →
          1 ≤ ControlBlockBase.GetCount b s2 ∧ (s2.heap b).destroyed = 0) := by
  have hs := reach_inv nS nW ops s hn hr
  have hla : s.liveS a := ⟨ha, by rw [hsa]; simp⟩
  have hb : b < s.next := hs.1.ref a _ b hsa rfl
  have hne : a ≠ d := by
    intro h; subst h; rw [hd.2] at hsa; simp at hsa
  have hst : step (.aliasCtor d a p) s = some (SharedPtr.aliasCtor d a p s) := by
    simp only [step, hd, hla, and_self, if_true]
  have hs1 := step_inv _ s _ hs hst
  have hform : SharedPtr.aliasCtor d a p s = (ControlBlockBase.Increment b s).setS d ⟨p, some b⟩ := by
    unfold SharedPtr.aliasCtor
    rw [S_of_sh s a _ hsa]
  have hnS : (SharedPtr.aliasCtor d a p s).nS = s.nS := aliasCtor_nS _ _ _ _
  have hshd : (SharedPtr.aliasCtor d a p s).sh d = some ⟨p, some b⟩ := by
    rw [hform]; simp
  have hsha : (SharedPtr.aliasCtor d a p s).sh a = some ⟨q, some b⟩ := by
    rw [hform, setS_sh, Function.update_noteq hne]; exact hsa
  have hlive1 : (SharedPtr.aliasCtor d a p s).liveS a := ⟨by rw [hnS]; exact ha, by rw [hsha]; simp⟩
  refine ⟨_, hst, ?_, ?_, ?_, ?_, ?_, ?_, ?_⟩
  · simp [SharedPtr.Get, S_of_sh _ d _ hshd]
  · simp [SharedPtr.GetBlock, S_of_sh _ d _ hshd]
  · simp [SharedPtr.GetBlock, S_of_sh _ a _ hsha]
  · rw [hform]
    unfold ControlBlockBase.GetCount
    rw [setS_heap, Increment_count, if_pos rfl]
    apply inc_mod
    have h1 := liveOn_lt s.sh s.nS b d hd.1 (by rw [hd.2]; rfl)
    have h2 := hs.1.cnt b
    have h3 := hs.1.n_lt
    omega
  · refine ⟨SharedPtr.dtor a (SharedPtr.aliasCtor d a p s),
      by simp only [step, hlive1, if_true], ?_⟩
    unfold SharedPtr.dtor
    rw [S_of_sh _ a _ hsha]
    dsimp only
    rw [killS_sh, Reset_sh, Function.update_noteq (Ne.symm hne),
      Function.update_noteq (Ne.symm hne)]
    exact hshd
  · refine ⟨SharedPtr.Reset a (SharedPtr.aliasCtor d a p s),
      by simp only [step, hlive1, if_true], ?_⟩
    rw [Reset_sh, Function.update_noteq (Ne.symm hne)]
    exact hshd
  · intro ops2 s2 hr2 hd2
    have hs2 := run_inv ops2 _ s2 hs1 hr2
    have hd2n : d < s2.nS := by
      by_contra hge
      have := hs2.1.dead d (by omega)
      rw [this] at hd2; simp at hd2
    have hpos := liveOn_pos s2.sh s2.nS b d _ hd2n hd2 rfl
    have hcnt := hs2.1.cnt b
    have hb2 : b < s2.next := hs2.1.ref d _ b hd2 rfl
    have hdes := hs2.1.des b hb2
    unfold ControlBlockBase.GetCount
    have hc0 : (s2.heap b).count_ ≠ 0 := by omega
    rw [if_neg hc0] at hdes
    exact ⟨by omega, hdes⟩

theorem alias_keeps_payload_alive_witness :
    ∃ s s1, run [.ctorPtr 0 (some 5) false] (init 2 1) = some s
      ∧ step (.aliasCtor 1 0 (some 9)) s = some s1
      ∧ SharedPtr.Get 1 s1 = some 9 ∧ ControlBlockBase.GetCount 0 s1 = 2 := by
  obtain ⟨s1, h1, h2, _, _, h5, _⟩ :=
    alias_keeps_payload_alive 2 1 [.ctorPtr 0 (some 5) false] _ 0 1 (some 5) (some 9) 0
      (by norm_num [SIZE]) rfl (by decide) rfl (by decide)
  exact ⟨_, s1, rfl, h1, h2, h5⟩

/-- C8: for a payload that derives from `EnableSharedFromThis`, lives in the
`buffer_` of a `ControlBlockElement` (it was made by `MakeShared`) and is owned
by `n ≥ 1` live shared handles, `SharedFromThis()` returns a handle whose
`Get()` is the address of the payload and whose `UseCount()` is `n + 1`, and the
weak count of the block is the same after the call as before. -/
theorem sharedFromThis_of_makeShared (nS nW : Nat) (ops : List Op) (s : State)
    (b buf d : Nat) (hn : nS + 1 < SIZE) (hr : run ops (init nS nW) = some s)
    (hb : b < s.next) (he : (s.heap b).esft = true)
    (hst : (s.heap b).storage = .element buf) (hc : countShared s b ≠ 0) (hd : s.freeS d) :
    step (.lock d (.weakThis b)) s = some (EnableSharedFromThis.SharedFromThis b d s)
    ∧ SharedPtr.Get d (EnableSharedFromThis.SharedFromThis b d s) = some buf
    ∧ SharedPtr.UseCount d (EnableSharedFromThis.SharedFromThis b d s) = countShared s b + 1
    ∧ ControlBlockBase.GetCountWeak b (EnableSharedFromThis.SharedFromThis b d s)
        = ControlBlockBase.GetCountWeak b s := by
  have hs := reach_inv nS nW ops s hn hr
  have hcnt : (s.heap b).count_ = countShared s b := hs.1.cnt b
  have hc0 : (s.heap b).count_ ≠ 0 := by rw [hcnt]; exact hc
  obtain ⟨hwt, _⟩ := hs.1.self b hb he hc0
  have hW : (s.W (.weakThis b)).block_ = some b := by rw [W_of_wk s _ _ hwt]
  have hlive : s.liveWA (.weakThis b) := ⟨by rw [hwt]; simp, hb⟩
  unfold EnableSharedFromThis.SharedFromThis
  obtain ⟨e1, e2, e3, _⟩ := Lock_effect hs (.weakThis b) d b hd.1 hd.2 hW hc0
  have hG : ControlBlockBase.Get b s = some buf := by
    unfold ControlBlockBase.Get; rw [hst]; rfl
  have hS : (WeakPtr.Lock (.weakThis b) d s).S d = ⟨some buf, some b⟩ := by
    apply S_of_sh
    rw [e1, Function.update_same, hG]
  refine ⟨?_, ?_, ?_, ?_⟩
  · simp only [step, hd, hlive, and_self, if_true]
  · simp [SharedPtr.Get, hS]
  · unfold SharedPtr.UseCount ControlBlockBase.GetCount
    rw [hS]
    dsimp only
    rw [e2, if_pos rfl, hcnt]
  · exact e3 b

theorem sharedFromThis_of_makeShared_witness :
    ∃ s, run [.makeShared 0 7 true, .copyCtor 1 0] (init 3 1) = some s
      ∧ SharedPtr.Get 2 (EnableSharedFromThis.SharedFromThis 0 2 s) = some 7
      ∧ SharedPtr.UseCount 2 (EnableSharedFromThis.SharedFromThis 0 2 s) = 3 := by
  have h := sharedFromThis_of_makeShared 3 1 [.makeShared 0 7 true, .copyCtor 1 0] _ 0 7 2
    (by norm_num [SIZE]) rfl (by decide) rfl rfl (by decide) (by decide)
  exact ⟨_, rfl, h.2.1, h.2.2.1⟩

/-- `Destroy()` of a payload without `EnableSharedFromThis` touches no counter. -/
theorem Destroy_plain (b : Nat) (s : State) (he : (s.heap b).esft = false) :
    ((Destroy b s).heap b).count_weak_ = (s.heap b).count_weak_
    ∧ ((Destroy b s).heap b).deleted = (s.heap b).deleted := by
  have hp : payloadDtor b s = s := by
    unfold payloadDtor; rw [he]; rfl
  unfold Destroy
  split
  · rw [hp]
    simp only [ite_self, modBlock_heap_same]
    exact ⟨trivial, trivial⟩
  · rw [hp]
    exact ⟨rfl, rfl⟩

/-- The counters after `Decrement()` on a block whose payload does not derive
from `EnableSharedFromThis`. -/
theorem Decrement_plain (b : Nat) (s : State) (he : (s.heap b).esft = false) :
    ((ControlBlockBase.Decrement Destroy b s).heap b).count_weak_
        = (if ((s.heap b).count_ + SIZE - 1) % SIZE = 0
            then (((s.heap b).count_weak_ + 1) % SIZE + SIZE - 1) % SIZE
            else (s.heap b).count_weak_)
    ∧ ((ControlBlockBase.Decrement Destroy b s).heap b).deleted
        = (s.heap b).deleted
          + (if (((s.heap b).count_ + SIZE - 1) % SIZE
              + (if ((s.heap b).count_ + SIZE - 1) % SIZE = 0
                  then (((s.heap b).count_weak_ + 1) % SIZE + SIZE - 1) % SIZE
                  else (s.heap b).count_weak_)) % SIZE = 0 then 1 else 0) := by
  refine (Decrement_counters Destroy s b ?_).2
  intro t ht
  have het : (t.heap b).esft = false := by
    rw [ht]; simp only [modBlock_heap_same]; exact he
  exact ⟨Destroy_count b t b, Destroy_plain b t het⟩

theorem run_nil (s : State) : run [] s = some s := rfl

theorem run_cons (op : Op) (ops : List Op) (s : State) :
    run (op :: ops) s = (step op s).bind (run ops) := rfl

theorem run_cons_some (op : Op) (ops : List Op) (s t : State) (h : step op s = some t) :
    run (op :: ops) s = run ops t := by
  rw [run_cons, h]; rfl

theorem UseCount_of_sh (s : State) (i b : Nat) (p : Ptr) (h : s.sh i = some ⟨p, some b⟩) :
    SharedPtr.UseCount i s = (s.heap b).count_ := by
  unfold SharedPtr.UseCount ControlBlockBase.GetCount
  rw [S_of_sh s i _ h]

theorem Expired_of_wk (s : State) (a : WAddr) (b : Nat) (h : s.wk a = some ⟨some b⟩) :
    WeakPtr.Expired a s = ((s.heap b).count_ == 0) := by
  unfold WeakPtr.Expired WeakPtr.UseCount ControlBlockBase.GetCount
  rw [W_of_wk s a _ h]

theorem run_append (ops1 ops2 : List Op) (s : State) :
    run (ops1 ++ ops2) s = (run ops1 s).bind (run ops2) := by
  induction ops1 generalizing s with
  | nil => rfl
  | cons op ops ih =>
    rw [List.cons_append, run_cons, run_cons]
    cases step op s with
    | none => rfl
    | some u => exact ih u

theorem Reset_some (d b : Nat) (p : Ptr) (s : State) (h : s.sh d = some ⟨p, some b⟩) :
    SharedPtr.Reset d s = (ControlBlockBase.Decrement Destroy b s).setS d ⟨none, none⟩ := by
  unfold SharedPtr.Reset
  rw [S_of_sh s d _ h]

theorem aliasCtor_some (d a b : Nat) (p q : Ptr) (s : State)
    (h : s.sh a = some ⟨q, some b⟩) :
    SharedPtr.aliasCtor d a p s = (ControlBlockBase.Increment b s).setS d ⟨p, some b⟩ := by
  unfold SharedPtr.aliasCtor
  rw [S_of_sh s a _ h]

theorem copyCtor_some (d a b : Nat) (q : Ptr) (s : State)
    (h : s.sh a = some ⟨q, some b⟩) :
    SharedPtr.copyCtor d a s = (ControlBlockBase.Increment b s).setS d ⟨q, some b⟩ := by
  rw [copyCtor_eq, aliasCtor_some d a b _ q s h, S_of_sh s a _ h]

theorem WeakPtr_fromShared_some (w : WAddr) (a b : Nat) (q : Ptr) (s : State)
    (h : s.sh a = some ⟨q, some b⟩) :
    WeakPtr.fromShared w a s = (ControlBlockBase.IncrementWeak b s).setW w ⟨some b⟩ := by
  unfold WeakPtr.fromShared
  rw [S_of_sh s a _ h]

theorem WeakPtr_dtor_some (w : WAddr) (b : Nat) (s : State) (h : s.wk w = some ⟨some b⟩) :
    WeakPtr.dtor w s = (ControlBlockBase.DecrementWeak b s).killW w := by
  unfold WeakPtr.dtor
  rw [W_of_wk s w _ h]

theorem MakeShared_plain (d buf : Nat) (s : State) :
    MakeShared d buf false s
      = (ControlBlockBase.create (.element buf) false s).setS d ⟨some buf, some s.next⟩ := by
  rw [MakeShared_eq]; rfl

/-- C9: in the scenario `s1 = MakeShared<Widget>(42); s2 = s1; s1.Reset();
w = WeakPtr(s2); s2.Reset();` (handles 0 and 1, weak handle 0, payload at
`buf`): after `s1.Reset()` `s2.UseCount()` is 1 and `Destroy()` has not run;
after `s2.Reset()` `w.Expired()` holds, `Destroy()` has run exactly once and the
block has not been deleted; it is deleted, once, when `w` is destroyed. -/
theorem end_to_end_scenario (buf : Nat) :
    (run [.makeShared 0 buf false, .copyCtor 1 0, .reset 0] (init 2 1)).map
        (fun s => (SharedPtr.UseCount 1 s, (s.heap 0).destroyed, (s.heap 0).deleted))
      = some (1, 0, 0)
    ∧ (run [.makeShared 0 buf false, .copyCtor 1 0, .reset 0, .wfromShared 0 1, .reset 1]
          (init 2 1)).map
        (fun s => (WeakPtr.Expired (.var 0) s, (s.heap 0).destroyed, (s.heap 0).deleted))
      = some (true, 1, 0)
    ∧ (run [.makeShared 0 buf false, .copyCtor 1 0, .reset 0, .wfromShared 0 1, .reset 1,
          .wdtor 0] (init 2 1)).map
        (fun s => ((s.heap 0).destroyed, (s.heap 0).deleted))
      = some (1, 1) := by
  -- the states of the scenario
  generalize h1 : MakeShared 0 buf false (init 2 1) = s1
  have sh1 : s1.sh = Function.update (fun _ => none) 0 (some ⟨some buf, some 0⟩) := by
    rw [← h1, MakeShared_plain]; rfl
  have n1 : s1.nS = 2 ∧ s1.nW = 1 ∧ s1.wk (.var 0) = none := by
    rw [← h1, MakeShared_plain]; exact ⟨rfl, rfl, rfl⟩
  have b1 : (s1.heap 0).count_ = 1 ∧ (s1.heap 0).count_weak_ = 0 ∧ (s1.heap 0).destroyed = 0
      ∧ (s1.heap 0).deleted = 0 ∧ (s1.heap 0).esft = false := by
    rw [← h1, MakeShared_plain]; exact ⟨rfl, rfl, rfl, rfl, rfl⟩
  have e1 : step (.makeShared 0 buf false) (init 2 1) = some s1 := by
    rw [← h1]; rfl
  -- s2 = s1
  generalize h2 : SharedPtr.copyCtor 1 0 s1 = s2
  have f2 : s2 = (ControlBlockBase.Increment 0 s1).setS 1 ⟨some buf, some 0⟩ := by
    rw [← h2]; exact copyCtor_some 1 0 0 (some buf) s1 (by rw [sh1]; rfl)
  have sh2 : s2.sh 0 = some ⟨some buf, some 0⟩ ∧ s2.sh 1 = some ⟨some buf, some 0⟩ := by
    rw [f2, setS_sh, Increment_sh, sh1]; exact ⟨rfl, rfl⟩
  have n2 : s2.nS = 2 ∧ s2.nW = 1 ∧ s2.wk (.var 0) = none := by rw [f2]; exact n1
  have b2 : (s2.heap 0).count_ = 2 ∧ (s2.heap 0).count_weak_ = 0 ∧ (s2.heap 0).destroyed = 0
      ∧ (s2.heap 0).deleted = 0 ∧ (s2.heap 0).esft = false := by
    rw [f2, setS_heap, Increment_count, Increment_count_weak, Increment_destroyed,
      Increment_deleted, Increment_esft, if_pos rfl, b1.1]
    exact ⟨by rw [SIZE_eq], b1.2⟩
  have e2 : step (.copyCtor 1 0) s1 = some s2 := by
    have g1 : s1.freeS 1 := ⟨by rw [n1.1]; decide, by rw [sh1]; rfl⟩
    have g2 : s1.liveS 0 := ⟨by rw [n1.1]; decide, by rw [sh1]; simp⟩
    simp only [step, g1, g2, and_self, if_true, h2]
  -- s1.Reset()
  generalize h3 : SharedPtr.Reset 0 s2 = s3
  have f3 : s3 = (ControlBlockBase.Decrement Destroy 0 s2).setS 0 ⟨none, none⟩ := by
    rw [← h3]; exact Reset_some 0 0 (some buf) s2 sh2.1
  have a3 : ((s2.heap 0).count_ + SIZE - 1) % SIZE = 1 := by rw [b2.1, SIZE_eq]
  have sh3 : s3.sh 0 = some ⟨none, none⟩ ∧ s3.sh 1 = some ⟨some buf, some 0⟩ := by
    rw [f3, setS_sh, Decrement_sh]
    exact ⟨by rw [Function.update_same], by rw [Function.update_noteq (by decide)]; exact sh2.2⟩
  have n3 : s3.nS = 2 ∧ s3.nW = 1 ∧ s3.wk (.var 0) = none := by
    rw [f3, setS_nS, setS_nW, setS_wk, Decrement_nS, Decrement_nW, Decrement_wk_var]; exact n2
  have b3 : (s3.heap 0).count_ = 1 ∧ (s3.heap 0).count_weak_ = 0 ∧ (s3.heap 0).destroyed = 0
      ∧ (s3.heap 0).deleted = 0 ∧ (s3.heap 0).esft = false := by
    obtain ⟨p1, p2⟩ := Decrement_plain 0 s2 b2.2.2.2.2
    rw [f3, setS_heap, Decrement_count, Decrement_destroyed, Decrement_esft, p1, p2, a3,
      if_pos rfl, b2.2.1, b2.2.2.1, b2.2.2.2.1]
    refine ⟨rfl, ?_, ?_, ?_, b2.2.2.2.2⟩
    · norm_num
    · norm_num
    · rw [SIZE_eq]; norm_num
  have e3 : step (.reset 0) s2 = some s3 := by
    have g : s2.liveS 0 := ⟨by rw [n2.1]; decide, by rw [sh2.1]; simp⟩
    simp only [step, g, if_true, h3]
  -- w = WeakPtr(s2)
  generalize h4 : WeakPtr.fromShared (.var 0) 1 s3 = s4
  have f4 : s4 = (ControlBlockBase.IncrementWeak 0 s3).setW (.var 0) ⟨some 0⟩ := by
    rw [← h4]; exact WeakPtr_fromShared_some (.var 0) 1 0 (some buf) s3 sh3.2
  have sh4 : s4.sh 1 = some ⟨some buf, some 0⟩ := by rw [f4]; exact sh3.2
  have n4 : s4.nS = 2 ∧ s4.nW = 1 ∧ s4.wk (.var 0) = some ⟨some 0⟩ := by
    rw [f4, setW_nS, setW_nW, setW_wk, IncrementWeak_nS, IncrementWeak_nW, Function.update_same]
    exact ⟨n3.1, n3.2.1, rfl⟩
  have b4 : (s4.heap 0).count_ = 1 ∧ (s4.heap 0).count_weak_ = 1 ∧ (s4.heap 0).destroyed = 0
      ∧ (s4.heap 0).deleted = 0 ∧ (s4.heap 0).esft = false := by
    rw [f4, setW_heap, IncrementWeak_count, IncrementWeak_count_weak, IncrementWeak_destroyed,
      IncrementWeak_deleted, IncrementWeak_esft, if_pos rfl, b3.2.1]
    exact ⟨b3.1, by rw [SIZE_eq], b3.2.2⟩
  have e4 : step (.wfromShared 0 1) s3 = some s4 := by
    have g1 : s3.freeW 0 := ⟨by rw [n3.2.1]; decide, n3.2.2⟩
    have g2 : s3.liveS 1 := ⟨by rw [n3.1]; decide, by rw [sh3.2]; simp⟩
    simp only [step, g1, g2, and_self, if_true, h4]
  -- s2.Reset()
  generalize h5 : SharedPtr.Reset 1 s4 = s5
  have f5 : s5 = (ControlBlockBase.Decrement Destroy 0 s4).setS 1 ⟨none, none⟩ := by
    rw [← h5]; exact Reset_some 1 0 (some buf) s4 sh4
  have a5 : ((s4.heap 0).count_ + SIZE - 1) % SIZE = 0 := by rw [b4.1, SIZE_eq]
  have n5 : s5.nS = 2 ∧ s5.nW = 1 ∧ s5.wk (.var 0) = some ⟨some 0⟩ := by
    rw [f5, setS_nS, setS_nW, setS_wk, Decrement_nS, Decrement_nW, Decrement_wk_var]; exact n4
  have b5 : (s5.heap 0).count_ = 0 ∧ (s5.heap 0).count_weak_ = 1 ∧ (s5.heap 0).destroyed = 1
      ∧ (s5.heap 0).deleted = 0 := by
    obtain ⟨p1, p2⟩ := Decrement_plain 0 s4 b4.2.2.2.2
    rw [f5, setS_heap, Decrement_count, Decrement_destroyed, p1, p2, a5,
      if_pos rfl, b4.2.1, b4.2.2.1, b4.2.2.2.1]
    have q : ((1 + 1) % SIZE + SIZE - 1) % SIZE = 1 := by rw [SIZE_eq]
    rw [if_pos rfl, q]
    refine ⟨rfl, rfl, ?_, ?_⟩
    · norm_num
    · rw [SIZE_eq]; norm_num
  have e5 : step (.reset 1) s4 = some s5 := by
    have g : s4.liveS 1 := ⟨by rw [n4.1]; decide, by rw [sh4]; simp⟩
    simp only [step, g, if_true, h5]
  -- w goes out of scope
  generalize h6 : WeakPtr.dtor (.var 0) s5 = s6
  have f6 : s6 = (ControlBlockBase.DecrementWeak 0 s5).killW (.var 0) := by
    rw [← h6]; exact WeakPtr_dtor_some (.var 0) 0 s5 n5.2.2
  have b6 : (s6.heap 0).destroyed = 1 ∧ (s6.heap 0).deleted = 1 := by
    rw [f6, killW_heap, DecrementWeak_destroyed, DecrementWeak_deleted, b5.1, b5.2.1,
      b5.2.2.1, b5.2.2.2]
    refine ⟨rfl, ?_⟩
    rw [SIZE_eq]; norm_num
  have e6 : step (.wdtor 0) s5 = some s6 := by
    have g : s5.liveW 0 := ⟨by rw [n5.2.1]; decide, by rw [n5.2.2]; simp⟩
    simp only [step, g, if_true, h6]
  have r3 : run [.makeShared 0 buf false, .copyCtor 1 0, .reset 0] (init 2 1) = some s3 := by
    rw [run_cons_some _ _ _ _ e1, run_cons_some _ _ _ _ e2, run_cons_some _ _ _ _ e3, run_nil]
  have r5 : run [.makeShared 0 buf false, .copyCtor 1 0, .reset 0, .wfromShared 0 1, .reset 1]
      (init 2 1) = some s5 := by
    rw [run_cons_some _ _ _ _ e1, run_cons_some _ _ _ _ e2, run_cons_some _ _ _ _ e3,
      run_cons_some _ _ _ _ e4, run_cons_some _ _ _ _ e5, run_nil]
  have r6 : run [.makeShared 0 buf false, .copyCtor 1 0, .reset 0, .wfromShared 0 1, .reset 1,
      .wdtor 0] (init 2 1) = some s6 := by
    rw [run_cons_some _ _ _ _ e1, run_cons_some _ _ _ _ e2, run_cons_some _ _ _ _ e3,
      run_cons_some _ _ _ _ e4, run_cons_some _ _ _ _ e5, run_cons_some _ _ _ _ e6, run_nil]
  rw [r3, r5, r6]
  simp only [Option.map]
  have u3 : SharedPtr.UseCount 1 s3 = 1 := by
    rw [UseCount_of_sh s3 1 0 (some buf) sh3.2]; exact b3.1
  have x5 : WeakPtr.Expired (.var 0) s5 = true := by
    rw [Expired_of_wk s5 (.var 0) 0 n5.2.2, b5.1]; rfl
  rw [u3, x5, b3.2.2.1, b3.2.2.2.1, b5.2.2.1, b5.2.2.2, b6.1, b6.2]
  exact ⟨rfl, rfl, rfl⟩

theorem paired_null : (⟨none, none⟩ : SharedPtr).paired := by
  unfold SharedPtr.paired; simp

theorem paired_update (f : Nat → Option SharedPtr) (d : Nat) (o : Option SharedPtr)
    (hf : ∀ i h, f i = some h → h.paired) (ho : ∀ h, o = some h → h.paired) :
    ∀ i h, Function.update f d o i = some h → h.paired := by
  intro i h hi
  by_cases hid : i = d
  · subst hid; rw [Function.update_same] at hi; exact ho h hi
  · rw [Function.update_noteq hid] at hi; exact hf i h hi

theorem paired_some (v : SharedPtr) (hv : v.paired) : ∀ h, some v = some h → h.paired := by
  intro h e
  simp only [Option.some.injEq] at e
  subst e; exact hv

theorem paired_none : ∀ h : SharedPtr, (none : Option SharedPtr) = some h → h.paired := by
  intro h e; simp at e

theorem Paired.S {s : State} (hp : Paired s) (i : Nat) : (s.S i).paired := by
  unfold State.S
  cases h : s.sh i with
  | none => exact paired_null
  | some v => exact hp.handles i v h

theorem Paired.blocks_of_evolves {s t : State} (hp : Paired s)
    (he : Evolves (fun st => st.Get ≠ none) s t) :
    ∀ b, b < t.next → (t.heap b).destroyed = 0 → ControlBlockBase.Get b t ≠ none := by
  intro b hb hd
  by_cases hbs : b < s.next
  · have h1 := he.destroyed b hbs
    have h2 : (s.heap b).destroyed = 0 := by omega
    rw [Get_congr s t b (he.storage b hbs (by omega))]
    exact hp.blocks b hbs h2
  · exact he.alloc b (by omega) hb hd

theorem pairedOp_allocates (s : State) (op : Op) (h : pairedOp s op = true) :
    op.allocates (fun st => st.Get ≠ none) := by
  cases op <;> simp only [Op.allocates] <;> try trivial
  · rename_i d p esft
    simp only [pairedOp] at h
    cases p with
    | none => simp at h
    | some x => simp [Storage.Get]
  · simp [Storage.Get]
  · rename_i d p esft
    simp only [pairedOp] at h
    cases p with
    | none => simp at h
    | some x => simp [Storage.Get]

theorem MakeShared_sh (d buf : Nat) (esft : Bool) (s : State) :
    (MakeShared d buf esft s).sh = Function.update s.sh d (some ⟨some buf, some s.next⟩) := by
  rw [MakeShared_eq]
  split
  · rw [(InitWeakThis_same _ _ _).sh]; simp
  · simp

theorem aliasCtor_sh (d src : Nat) (p : Ptr) (s : State) :
    (SharedPtr.aliasCtor d src p s).sh
      = Function.update s.sh d (some ⟨p, (s.S src).block_⟩) := by
  unfold SharedPtr.aliasCtor
  cases (s.S src).block_ <;> rfl

theorem copyAssign_sh (d src : Nat) (s : State) :
    (SharedPtr.copyAssign d src s).sh = Function.update s.sh d (some (s.S src)) := by
  unfold SharedPtr.copyAssign
  cases (s.S src).block_ <;> simp only [S_Increment] <;> cases (s.S d).block_ <;>
    simp only [setS_sh, Decrement_sh, Increment_sh, S_Decrement, S_Increment]

theorem dtor_sh (d : Nat) (s : State) :
    (SharedPtr.dtor d s).sh = Function.update s.sh d none := by
  unfold SharedPtr.dtor
  cases (s.S d).block_ with
  | none => rfl
  | some b => simp only [killS_sh, Reset_sh, Function.update_idem]

theorem ResetPtr_sh (d : Nat) (p : Ptr) (esft : Bool) (s : State) (hd : d ≠ s.nS) :
    (SharedPtr.ResetPtr d p esft s).sh
      = Function.update (Function.update s.sh d (some ⟨p, some s.next⟩)) s.nS none := by
  unfold SharedPtr.ResetPtr
  dsimp only
  rw [dtor_sh, moveAssign_sh]
  have e1 : (SharedPtr.Reset d (SharedPtr.ctorPtr s.nS p esft s)).S s.nS = ⟨p, some s.next⟩ := by
    apply S_of_sh
    rw [Reset_sh, Function.update_noteq (Ne.symm hd), ctorPtr_sh, Function.update_same]
  rw [e1, ctorPtr_sh]
  funext i
  by_cases hi : i = s.nS
  · subst hi; simp
  · by_cases hid : i = d
    · subst hid; simp [hi]
    · simp [hi, hid]

/-- Every guarded statement keeps handles paired. -/
theorem step_paired (op : Op) (s t : State) (hs : Inv s) (hp : Paired s)
    (hg : pairedOp s op = true) (h : step op s = some t) : Paired t := by
  refine ⟨?_, hp.blocks_of_evolves (step_evolves op s t h (pairedOp_allocates s op hg))⟩
  have hI := hs.1
  cases op with
  | ctorDefault d =>
    simp only [step] at h
    split at h <;> simp only [Option.some.injEq, reduceCtorEq] at h
    subst h
    exact paired_update _ _ _ hp.handles (paired_some _ paired_null)
  | ctorPtr d p esft =>
    simp only [step] at h
    split at h <;> simp only [Option.some.injEq, reduceCtorEq] at h
    subst h
    rw [ctorPtr_sh]
    refine paired_update _ _ _ hp.handles (paired_some _ ?_)
    simp only [pairedOp] at hg
    cases p with
    | none => simp at hg
    | some x => simp [SharedPtr.paired]
  | makeShared d buf esft =>
    simp only [step] at h
    split at h <;> simp only [Option.some.injEq, reduceCtorEq] at h
    subst h
    rw [MakeShared_sh]
    exact paired_update _ _ _ hp.handles (paired_some _ (by simp [SharedPtr.paired]))
  | copyCtor d src =>
    simp only [step] at h
    split at h <;> simp only [Option.some.injEq, reduceCtorEq] at h
    subst h
    rw [copyCtor_eq, aliasCtor_sh]
    exact paired_update _ _ _ hp.handles (paired_some _ (hp.S src))
  | moveCtor d src =>
    simp only [step] at h
    split at h <;> simp only [Option.some.injEq, reduceCtorEq] at h
    subst h
    exact paired_update _ _ _ (paired_update _ _ _ hp.handles (paired_some _ (hp.S src)))
      (paired_some _ paired_null)
  | aliasCtor d src p =>
    simp only [step] at h
    split at h <;> simp only [Option.some.injEq, reduceCtorEq] at h
    subst h
    rw [aliasCtor_sh]
    refine paired_update _ _ _ hp.handles (paired_some _ ?_)
    simp only [pairedOp] at hg
    unfold SharedPtr.paired
    cases p <;> cases hb : (s.S src).block_ <;> simp [hb] at hg ⊢
  | fromWeak d w =>
    simp only [step] at h
    split at h <;> [skip; simp only [reduceCtorEq] at h]
    rename_i hgd
    split at h
    · rename_i u hu
      simp only [Option.some.injEq] at h
      subst h
      unfold SharedPtr.fromWeak at hu
      cases hb : (s.W w).block_ with
      | none => simp [hb] at hu
      | some b =>
        simp only [hb] at hu
        split at hu
        · simp at hu
        · rename_i hc
          simp only [Except.ok.injEq] at hu
          subst hu
          have hbn := hI.W_lt w b hb
          have hdes := hI.des b hbn
          have hc0 : (s.heap b).count_ ≠ 0 := hc
          rw [if_neg hc0] at hdes
          have hget := hp.blocks b hbn hdes
          refine paired_update _ _ _ hp.handles (paired_some _ ?_)
          unfold SharedPtr.paired
          simp [hget]
    · simp only [Option.some.injEq] at h
      subst h
      exact hp.handles
  | lock d w =>
    simp only [step] at h
    split at h <;> simp only [Option.some.injEq, reduceCtorEq] at h
    rename_i hgd
    subst h
    cases hb : (s.W w).block_ with
    | none =>
      rw [Lock_none w d s hb]
      exact paired_update _ _ _ hp.handles (paired_some _ paired_null)
    | some b =>
      by_cases hc : (s.heap b).count_ = 0
      · rw [Lock_zero w d b s hb hc]
        exact paired_update _ _ _ hp.handles (paired_some _ paired_null)
      · obtain ⟨e1, _⟩ := Lock_effect hs w d b hgd.1.1 hgd.1.2 hb hc
        rw [e1]
        have hbn := hI.W_lt w b hb
        have hdes := hI.des b hbn
        rw [if_neg hc] at hdes
        have hget := hp.blocks b hbn hdes
        refine paired_update _ _ _ hp.handles (paired_some _ ?_)
        unfold SharedPtr.paired
        simp [hget]
  | copyAssign d src =>
    simp only [step] at h
    split at h <;> simp only [Option.some.injEq, reduceCtorEq] at h
    subst h
    rw [copyAssign_sh]
    exact paired_update _ _ _ hp.handles (paired_some _ (hp.S src))
  | moveAssign d src =>
    simp only [step] at h
    split at h <;> simp only [Option.some.injEq, reduceCtorEq] at h
    subst h
    have hR : ∀ i h, (SharedPtr.Reset d s).sh i = some h → h.paired := by
      rw [Reset_sh]
      exact paired_update _ _ _ hp.handles (paired_some _ paired_null)
    have hRS : ∀ i, ((SharedPtr.Reset d s).S i).paired := by
      intro i
      unfold State.S
      cases hh : (SharedPtr.Reset d s).sh i with
      | none => exact paired_null
      | some v => exact hR i v hh
    rw [moveAssign_sh]
    exact paired_update _ _ _ (paired_update _ _ _ (paired_update _ _ _ hp.handles
      (paired_some _ paired_null)) (paired_some _ (hRS src))) (paired_some _ (hRS d))
  | reset d =>
    simp only [step] at h
    split at h <;> simp only [Option.some.injEq, reduceCtorEq] at h
    subst h
    rw [Reset_sh]
    exact paired_update _ _ _ hp.handles (paired_some _ paired_null)
  | resetPtr d p esft =>
    simp only [step] at h
    split at h <;> simp only [Option.some.injEq, reduceCtorEq] at h
    rename_i hgd
    subst h
    have hne : d ≠ s.nS := by have := hgd.1.1; omega
    rw [ResetPtr_sh d p esft s hne]
    refine paired_update _ _ _ (paired_update _ _ _ hp.handles (paired_some _ ?_)) paired_none
    simp only [pairedOp] at hg
    cases p with
    | none => simp at hg
    | some x => simp [SharedPtr.paired]
  | swap a b =>
    simp only [step] at h
    split at h <;> simp only [Option.some.injEq, reduceCtorEq] at h
    subst h
    rw [Swap_sh]
    exact paired_update _ _ _ (paired_update _ _ _ hp.handles (paired_some _ (hp.S b)))
      (paired_some _ (hp.S a))
  | dtor d =>
    simp only [step] at h
    split at h <;> simp only [Option.some.injEq, reduceCtorEq] at h
    subst h
    rw [dtor_sh]
    exact paired_update _ _ _ hp.handles paired_none
  | wctorDefault w =>
    simp only [step] at h
    split at h <;> simp only [Option.some.injEq, reduceCtorEq] at h
    subst h; exact hp.handles
  | wcopyCtor w src =>
    simp only [step] at h
    split at h <;> simp only [Option.some.injEq, reduceCtorEq] at h
    subst h; rw [(WeakPtr_copyCtor_same _ _ _).sh]; exact hp.handles
  | wmoveCtor w src =>
    simp only [step] at h
    split at h <;> simp only [Option.some.injEq, reduceCtorEq] at h
    subst h; exact hp.handles
  | wfromShared w src =>
    simp only [step] at h
    split at h <;> simp only [Option.some.injEq, reduceCtorEq] at h
    subst h; rw [(WeakPtr_fromShared_same _ _ _).sh]; exact hp.handles
  | wassignShared w src =>
    simp only [step] at h
    split at h <;> simp only [Option.some.injEq, reduceCtorEq] at h
    subst h; rw [(WeakPtr_assignShared_same _ _ _).sh]; exact hp.handles
  | wcopyAssign w src =>
    simp only [step] at h
    split at h <;> simp only [Option.some.injEq, reduceCtorEq] at h
    subst h; rw [(WeakPtr_copyAssign_same _ _ _).sh]; exact hp.handles
  | wmoveAssign w src =>
    simp only [step] at h
    split at h <;> simp only [Option.some.injEq, reduceCtorEq] at h
    subst h; rw [(WeakPtr_moveAssign_same _ _ _).sh]; exact hp.handles
  | wreset w =>
    simp only [step] at h
    split at h <;> simp only [Option.some.injEq, reduceCtorEq] at h
    subst h; rw [(WeakPtr_Reset_same _ _).sh]; exact hp.handles
  | wswap a b =>
    simp only [step] at h
    split at h <;> simp only [Option.some.injEq, reduceCtorEq] at h
    subst h; exact hp.handles
  | wdtor w =>
    simp only [step] at h
    split at h <;> simp only [Option.some.injEq, reduceCtorEq] at h
    subst h; rw [(WeakPtr_dtor_same _ _).sh]; exact hp.handles

theorem runIf_paired (ops : List Op) (s t : State) (hs : Inv s) (hp : Paired s)
    (h : runIf pairedOp ops s = some t) : Paired t := by
  induction ops generalizing s with
  | nil =>
    simp only [runIf, Option.some.injEq] at h
    subst h; exact hp
  | cons op ops ih =>
    simp only [runIf] at h
    split at h <;> [skip; simp only [reduceCtorEq] at h]
    rename_i hg
    cases hst : step op s with
    | none => simp [hst] at h
    | some u =>
      rw [hst] at h
      exact ih u (step_inv op s u hs hst) (step_paired op s u hs hp hg hst) h

/-- C10 fails: a handle constructed from a null raw pointer has a null payload
pointer and a control block (and tests `true`), and aliasing constructions
give a non-null pointer without a block or a null pointer with a block. -/
theorem null_pairing_counterexample :
    (run [.ctorPtr 0 none false, .ctorDefault 1, .aliasCtor 2 1 (some 9),
        .aliasCtor 3 0 none] (init 4 0)).map
      (fun s => (s.sh 0, SharedPtr.toBool 0 s, s.sh 2, s.sh 3))
      = some (some ⟨none, some 0⟩, true, some ⟨some 9, none⟩, some ⟨none, some 0⟩) := by
  rfl

/-- C10, amended: in every state reached by statements that adopt only non-null
raw pointers and pass to the aliasing constructor a null pointer exactly when
the source has no control block, the payload pointer of every live handle is
null iff its control-block pointer is null. -/
theorem null_iff_both_null (nS nW : Nat) (ops : List Op) (s : State) (i : Nat) (h : SharedPtr)
    (hn : nS + 1 < SIZE) (hr : runIf pairedOp ops (init nS nW) = some s)
    (hi : s.sh i = some h) : h.ptr_ = none ↔ h.block_ = none := by
  have hp0 : Paired (init nS nW) := by
    refine ⟨?_, ?_⟩
    · intro j v hv; simp [init] at hv
    · intro b hb; simp [init] at hb
  exact (runIf_paired ops _ s (init_inv nS nW hn) hp0 hr).handles i h hi

theorem null_iff_both_null_witness :
    ∃ s, runIf pairedOp [.ctorPtr 0 (some 5) false, .aliasCtor 1 0 (some 9), .reset 0]
        (init 2 0) = some s
      ∧ s.sh 1 = some ⟨some 9, some 0⟩ ∧ ((some 9 : Ptr) = none ↔ (some 0 : Option Nat) = none) := by
  refine ⟨_, rfl, rfl, ?_⟩
  exact null_iff_both_null 2 0 [.ctorPtr 0 (some 5) false, .aliasCtor 1 0 (some 9), .reset 0]
    _ 1 ⟨some 9, some 0⟩ (by norm_num [SIZE]) rfl rfl

/-! ## `CompressedPair` -/

/-! ## `UniquePtr`

The primary template and the `T[]` specialisation have the same members (the
specialisation adds `operator[]`, which reads the payload only).  A policy
object is represented by a number, its state; `fd = true` is a policy type
that is an empty class, which `CompressedPair` does not store.  Every call
`GetDeleter()(p)` is recorded in `log`. -/

/-! ## `CompressedPair`: the accessors -/

theorem GetNode_assign {F : Type} [Inhabited F] (n : Node F false) (v : F) :
    (n.assign v).GetNode = v := by
  cases n; rfl

theorem GetFirst_setFirst {F S : Type} [Inhabited F] {fs : Bool}
    (p : CompressedPair F S false fs) (v : F) : (p.setFirst v).GetFirst = v :=
  GetNode_assign p.first v

theorem GetSecond_setSecond {F S : Type} [Inhabited S] {ff : Bool}
    (p : CompressedPair F S ff false) (v : S) : (p.setSecond v).GetSecond = v :=
  GetNode_assign p.second v

theorem GetSecond_setFirst {F S : Type} [Inhabited S] {ff fs : Bool}
    (p : CompressedPair F S ff fs) (v : F) : (p.setFirst v).GetSecond = p.GetSecond := rfl

theorem GetFirst_setSecond {F S : Type} [Inhabited F] {ff fs : Bool}
    (p : CompressedPair F S ff fs) (v : S) : (p.setSecond v).GetFirst = p.GetFirst := rfl

/-- C16: a `CompressedPair<F, S>` whose two slots are stored, built from `f` and
`s` by any of the four constructors, has `GetFirst() == f` and
`GetSecond() == s`; assigning `f2` through the mutable `GetFirst()` makes
`GetFirst()` return `f2` and leaves `GetSecond()` as it was, and the same with
the roles of the slots exchanged. -/
theorem stored_slots_get_set (F S : Type) [Inhabited F] [Inhabited S] (f f2 : F) (s s2 : S)
    (p : CompressedPair F S false false) :
    ((CompressedPair.ctorCC f s : CompressedPair F S false false).GetFirst = f
      ∧ (CompressedPair.ctorCC f s : CompressedPair F S false false).GetSecond = s)
    ∧ ((CompressedPair.ctorMM f s : CompressedPair F S false false).GetFirst = f
      ∧ (CompressedPair.ctorMM f s : CompressedPair F S false false).GetSecond = s)
    ∧ ((CompressedPair.ctorCM f s : CompressedPair F S false false).GetFirst = f
      ∧ (CompressedPair.ctorCM f s : CompressedPair F S false false).GetSecond = s)
    ∧ ((CompressedPair.ctorMC f s : CompressedPair F S false false).GetFirst = f
      ∧ (CompressedPair.ctorMC f s : CompressedPair F S false false).GetSecond = s)
    ∧ ((p.setFirst f2).GetFirst = f2 ∧ (p.setFirst f2).GetSecond = p.GetSecond)
    ∧ ((p.setSecond s2).GetSecond = s2 ∧ (p.setSecond s2).GetFirst = p.GetFirst) :=
  ⟨⟨rfl, rfl⟩, ⟨rfl, rfl⟩, ⟨rfl, rfl⟩, ⟨rfl, rfl⟩,
    ⟨GetFirst_setFirst p f2, GetSecond_setFirst p f2⟩,
    ⟨GetSecond_setSecond p s2, GetFirst_setSecond p s2⟩⟩

/-! ## `UniquePtr`: the store -/

theorem U_of_uq {fd : Bool} (s : UState fd) (i : Nat) (h : UniquePtr fd) (hu : s.uq i = some h) :
    s.U i = h := by
  simp [UState.U, hu]

@[simp] theorem setU_uq {fd : Bool} (s : UState fd) (i : Nat) (v : UniquePtr fd) :
    (s.setU i v).uq = Function.update s.uq i (some v) := rfl

@[simp] theorem setU_log {fd : Bool} (s : UState fd) (i : Nat) (v : UniquePtr fd) :
    (s.setU i v).log = s.log := rfl

@[simp] theorem setU_nU {fd : Bool} (s : UState fd) (i : Nat) (v : UniquePtr fd) :
    (s.setU i v).nU = s.nU := rfl

@[simp] theorem killU_uq {fd : Bool} (s : UState fd) (i : Nat) :
    (s.killU i).uq = Function.update s.uq i none := rfl

@[simp] theorem killU_log {fd : Bool} (s : UState fd) (i : Nat) : (s.killU i).log = s.log := rfl

@[simp] theorem killU_nU {fd : Bool} (s : UState fd) (i : Nat) : (s.killU i).nU = s.nU := rfl

@[simp] theorem invoke_uq {fd : Bool} (s : UState fd) (d : Nat) (p : Ptr) :
    (s.invoke d p).uq = s.uq := rfl

@[simp] theorem invoke_log {fd : Bool} (s : UState fd) (d : Nat) (p : Ptr) :
    (s.invoke d p).log = s.log ++ [(d, p)] := rfl

@[simp] theorem invoke_nU {fd : Bool} (s : UState fd) (d : Nat) (p : Ptr) :
    (s.invoke d p).nU = s.nU := rfl

@[simp] theorem U_setU_same {fd : Bool} (s : UState fd) (i : Nat) (v : UniquePtr fd) :
    (s.setU i v).U i = v := by
  simp [UState.U]

theorem U_setU_other {fd : Bool} (s : UState fd) (i j : Nat) (v : UniquePtr fd) (h : j ≠ i) :
    (s.setU i v).U j = s.U j := by
  simp [UState.U, Function.update_noteq h]

@[simp] theorem U_invoke {fd : Bool} (s : UState fd) (d : Nat) (p : Ptr) (i : Nat) :
    (s.invoke d p).U i = s.U i := rfl

/-- Closed form of `Reset(ptr)` when `ptr` differs from the held pointer. -/
theorem Reset_ne {fd : Bool} (s : UState fd) (u : Nat) (p : Ptr) (h : p ≠ UniquePtr.Get u s) :
    UniquePtr.Reset u p s =
      (s.setU u ⟨(s.U u).holder_.setFirst p⟩).invoke (UniquePtr.GetDeleter u s)
        (UniquePtr.Get u s) := by
  unfold UniquePtr.Reset
  rw [if_neg h]
  simp only [UniquePtr.GetDeleter, U_setU_same, GetSecond_setFirst]

theorem Reset_eq {fd : Bool} (s : UState fd) (u : Nat) (p : Ptr) (h : p = UniquePtr.Get u s) :
    UniquePtr.Reset u p s = s := by
  unfold UniquePtr.Reset
  rw [if_pos h]

/-- C11: for a live exclusive handle `u` holding `q` (null or not) and every
pointer `p`: if `p == q`, `u.Reset(p)` leaves the whole state, the record of
policy calls included, as it was; if `p != q`, it makes exactly one policy
call, `GetDeleter()(q)`, after which `u.Get() == p`, the stored policy is the
same and every other handle is untouched. -/
theorem Reset_calls_policy_once_on_old {fd : Bool} (s : UState fd) (u : Nat) (p : Ptr)
    (hu : s.liveU u = true) :
    (p = UniquePtr.Get u s → UniquePtr.Reset u p s = s)
    ∧ (p ≠ UniquePtr.Get u s →
        (UniquePtr.Reset u p s).log = s.log ++ [(UniquePtr.GetDeleter u s, UniquePtr.Get u s)]
        ∧ UniquePtr.Get u (UniquePtr.Reset u p s) = p
        ∧ UniquePtr.GetDeleter u (UniquePtr.Reset u p s) = UniquePtr.GetDeleter u s
        ∧ (UniquePtr.Reset u p s).liveU u = true
        ∧ ∀ i, i ≠ u → (UniquePtr.Reset u p s).uq i = s.uq i) := by
  refine ⟨Reset_eq s u p, fun h => ?_⟩
  rw [Reset_ne s u p h]
  refine ⟨rfl, ?_, ?_, ?_, ?_⟩
  · simp only [UniquePtr.Get, U_invoke, U_setU_same, GetFirst_setFirst]
  · simp only [UniquePtr.GetDeleter, U_invoke, U_setU_same, GetSecond_setFirst]
  · simp only [UState.liveU, Bool.and_eq_true, decide_eq_true_eq] at hu
    simp only [UState.liveU, invoke_uq, invoke_nU, setU_uq, setU_nU, Function.update_same,
      Option.isSome_some, Bool.and_true, decide_eq_true_eq]
    exact hu.1
  · intro i hi
    simp only [invoke_uq, setU_uq, Function.update_noteq hi]

theorem Reset_calls_policy_once_on_old_witness :
    (UniquePtr.Reset 0 (some 2) (UniquePtr.ctor 0 (some 1) 7 (uinit false 1))).log = [(7, some 1)]
    ∧ UniquePtr.Get 0 (UniquePtr.Reset 0 (some 2) (UniquePtr.ctor 0 (some 1) 7 (uinit false 1)))
      = some 2 :=
  ⟨((Reset_calls_policy_once_on_old (UniquePtr.ctor 0 (some 1) 7 (uinit false 1)) 0 (some 2)
      (by decide)).2 (by decide)).1,
   ((Reset_calls_policy_once_on_old (UniquePtr.ctor 0 (some 1) 7 (uinit false 1)) 0 (some 2)
      (by decide)).2 (by decide)).2.1⟩

theorem GetNode_assign_GetNode {F : Type} [Inhabited F] {flag : Bool} (n m : Node F flag) :
    (n.assign m.GetNode).GetNode = m.GetNode := by
  cases n <;> cases m <;> rfl

theorem liveU_iff {fd : Bool} (s : UState fd) (i : Nat) :
    s.liveU i = true ↔ i < s.nU ∧ ∃ h, s.uq i = some h := by
  simp only [UState.liveU, Bool.and_eq_true, decide_eq_true_eq, Option.isSome_iff_exists]

theorem freeU_iff {fd : Bool} (s : UState fd) (i : Nat) :
    s.freeU i = true ↔ i < s.nU ∧ s.uq i = none := by
  simp only [UState.freeU, Bool.and_eq_true, decide_eq_true_eq, Option.isNone_iff_eq_none]

theorem free_ne_live {fd : Bool} (s : UState fd) (i j : Nat) (hi : s.freeU i = true)
    (hj : s.liveU j = true) : i ≠ j := by
  rintro rfl
  obtain ⟨_, h, hh⟩ := (liveU_iff s i).1 hj
  rw [((freeU_iff s i).1 hi).2] at hh
  exact Option.noConfusion hh

/-- Closed form of `Release()`. -/
theorem Release_eq {fd : Bool} (s : UState fd) (u : Nat) :
    UniquePtr.Release u s = (UniquePtr.Get u s, s.setU u ⟨(s.U u).holder_.setFirst none⟩) := rfl

/-- Closed form of the destructor. -/
theorem UniquePtr_dtor_log {fd : Bool} (s : UState fd) (u : Nat) :
    (UniquePtr.dtor u s).log = s.log ++ [(UniquePtr.GetDeleter u s, UniquePtr.Get u s)] := rfl

theorem passed_append {fd : Bool} (s t : UState fd) (d : Nat) (p : Ptr)
    (h : t.log = s.log ++ [(d, p)]) : t.passed = s.passed ++ [p] := by
  simp only [UState.passed, h, List.map_append, List.map_cons, List.map_nil]

theorem count_passed_of_ne {fd : Bool} (s t : UState fd) (d : Nat) (p q : Ptr)
    (h : t.log = s.log ++ [(d, p)]) (hpq : q ≠ p) : t.passed.count q = s.passed.count q := by
  rw [passed_append s t d p h, List.count_append, List.count_singleton]
  have : (p == q) = false := by
    rw [beq_eq_false_iff_ne]; exact fun e => hpq e.symm
  rw [this]; rfl

/-- C12: for a live exclusive handle `u` holding `q`, `u.Release()` returns `q`,
makes no policy call, keeps the stored policy and leaves `u.Get() == nullptr`
(every other handle is untouched); the destructor of `u`, run then or in any
later state in which `u` still holds `nullptr`, makes one policy call, on
`nullptr`, so that a non-null `q` has been passed to the policy no more often
than before `Release()`. -/
theorem Release_hands_over_without_policy {fd : Bool} (s : UState fd) (u : Nat)
    (hu : s.liveU u = true) :
    (UniquePtr.Release u s).1 = UniquePtr.Get u s
    ∧ (UniquePtr.Release u s).2.log = s.log
    ∧ UniquePtr.GetDeleter u (UniquePtr.Release u s).2 = UniquePtr.GetDeleter u s
    ∧ UniquePtr.Get u (UniquePtr.Release u s).2 = none
    ∧ (UniquePtr.Release u s).2.liveU u = true
    ∧ (∀ i, i ≠ u → (UniquePtr.Release u s).2.uq i = s.uq i)
    ∧ (∀ t : UState fd, UniquePtr.Get u t = none →
        (UniquePtr.dtor u t).log = t.log ++ [(UniquePtr.GetDeleter u t, none)])
    ∧ (UniquePtr.dtor u (UniquePtr.Release u s).2).log
        = s.log ++ [(UniquePtr.GetDeleter u s, none)]
    ∧ (UniquePtr.Get u s ≠ none →
        (UniquePtr.dtor u (UniquePtr.Release u s).2).passed.count (UniquePtr.Get u s)
          = s.passed.count (UniquePtr.Get u s)) := by
  have hg : UniquePtr.Get u (UniquePtr.Release u s).2 = none := by
    simp only [Release_eq, UniquePtr.Get, U_setU_same, GetFirst_setFirst]
  have hd : UniquePtr.GetDeleter u (UniquePtr.Release u s).2 = UniquePtr.GetDeleter u s := by
    simp only [Release_eq, UniquePtr.GetDeleter, U_setU_same, GetSecond_setFirst]
  have hl : (UniquePtr.dtor u (UniquePtr.Release u s).2).log
      = s.log ++ [(UniquePtr.GetDeleter u s, none)] := by
    rw [UniquePtr_dtor_log, hg, hd]; rfl
  refine ⟨rfl, rfl, hd, hg, ?_, ?_, ?_, hl, ?_⟩
  · obtain ⟨h1, _⟩ := (liveU_iff s u).1 hu
    rw [liveU_iff]
    exact ⟨h1, _, by rw [Release_eq, setU_uq, Function.update_same]⟩
  · intro i hi
    rw [Release_eq, setU_uq, Function.update_noteq hi]
  · intro t ht
    rw [UniquePtr_dtor_log, ht]
  · intro hq
    exact count_passed_of_ne s _ _ none _ hl hq

theorem Release_hands_over_without_policy_witness :
    (UniquePtr.Release 0 (UniquePtr.ctor 0 (some 1) 7 (uinit false 1))).1 = some 1
    ∧ (UniquePtr.dtor 0 (UniquePtr.Release 0 (UniquePtr.ctor 0 (some 1) 7 (uinit false 1))).2).log
      = [(7, none)] :=
  ⟨(Release_hands_over_without_policy (UniquePtr.ctor 0 (some 1) 7 (uinit false 1)) 0
      (by decide)).1,
   (Release_hands_over_without_policy (UniquePtr.ctor 0 (some 1) 7 (uinit false 1)) 0
      (by decide)).2.2.2.2.2.2.2.1⟩

/-- What the move constructor does to distinct objects. -/
theorem UniquePtr_moveCtor_facts {fd : Bool} (s : UState fd) (n src : Nat) (h : n ≠ src) :
    UniquePtr.Get n (UniquePtr.moveCtor n src s) = UniquePtr.Get src s
    ∧ UniquePtr.Get src (UniquePtr.moveCtor n src s) = none
    ∧ UniquePtr.GetDeleter n (UniquePtr.moveCtor n src s) = UniquePtr.GetDeleter src s
    ∧ UniquePtr.GetDeleter src (UniquePtr.moveCtor n src s) = UniquePtr.GetDeleter src s
    ∧ (UniquePtr.moveCtor n src s).log = s.log
    ∧ (UniquePtr.moveCtor n src s).nU = s.nU
    ∧ ∀ i, i ≠ n → i ≠ src → (UniquePtr.moveCtor n src s).uq i = s.uq i := by
  have h2 : src ≠ n := fun e => h e.symm
  refine ⟨?_, ?_, ?_, ?_, rfl, rfl, ?_⟩
  · simp only [UniquePtr.moveCtor, Release_eq, UniquePtr.Get, U_setU_same,
      U_setU_other _ _ _ _ h, U_setU_other _ _ _ _ h2, GetFirst_setSecond, GetFirst_setFirst]
  · simp only [UniquePtr.moveCtor, Release_eq, UniquePtr.Get, U_setU_same,
      U_setU_other _ _ _ _ h, U_setU_other _ _ _ _ h2, GetFirst_setFirst]
  · simp only [UniquePtr.moveCtor, Release_eq, UniquePtr.GetDeleter, U_setU_same,
      U_setU_other _ _ _ _ h, U_setU_other _ _ _ _ h2, GetSecond_setFirst]
    exact GetNode_assign_GetNode _ _
  · simp only [UniquePtr.moveCtor, Release_eq, UniquePtr.GetDeleter, U_setU_same,
      U_setU_other _ _ _ _ h, U_setU_other _ _ _ _ h2, GetSecond_setFirst]
  · intro i hi hs
    simp only [UniquePtr.moveCtor, Release_eq, setU_uq, Function.update_noteq hi,
      Function.update_noteq hs]

/-- Closed form of move assignment between distinct objects. -/
theorem UniquePtr_moveAssign_ne {fd : Bool} (s : UState fd) (dst src : Nat) (h : dst ≠ src) :
    UniquePtr.moveAssign dst src s = UniquePtr.Swap dst src (UniquePtr.Reset dst none s) := by
  unfold UniquePtr.moveAssign
  rw [if_neg h]

theorem Swap_Get {fd : Bool} (s : UState fd) (a b : Nat) (h : a ≠ b) :
    UniquePtr.Get a (UniquePtr.Swap a b s) = UniquePtr.Get b s
    ∧ UniquePtr.Get b (UniquePtr.Swap a b s) = UniquePtr.Get a s
    ∧ UniquePtr.GetDeleter a (UniquePtr.Swap a b s) = UniquePtr.GetDeleter b s
    ∧ UniquePtr.GetDeleter b (UniquePtr.Swap a b s) = UniquePtr.GetDeleter a s
    ∧ (UniquePtr.Swap a b s).log = s.log := by
  simp only [UniquePtr.Swap, UniquePtr.Get, UniquePtr.GetDeleter, U_setU_same,
    U_setU_other _ _ _ _ h, setU_log, and_self]

theorem Reset_none_log {fd : Bool} (s : UState fd) (u : Nat) :
    (UniquePtr.Reset u none s).log =
      s.log ++ (if UniquePtr.Get u s = none then []
        else [(UniquePtr.GetDeleter u s, UniquePtr.Get u s)]) := by
  by_cases h : UniquePtr.Get u s = none
  · rw [Reset_eq s u none h.symm, if_pos h, List.append_nil]
  · rw [Reset_ne s u none (fun e => h e.symm), if_neg h]; rfl

theorem Reset_none_Get {fd : Bool} (s : UState fd) (u : Nat) :
    UniquePtr.Get u (UniquePtr.Reset u none s) = none := by
  by_cases h : UniquePtr.Get u s = none
  · rw [Reset_eq s u none h.symm, h]
  · rw [Reset_ne s u none (fun e => h e.symm)]
    simp only [UniquePtr.Get, U_invoke, U_setU_same, GetFirst_setFirst]

theorem Reset_other {fd : Bool} (s : UState fd) (u i : Nat) (p : Ptr) (h : i ≠ u) :
    (UniquePtr.Reset u p s).U i = s.U i := by
  by_cases hp : p = UniquePtr.Get u s
  · rw [Reset_eq s u p hp]
  · rw [Reset_ne s u p hp, U_invoke, U_setU_other _ _ _ _ h]

/-- C13: for live, distinct exclusive handles `dst` (holding `q`) and `src`
(holding `p`) and a handle variable `n` not yet constructed: the move
constructor `n(move(src))` gives `n.Get() == p` with `src`'s policy, leaves
`src.Get() == nullptr` and makes no policy call; `dst = move(src)` leaves
`dst.Get() == p` and `src.Get() == nullptr`, its only policy call is
`dst`'s policy on `q`, made exactly when `q` is non-null, so that `p` is not
passed to a policy as long as the two handles did not hold the same non-null
pointer (the ownership invariant); and `dst = move(dst)` changes nothing. -/
theorem move_transfers_ownership {fd : Bool} (s : UState fd) (dst src n : Nat)
    (hd : s.liveU dst = true) (hs : s.liveU src = true) (hn : s.freeU n = true)
    (hne : dst ≠ src) :
    (UniquePtr.Get n (UniquePtr.moveCtor n src s) = UniquePtr.Get src s
      ∧ UniquePtr.Get src (UniquePtr.moveCtor n src s) = none
      ∧ UniquePtr.GetDeleter n (UniquePtr.moveCtor n src s) = UniquePtr.GetDeleter src s
      ∧ (UniquePtr.moveCtor n src s).log = s.log
      ∧ UniquePtr.Get dst (UniquePtr.moveCtor n src s) = UniquePtr.Get dst s)
    ∧ (UniquePtr.Get dst (UniquePtr.moveAssign dst src s) = UniquePtr.Get src s
      ∧ UniquePtr.Get src (UniquePtr.moveAssign dst src s) = none
      ∧ UniquePtr.GetDeleter dst (UniquePtr.moveAssign dst src s) = UniquePtr.GetDeleter src s
      ∧ (UniquePtr.moveAssign dst src s).log =
          s.log ++ (if UniquePtr.Get dst s = none then []
            else [(UniquePtr.GetDeleter dst s, UniquePtr.Get dst s)])
      ∧ ((UniquePtr.Get dst s = none ∨ UniquePtr.Get src s ≠ UniquePtr.Get dst s) →
          (UniquePtr.moveAssign dst src s).passed.count (UniquePtr.Get src s)
            = s.passed.count (UniquePtr.Get src s)))
    ∧ UniquePtr.moveAssign dst dst s = s := by
  have hns : n ≠ src := free_ne_live s n src hn hs
  have hnd : n ≠ dst := free_ne_live s n dst hn hd
  have hsd : src ≠ dst := fun e => hne e.symm
  obtain ⟨c1, c2, c3, _, c5, _, c7⟩ := UniquePtr_moveCtor_facts s n src hns
  obtain ⟨w1, w2, w3, _, w5⟩ := Swap_Get (UniquePtr.Reset dst none s) dst src hne
  have hlog : (UniquePtr.moveAssign dst src s).log =
      s.log ++ (if UniquePtr.Get dst s = none then []
        else [(UniquePtr.GetDeleter dst s, UniquePtr.Get dst s)]) := by
    rw [UniquePtr_moveAssign_ne s dst src hne, w5, Reset_none_log]
  refine ⟨⟨c1, c2, c3, c5, ?_⟩, ⟨?_, ?_, ?_, hlog, ?_⟩, ?_⟩
  · unfold UniquePtr.Get UState.U
    rw [c7 dst (fun e => hnd e.symm) hne]
  · rw [UniquePtr_moveAssign_ne s dst src hne, w1]
    unfold UniquePtr.Get
    rw [Reset_other s dst src none hsd]
  · rw [UniquePtr_moveAssign_ne s dst src hne, w2, Reset_none_Get]
  · rw [UniquePtr_moveAssign_ne s dst src hne, w3]
    unfold UniquePtr.GetDeleter
    rw [Reset_other s dst src none hsd]
  · intro hpq
    by_cases hq : UniquePtr.Get dst s = none
    · rw [if_pos hq, List.append_nil] at hlog
      unfold UState.passed
      rw [hlog]
    · rw [if_neg hq] at hlog
      exact count_passed_of_ne s _ _ _ _ hlog (hpq.resolve_left hq)
  · unfold UniquePtr.moveAssign
    rw [if_pos rfl]

theorem move_transfers_ownership_witness :
    UniquePtr.Get 0 (UniquePtr.moveAssign 0 1
        (UniquePtr.ctor 1 (some 5) 8 (UniquePtr.ctor 0 (some 4) 7 (uinit false 3)))) = some 5
    ∧ (UniquePtr.moveAssign 0 1
        (UniquePtr.ctor 1 (some 5) 8 (UniquePtr.ctor 0 (some 4) 7 (uinit false 3)))).log
      = [(7, some 4)] :=
  ⟨(move_transfers_ownership
      (UniquePtr.ctor 1 (some 5) 8 (UniquePtr.ctor 0 (some 4) 7 (uinit false 3))) 0 1 2
      (by decide) (by decide) (by decide) (by decide)).2.1.1,
   (move_transfers_ownership
      (UniquePtr.ctor 1 (some 5) 8 (UniquePtr.ctor 0 (some 4) 7 (uinit false 3))) 0 1 2
      (by decide) (by decide) (by decide) (by decide)).2.1.2.2.2.1⟩

/-! ## Exclusive ownership as an invariant -/

theorem PtrInv.drop {G : Nat → Ptr} {L : List Ptr} (h : PtrInv G L) (u : Nat) :
    PtrInv (Function.update G u none) L := by
  have key : ∀ i a, Function.update G u none i = some a → i ≠ u ∧ G i = some a := by
    intro i a hi
    by_cases e : i = u
    · subst e; rw [Function.update_same] at hi; exact Option.noConfusion hi
    · rw [Function.update_noteq e] at hi; exact ⟨e, hi⟩
  refine ⟨fun i j a hi hj => ?_, h.once, fun i a hi => ?_⟩
  · exact h.distinct i j a (key i a hi).2 (key j a hj).2
  · exact h.gone i a (key i a hi).2

theorem PtrInv.adopt {G : Nat → Ptr} {L : List Ptr} (h : PtrInv G L) (u : Nat) (a : Nat)
    (hfree : ∀ i, i ≠ u → G i ≠ some a) (hnew : some a ∉ L) :
    PtrInv (Function.update G u (some a)) L := by
  refine ⟨fun i j x hi hj => ?_, h.once, fun i x hi => ?_⟩
  · by_cases ei : i = u
    · by_cases ej : j = u
      · rw [ei, ej]
      · subst ei
        rw [Function.update_same] at hi
        rw [Function.update_noteq ej] at hj
        rw [← hi] at hj
        exact absurd hj (hfree j ej)
    · by_cases ej : j = u
      · subst ej
        rw [Function.update_same] at hj
        rw [Function.update_noteq ei] at hi
        rw [← hj] at hi
        exact absurd hi (hfree i ei)
      · rw [Function.update_noteq ei] at hi
        rw [Function.update_noteq ej] at hj
        exact h.distinct i j x hi hj
  · by_cases ei : i = u
    · subst ei
      rw [Function.update_same] at hi
      rw [← hi]; exact hnew
    · rw [Function.update_noteq ei] at hi
      exact h.gone i x hi

theorem PtrInv.pass {G : Nat → Ptr} {L : List Ptr} (h : PtrInv G L) (u : Nat) :
    PtrInv (Function.update G u none) (L ++ [G u]) := by
  have key : ∀ i a, Function.update G u none i = some a → i ≠ u ∧ G i = some a := by
    intro i a hi
    by_cases e : i = u
    · subst e; rw [Function.update_same] at hi; exact Option.noConfusion hi
    · rw [Function.update_noteq e] at hi; exact ⟨e, hi⟩
  refine ⟨fun i j a hi hj => ?_, fun a => ?_, fun i a hi => ?_⟩
  · exact h.distinct i j a (key i a hi).2 (key j a hj).2
  · rw [List.count_append, List.count_singleton]
    by_cases e : G u = some a
    · have : L.count (some a) = 0 := List.count_eq_zero.2 (h.gone u a e)
      rw [this]
      split <;> omega
    · have : (G u == some a) = false := by rw [beq_eq_false_iff_ne]; exact e
      rw [this]
      exact h.once a
  · obtain ⟨e, hG⟩ := key i a hi
    intro hmem
    rcases List.mem_append.1 hmem with hm | hm
    · exact h.gone i a hG hm
    · rw [List.mem_singleton] at hm
      exact e (h.distinct i u a hG hm.symm)

theorem PtrInv.exchange {G : Nat → Ptr} {L : List Ptr} (h : PtrInv G L) (a b : Nat) :
    PtrInv (Function.update (Function.update G a (G b)) b (G a)) L := by
  have key : ∀ i, Function.update (Function.update G a (G b)) b (G a) i = G (Equiv.swap a b i) := by
    intro i
    by_cases eb : i = b
    · subst eb; rw [Function.update_same, Equiv.swap_apply_right]
    · rw [Function.update_noteq eb]
      by_cases ea : i = a
      · subst ea; rw [Function.update_same, Equiv.swap_apply_left]
      · rw [Function.update_noteq ea, Equiv.swap_apply_of_ne_of_ne ea eb]
  refine ⟨fun i j x hi hj => ?_, h.once, fun i x hi => ?_⟩
  · rw [key] at hi hj
    exact (Equiv.swap a b).injective (h.distinct _ _ x hi hj)
  · rw [key] at hi
    exact h.gone _ x hi

theorem PtrInv.congr {G G2 : Nat → Ptr} {L : List Ptr} (h : PtrInv G L) (e : ∀ i, G2 i = G i) :
    PtrInv G2 L := by
  have : G2 = G := funext e
  rw [this]; exact h

theorem Get_dead {fd : Bool} (s : UState fd) (i : Nat) (h : s.uq i = none) :
    UniquePtr.Get i s = none := by
  unfold UniquePtr.Get UState.U
  rw [h]; rfl

theorem UniquePtr_Get_setU {fd : Bool} (s : UState fd) (u : Nat) (v : UniquePtr fd) (i : Nat) :
    UniquePtr.Get i (s.setU u v) = Function.update (fun k => UniquePtr.Get k s) u
      v.holder_.GetFirst i := by
  by_cases e : i = u
  · subst e
    rw [Function.update_same]
    unfold UniquePtr.Get
    rw [U_setU_same]
  · rw [Function.update_noteq e]
    unfold UniquePtr.Get
    rw [U_setU_other _ _ _ _ e]

theorem UniquePtr_Get_killU {fd : Bool} (s : UState fd) (u : Nat) (i : Nat) :
    UniquePtr.Get i (s.killU u) = Function.update (fun k => UniquePtr.Get k s) u none i := by
  by_cases e : i = u
  · subst e
    rw [Function.update_same]
    exact Get_dead _ _ (by rw [killU_uq, Function.update_same])
  · rw [Function.update_noteq e]
    unfold UniquePtr.Get UState.U
    rw [killU_uq, Function.update_noteq e]

theorem passed_setU {fd : Bool} (s : UState fd) (u : Nat) (v : UniquePtr fd) :
    (s.setU u v).passed = s.passed := rfl

theorem passed_killU {fd : Bool} (s : UState fd) (u : Nat) : (s.killU u).passed = s.passed := rfl

theorem passed_invoke {fd : Bool} (s : UState fd) (d : Nat) (p : Ptr) :
    (s.invoke d p).passed = s.passed ++ [p] := by
  simp only [UState.passed, invoke_log, List.map_append, List.map_cons, List.map_nil]

theorem Get_invoke {fd : Bool} (s : UState fd) (d : Nat) (p : Ptr) (i : Nat) :
    UniquePtr.Get i (s.invoke d p) = UniquePtr.Get i s := rfl

/-- A pointer that `owns` does not find is held at no address. -/
theorem not_owned {fd : Bool} (s : UState fd) (a : Nat)
    (hdead : ∀ i, s.nU ≤ i → s.uq i = none) (h : s.owns (some a) = false) (i : Nat) :
    UniquePtr.Get i s ≠ some a := by
  intro hi
  by_cases hlt : i < s.nU
  · have hall := List.any_eq_false.1 h i (List.mem_range.2 hlt)
    cases hu : s.uq i with
    | none => rw [Get_dead s i hu] at hi; exact Option.noConfusion hi
    | some v =>
      rw [hu] at hall
      unfold UniquePtr.Get at hi
      rw [U_of_uq s i v hu] at hi
      simp only [hi, decide_True, not_true_eq_false] at hall
  · rw [Get_dead s i (hdead i (Nat.le_of_not_lt hlt))] at hi
    exact Option.noConfusion hi

theorem UInv.setLive {fd : Bool} {s : UState fd} (h : UInv s) (u : Nat) (v : UniquePtr fd)
    (hu : u < s.nU)
    (hP : PtrInv (Function.update (fun k => UniquePtr.Get k s) u v.holder_.GetFirst) s.passed) :
    UInv (s.setU u v) := by
  refine ⟨hP.congr (UniquePtr_Get_setU s u v), fun i hi => ?_⟩
  rw [setU_uq, Function.update_noteq (by rw [setU_nU] at hi; omega)]
  exact h.2 i hi

theorem PtrInv.put {G : Nat → Ptr} {L : List Ptr} (h : PtrInv G L) (u : Nat) (p : Ptr)
    (hfree : ∀ a, p = some a → (∀ i, i ≠ u → G i ≠ some a) ∧ some a ∉ L) :
    PtrInv (Function.update G u p) L := by
  cases p with
  | none => exact h.drop u
  | some a => exact h.adopt u a (hfree a rfl).1 (hfree a rfl).2

theorem UniquePtr_ctor_uinv {fd : Bool} (s : UState fd) (d : Nat) (p : Ptr) (deleter : Nat)
    (h : UInv s) (hd : s.freeU d = true) (hg : freshPtr s (.ctor d p deleter) = true) :
    UInv (UniquePtr.ctor d p deleter s) := by
  unfold UniquePtr.ctor
  refine h.setLive d _ ((freeU_iff s d).1 hd).1 (h.1.put d p ?_)
  intro a ha
  subst ha
  simp only [freshPtr, Bool.and_eq_true, Bool.not_eq_true, List.contains_eq_any_beq, Bool.not_eq_eq_eq_not, Bool.not_true] at hg
  refine ⟨fun i _ => not_owned s a h.2 hg.1 i, ?_⟩
  intro hm
  have := List.any_eq_false.1 hg.2 _ hm
  simp at this

theorem UInv.build {fd : Bool} {t : UState fd} (G : Nat → Ptr) (L : List Ptr)
    (hG : ∀ i, UniquePtr.Get i t = G i) (hL : t.passed = L) (hP : PtrInv G L)
    (hdead : ∀ i, t.nU ≤ i → t.uq i = none) : UInv t := by
  refine ⟨?_, hdead⟩
  rw [hL]
  exact hP.congr hG

theorem freshPtr_facts {fd : Bool} (s : UState fd) (a : Nat)
    (hg : (!s.owns (some a) && !s.passed.contains (some a)) = true) :
    s.owns (some a) = false ∧ some a ∉ s.passed := by
  simp only [Bool.and_eq_true, Bool.not_eq_true, List.contains_eq_any_beq,
    Bool.not_eq_eq_eq_not, Bool.not_true] at hg
  refine ⟨hg.1, fun hm => ?_⟩
  have := List.any_eq_false.1 hg.2 _ hm
  simp at this

theorem Release_uinv {fd : Bool} (s : UState fd) (u : Nat) (h : UInv s)
    (hu : s.liveU u = true) : UInv (UniquePtr.Release u s).2 := by
  rw [Release_eq]
  refine h.setLive u _ ((liveU_iff s u).1 hu).1 ?_
  rw [show (UniquePtr.mk ((s.U u).holder_.setFirst none)).holder_.GetFirst = none from
    GetFirst_setFirst _ _]
  exact h.1.drop u

theorem Reset_nU {fd : Bool} (s : UState fd) (u : Nat) (p : Ptr) :
    (UniquePtr.Reset u p s).nU = s.nU := by
  unfold UniquePtr.Reset
  split <;> rfl

theorem Reset_uq {fd : Bool} (s : UState fd) (u i : Nat) (p : Ptr) (h : i ≠ u) :
    (UniquePtr.Reset u p s).uq i = s.uq i := by
  by_cases hp : p = UniquePtr.Get u s
  · rw [Reset_eq s u p hp]
  · rw [Reset_ne s u p hp, invoke_uq, setU_uq, Function.update_noteq h]

theorem Reset_liveU {fd : Bool} (s : UState fd) (u i : Nat) (p : Ptr) (h : s.liveU i = true) :
    (UniquePtr.Reset u p s).liveU i = true := by
  by_cases hp : p = UniquePtr.Get u s
  · rw [Reset_eq s u p hp]; exact h
  · obtain ⟨h1, v, hv⟩ := (liveU_iff s i).1 h
    rw [liveU_iff, Reset_nU]
    refine ⟨h1, ?_⟩
    by_cases e : i = u
    · subst e
      exact ⟨_, by rw [Reset_ne s i p hp, invoke_uq, setU_uq, Function.update_same]⟩
    · exact ⟨v, by rw [Reset_uq s u i p e, hv]⟩

theorem Reset_uinv {fd : Bool} (s : UState fd) (u : Nat) (p : Ptr) (h : UInv s)
    (hu : s.liveU u = true)
    (hfresh : ∀ a, p = some a → s.owns (some a) = false ∧ some a ∉ s.passed) :
    UInv (UniquePtr.Reset u p s) := by
  by_cases hp : p = UniquePtr.Get u s
  · rw [Reset_eq s u p hp]; exact h
  · rw [Reset_ne s u p hp]
    have hP : PtrInv (Function.update (Function.update (fun k => UniquePtr.Get k s) u none) u p)
        (s.passed ++ [UniquePtr.Get u s]) := by
      refine (h.1.pass u).put u p ?_
      intro a ha
      obtain ⟨h1, h2⟩ := hfresh a ha
      refine ⟨fun i hi => ?_, fun hm => ?_⟩
      · rw [Function.update_noteq hi]
        exact not_owned s a h.2 h1 i
      · rcases List.mem_append.1 hm with hm | hm
        · exact h2 hm
        · rw [List.mem_singleton] at hm
          exact not_owned s a h.2 h1 u hm.symm
    rw [Function.update_idem] at hP
    refine UInv.build _ _ (fun i => ?_) (passed_invoke _ _ _) hP ?_
    · rw [Get_invoke, UniquePtr_Get_setU]
      rw [show (UniquePtr.mk ((s.U u).holder_.setFirst p)).holder_.GetFirst = p from
        GetFirst_setFirst _ _]
    · intro i hi
      have hlt := ((liveU_iff s u).1 hu).1
      rw [invoke_uq, setU_uq, Function.update_noteq (by
        simp only [invoke_nU, setU_nU] at hi; omega)]
      exact h.2 i (by simpa only [invoke_nU, setU_nU] using hi)

theorem Swap_uinv {fd : Bool} (s : UState fd) (a b : Nat) (h : UInv s)
    (ha : a < s.nU) (hb : b < s.nU) : UInv (UniquePtr.Swap a b s) := by
  unfold UniquePtr.Swap
  refine UInv.build _ _ (fun i => ?_) rfl (h.1.exchange a b) ?_
  · rw [UniquePtr_Get_setU, UniquePtr.Get]
    by_cases eb : i = b
    · subst eb; rw [Function.update_same, Function.update_same]; rfl
    · rw [Function.update_noteq eb, Function.update_noteq eb, UniquePtr_Get_setU]
  · intro i hi
    simp only [setU_nU] at hi
    rw [setU_uq, setU_uq, Function.update_noteq (by omega), Function.update_noteq (by omega)]
    exact h.2 i hi

theorem UniquePtr_dtor_uinv {fd : Bool} (s : UState fd) (u : Nat) (h : UInv s) :
    UInv (UniquePtr.dtor u s) := by
  unfold UniquePtr.dtor
  refine UInv.build _ _ (fun i => ?_) ?_ (h.1.pass u) ?_
  · rw [UniquePtr_Get_killU]; rfl
  · rw [passed_killU, passed_invoke]
  · intro i hi
    simp only [killU_nU, invoke_nU] at hi
    rw [killU_uq, invoke_uq]
    by_cases e : i = u
    · subst e; rw [Function.update_same]
    · rw [Function.update_noteq e]; exact h.2 i hi

theorem UniquePtr_moveCtor_uinv {fd : Bool} (s : UState fd) (n src : Nat) (h : UInv s)
    (hn : s.freeU n = true) (hs : s.liveU src = true) :
    UInv (UniquePtr.moveCtor n src s) := by
  have hns : n ≠ src := free_ne_live s n src hn hs
  obtain ⟨c1, c2, _, _, c5, c6, c7⟩ := UniquePtr_moveCtor_facts s n src hns
  have hGn : UniquePtr.Get n s = none := Get_dead s n ((freeU_iff s n).1 hn).2
  refine UInv.build _ _ (fun i => ?_) ?_ (h.1.exchange n src) ?_
  · by_cases es : i = src
    · subst es; rw [Function.update_same, c2, hGn]
    · rw [Function.update_noteq es]
      by_cases en : i = n
      · subst en; rw [Function.update_same, c1]
      · rw [Function.update_noteq en]
        unfold UniquePtr.Get UState.U
        rw [c7 i en es]
  · unfold UState.passed; rw [c5]
  · intro i hi
    rw [c6] at hi
    have h1 := ((freeU_iff s n).1 hn).1
    have h2 := ((liveU_iff s src).1 hs).1
    rw [c7 i (by omega) (by omega)]
    exact h.2 i hi

theorem UniquePtr_moveAssign_uinv {fd : Bool} (s : UState fd) (d src : Nat) (h : UInv s)
    (hd : s.liveU d = true) (hs : s.liveU src = true) :
    UInv (UniquePtr.moveAssign d src s) := by
  by_cases e : d = src
  · unfold UniquePtr.moveAssign
    rw [if_pos e]; exact h
  · rw [UniquePtr_moveAssign_ne s d src e]
    refine Swap_uinv _ d src (Reset_uinv s d none h hd (fun a ha => Option.noConfusion ha)) ?_ ?_
    · rw [Reset_nU]; exact ((liveU_iff s d).1 hd).1
    · rw [Reset_nU]; exact ((liveU_iff s src).1 hs).1

/-- Every statement that is given fresh pointers only keeps the invariant. -/
theorem ustep_uinv {fd : Bool} (op : UOp) (s t : UState fd) (h : UInv s)
    (hg : freshPtr s op = true) (hstep : ustep op s = some t) : UInv t := by
  cases op with
  | ctor d p deleter =>
    simp only [ustep] at hstep
    split at hstep
    · next hd => cases hstep; exact UniquePtr_ctor_uinv s d p deleter h hd hg
    · exact Option.noConfusion hstep
  | moveCtor d src =>
    simp only [ustep, Bool.and_eq_true] at hstep
    split at hstep
    · next hd => cases hstep; exact UniquePtr_moveCtor_uinv s d src h hd.1 hd.2
    · exact Option.noConfusion hstep
  | moveAssign d src =>
    simp only [ustep, Bool.and_eq_true] at hstep
    split at hstep
    · next hd => cases hstep; exact UniquePtr_moveAssign_uinv s d src h hd.1 hd.2
    · exact Option.noConfusion hstep
  | assignNull d =>
    simp only [ustep] at hstep
    split at hstep
    · next hd =>
      cases hstep
      exact Reset_uinv s d none h hd (fun a ha => Option.noConfusion ha)
    · exact Option.noConfusion hstep
  | release u =>
    simp only [ustep] at hstep
    split at hstep
    · next hd => cases hstep; exact Release_uinv s u h hd
    · exact Option.noConfusion hstep
  | reset u p =>
    simp only [ustep] at hstep
    split at hstep
    · next hd =>
      cases hstep
      refine Reset_uinv s u p h hd (fun a ha => ?_)
      subst ha
      exact freshPtr_facts s a hg
    · exact Option.noConfusion hstep
  | swap a b =>
    simp only [ustep, Bool.and_eq_true] at hstep
    split at hstep
    · next hd =>
      cases hstep
      exact Swap_uinv s a b h ((liveU_iff s a).1 hd.1).1 ((liveU_iff s b).1 hd.2).1
    · exact Option.noConfusion hstep
  | dtor u =>
    simp only [ustep] at hstep
    split at hstep
    · next hd => cases hstep; exact UniquePtr_dtor_uinv s u h
    · exact Option.noConfusion hstep

theorem urunIf_uinv {fd : Bool} (ops : List UOp) (s t : UState fd) (h : UInv s)
    (hrun : urunIf freshPtr ops s = some t) : UInv t := by
  induction ops generalizing s with
  | nil => simp only [urunIf, Option.some.injEq] at hrun; rw [← hrun]; exact h
  | cons op ops ih =>
    simp only [urunIf] at hrun
    split at hrun
    · next hg =>
      cases hs : ustep op s with
      | none => rw [hs] at hrun; exact Option.noConfusion hrun
      | some m =>
        rw [hs] at hrun
        exact ih m (ustep_uinv op s m h hg hs) hrun
    · exact Option.noConfusion hrun

/-- C14, counterexample: a handle holds pointer 1; `Reset(2)` passes 1 to the
policy, `Reset(1)` then adopts 1 again (no handle holds it at that moment) and
the destructor passes 1 to the policy a second time.  And after a move
construction the destructors of two null handles both pass `nullptr`. -/
theorem readopted_pointer_passed_twice :
    (urunIf unowned [.reset 0 (some 2), .reset 0 (some 1), .dtor 0]
        (UniquePtr.ctor 0 (some 1) 7 (uinit false 1))).map (fun s => s.passed.count (some 1))
      = some 2
    ∧ (urunIf unowned [.moveCtor 1 0, .dtor 0, .moveCtor 0 1, .dtor 1]
        (UniquePtr.ctor 0 (some 1) 7 (uinit false 2))).map (fun s => s.passed.count none)
      = some 2 := by
  constructor <;> rfl

/-- C14, amended: start from exclusive handles that hold pairwise distinct
pointers (null ones apart) with no policy call made yet, and run any sequence
of constructions, move constructions, move assignments, `Release`, `Reset`,
`Swap` and destructor calls in which every pointer handed to a constructor or
to `Reset` is null, or held by no live handle and not yet passed to a policy.
Then after every prefix of the sequence no two live handles hold the same
non-null pointer and every non-null pointer has been passed to a policy at
most once. -/
theorem exclusive_ownership_invariant {fd : Bool} (s0 t : UState fd) (ops : List UOp) (k : Nat)
    (hlog : s0.log = [])
    (hdist : ∀ i j a, UniquePtr.Get i s0 = some a → UniquePtr.Get j s0 = some a → i = j)
    (hdead : ∀ i, s0.nU ≤ i → s0.uq i = none)
    (hrun : urunIf freshPtr (ops.take k) s0 = some t) :
    (∀ i j a, t.liveU i = true → t.liveU j = true →
        UniquePtr.Get i t = some a → UniquePtr.Get j t = some a → i = j)
    ∧ ∀ a, t.passed.count (some a) ≤ 1 := by
  have h0 : UInv s0 := by
    have hp : s0.passed = [] := by unfold UState.passed; rw [hlog]; rfl
    refine ⟨⟨hdist, fun a => ?_, fun i a _ => ?_⟩, hdead⟩
    · rw [hp]; exact Nat.zero_le _
    · rw [hp]; exact List.not_mem_nil _
  have ht := urunIf_uinv (ops.take k) s0 t h0 hrun
  exact ⟨fun i j a _ _ hi hj => ht.1.distinct i j a hi hj, ht.1.once⟩

theorem exclusive_ownership_invariant_witness :
    ∃ t, urunIf freshPtr ([UOp.ctor 0 (some 4) 7, .ctor 1 (some 5) 8, .moveAssign 0 1,
        .reset 1 (some 4), .dtor 0].take 3) (uinit false 2) = some t
      ∧ (∀ i j a, t.liveU i = true → t.liveU j = true →
          UniquePtr.Get i t = some a → UniquePtr.Get j t = some a → i = j)
      ∧ (∀ a, t.passed.count (some a) ≤ 1) ∧ t.passed = [some 4] :=
  ⟨_, rfl, (exclusive_ownership_invariant (uinit false 2) _ [UOp.ctor 0 (some 4) 7,
      .ctor 1 (some 5) 8, .moveAssign 0 1, .reset 1 (some 4), .dtor 0] 3 rfl
      (fun _ _ _ hi => Option.noConfusion hi) (fun _ _ => rfl) rfl).1,
    (exclusive_ownership_invariant (uinit false 2) _ [UOp.ctor 0 (some 4) 7,
      .ctor 1 (some 5) 8, .moveAssign 0 1, .reset 1 (some 4), .dtor 0] 3 rfl
      (fun _ _ _ hi => Option.noConfusion hi) (fun _ _ => rfl) rfl).2, rfl⟩

theorem Swap_heap (a b : Nat) (s : State) : (SharedPtr.Swap a b s).heap = s.heap := rfl

theorem copyAssign_some (d o b c : Nat) (p q : Ptr) (s : State)
    (hd : s.sh d = some ⟨p, some b⟩) (ho : s.sh o = some ⟨q, some c⟩) :
    SharedPtr.copyAssign d o s =
      (ControlBlockBase.Decrement Destroy b (ControlBlockBase.Increment c s)).setS d
        ⟨q, some c⟩ := by
  unfold SharedPtr.copyAssign
  simp only [S_of_sh s o _ ho, S_Increment, S_Decrement, S_of_sh s d _ hd]

/-- C20, counterexample: `s` comes from `MakeShared` (payload at 5) and `a` is an
aliasing handle on the same block with pointer 7; after `s = a` the handle `s`
is still on block 0 but `s.Get()` is 7. -/
theorem copy_assign_from_alias_changes_pointer :
    (run [.makeShared 0 5 false, .aliasCtor 1 0 (some 7)] (init 2 0)).map
        (fun s => (SharedPtr.Get 0 s, SharedPtr.GetBlock 0 s, SharedPtr.GetBlock 1 s))
      = some (some 5, some 0, some 0)
    ∧ (run [.makeShared 0 5 false, .aliasCtor 1 0 (some 7), .copyAssign 0 1] (init 2 0)).map
        (fun s => (SharedPtr.Get 0 s, SharedPtr.GetBlock 0 s, SharedPtr.GetBlock 1 s))
      = some (some 7, some 0, some 0) := by
  constructor <;> rfl

/-- C20, amended: for a live shared handle `d` on block `b` with strong count
`n >= 1`: `d = std::move(d)` leaves `d` null (`Get() == nullptr`,
`UseCount() == 0`, `operator bool` false) and the strong count of `b` at
`n - 1`, and runs `Destroy()` exactly when `n == 1`; copy-assigning to `d`
from a live handle `o` on the same block (`o = d` included) leaves `d` on
block `b` with `d.Get() == o.Get()`, every other handle, the strong count and
the number of `Destroy()` calls of every block as they were, so that `d`
itself is unchanged when `o` holds the same payload pointer. -/
theorem self_move_assign_releases (s : State) (d o b : Nat) (p q : Ptr)
    (hd : s.sh d = some ⟨p, some b⟩) (ho : s.sh o = some ⟨q, some b⟩)
    (hn : 1 ≤ (s.heap b).count_) (hlt : (s.heap b).count_ < SIZE) :
    (SharedPtr.Get d (SharedPtr.moveAssign d d s) = none
      ∧ SharedPtr.UseCount d (SharedPtr.moveAssign d d s) = 0
      ∧ SharedPtr.toBool d (SharedPtr.moveAssign d d s) = false
      ∧ ((SharedPtr.moveAssign d d s).heap b).count_ = (s.heap b).count_ - 1
      ∧ ((SharedPtr.moveAssign d d s).heap b).destroyed
          = (s.heap b).destroyed + (if (s.heap b).count_ = 1 then 1 else 0))
    ∧ ((SharedPtr.copyAssign d o s).sh = Function.update s.sh d (some ⟨q, some b⟩)
      ∧ SharedPtr.Get d (SharedPtr.copyAssign d o s) = SharedPtr.Get o s
      ∧ SharedPtr.UseCount d (SharedPtr.copyAssign d o s) = (s.heap b).count_
      ∧ (∀ c, ((SharedPtr.copyAssign d o s).heap c).count_ = (s.heap c).count_)
      ∧ (∀ c, ((SharedPtr.copyAssign d o s).heap c).destroyed = (s.heap c).destroyed)
      ∧ (q = p → (SharedPtr.copyAssign d o s).sh = s.sh))
    ∧ (SharedPtr.copyAssign d d s).sh = s.sh := by
  have hsd : (SharedPtr.moveAssign d d s).sh d = some ⟨none, none⟩ := by
    rw [moveAssign_sh, Function.update_same]
    unfold State.S
    rw [Reset_sh, Function.update_same]; rfl
  have hSd : (SharedPtr.moveAssign d d s).S d = ⟨none, none⟩ := S_of_sh _ _ _ hsd
  have hheap : (SharedPtr.moveAssign d d s).heap
      = (ControlBlockBase.Decrement Destroy b s).heap := by
    unfold SharedPtr.moveAssign
    rw [Swap_heap, Reset_some d b p s hd, setS_heap]
  have harith : ((s.heap b).count_ + SIZE - 1) % SIZE = (s.heap b).count_ - 1 := by
    rw [SIZE_eq] at *; omega
  have hcnt : ∀ c, ((ControlBlockBase.Decrement Destroy b (ControlBlockBase.Increment b s)).heap
      c).count_ = (s.heap c).count_ := by
    intro c
    rw [Decrement_count, Increment_count, Increment_count, if_pos rfl]
    by_cases e : c = b
    · rw [if_pos e, e, inc_dec_mod _ hlt]
    · rw [if_neg e, if_neg e]
  have hdes : ∀ c, ((ControlBlockBase.Decrement Destroy b (ControlBlockBase.Increment b s)).heap
      c).destroyed = (s.heap c).destroyed := by
    intro c
    rw [Decrement_destroyed, Increment_destroyed, Increment_count, if_pos rfl,
      inc_dec_mod _ hlt, if_neg (fun h => by omega)]
    rfl
  have hco : SharedPtr.copyAssign d o s =
      (ControlBlockBase.Decrement Destroy b (ControlBlockBase.Increment b s)).setS d
        ⟨q, some b⟩ := copyAssign_some d o b b p q s hd ho
  have hsh : (SharedPtr.copyAssign d o s).sh = Function.update s.sh d (some ⟨q, some b⟩) := by
    rw [copyAssign_sh, S_of_sh s o _ ho]
  have hshd : (SharedPtr.copyAssign d o s).sh d = some ⟨q, some b⟩ := by
    rw [hsh, Function.update_same]
  refine ⟨⟨?_, ?_, ?_, ?_, ?_⟩, ⟨hsh, ?_, ?_, ?_, ?_, ?_⟩, ?_⟩
  · unfold SharedPtr.Get; rw [hSd]
  · unfold SharedPtr.UseCount; rw [hSd]
  · unfold SharedPtr.toBool; rw [hSd]; rfl
  · rw [hheap, Decrement_count, if_pos rfl, harith]
  · rw [hheap, Decrement_destroyed, harith]
    by_cases h1 : (s.heap b).count_ = 1
    · rw [if_pos h1, if_pos ⟨rfl, by omega⟩]
    · rw [if_neg h1, if_neg (fun h => by omega)]
  · unfold SharedPtr.Get
    rw [S_of_sh _ d _ hshd, S_of_sh s o _ ho]
  · rw [UseCount_of_sh _ d b q hshd, hco, setS_heap, hcnt]
  · intro c; rw [hco, setS_heap, hcnt]
  · intro c; rw [hco, setS_heap, hdes]
  · intro e
    rw [hsh, e, ← hd, Function.update_eq_self]
  · rw [copyAssign_sh, S_of_sh s d _ hd, ← hd, Function.update_eq_self]

theorem self_move_assign_releases_witness :
    ((SharedPtr.moveAssign 0 0 (MakeShared 0 5 false (init 1 0))).heap 0).count_ = 0
    ∧ ((SharedPtr.moveAssign 0 0 (MakeShared 0 5 false (init 1 0))).heap 0).destroyed = 1
    ∧ SharedPtr.Get 0 (SharedPtr.moveAssign 0 0 (MakeShared 0 5 false (init 1 0))) = none
    ∧ (SharedPtr.copyAssign 0 0 (MakeShared 0 5 false (init 1 0))).sh
        = (MakeShared 0 5 false (init 1 0)).sh :=
  ⟨(self_move_assign_releases (MakeShared 0 5 false (init 1 0)) 0 0 0 (some 5) (some 5) rfl rfl
      (by decide) (by rw [SIZE_eq]; decide)).1.2.2.2.1,
   (self_move_assign_releases (MakeShared 0 5 false (init 1 0)) 0 0 0 (some 5) (some 5) rfl rfl
      (by decide) (by rw [SIZE_eq]; decide)).1.2.2.2.2,
   (self_move_assign_releases (MakeShared 0 5 false (init 1 0)) 0 0 0 (some 5) (some 5) rfl rfl
      (by decide) (by rw [SIZE_eq]; decide)).1.1,
   (self_move_assign_releases (MakeShared 0 5 false (init 1 0)) 0 0 0 (some 5) (some 5) rfl rfl
      (by decide) (by rw [SIZE_eq]; decide)).2.2⟩

theorem atDestroy_fields (b : Nat) (s : State) :
    ((ControlBlockBase.atDestroy b s).heap b).count_ = ((s.heap b).count_ + SIZE - 1) % SIZE
    ∧ ((ControlBlockBase.atDestroy b s).heap b).count_weak_ = ((s.heap b).count_weak_ + 1) % SIZE
    ∧ ((ControlBlockBase.atDestroy b s).heap b).deleted = (s.heap b).deleted
    ∧ ((ControlBlockBase.atDestroy b s).heap b).destroyed = (s.heap b).destroyed + 1 := by
  unfold ControlBlockBase.atDestroy
  simp only [modBlock_heap_same, and_self]

/-- `Decrement()` on a block whose strong count is 1. -/
theorem Decrement_last (D : Nat → State → State) (b : Nat) (s : State)
    (hc : ((s.heap b).count_ + SIZE - 1) % SIZE = 0) :
    ControlBlockBase.Decrement D b s =
      if ((((ControlBlockBase.unbump b (D b (ControlBlockBase.atDestroy b s))).heap b).count_
          + ((ControlBlockBase.unbump b (D b (ControlBlockBase.atDestroy b s))).heap b).count_weak_)
          % SIZE = 0)
      then ControlBlockBase.deleteThis b
        (ControlBlockBase.unbump b (D b (ControlBlockBase.atDestroy b s)))
      else ControlBlockBase.unbump b (D b (ControlBlockBase.atDestroy b s)) := by
  unfold ControlBlockBase.Decrement ControlBlockBase.atDestroy ControlBlockBase.unbump
  simp only [modBlock_heap_same, hc, if_true]

theorem bump_arith (k i : Nat) (hk : k < SIZE) (hi : i + 1 ≤ k) :
    (((k + 1 - i) % SIZE + SIZE - 1) % SIZE) = (k + 1 - (i + 1)) % SIZE
    ∧ (k + 1 - (i + 1)) % SIZE ≠ 0 := by
  rw [SIZE_eq] at *
  omega

theorem unbump_arith (k j : Nat) (hk : k < SIZE) (hj : j ≤ k) :
    ((k + 1 - j) % SIZE + SIZE - 1) % SIZE = k - j := by
  rw [SIZE_eq] at *
  omega

/-- While `Destroy()` releases its weak references one by one the block stays
allocated: the bump keeps `count_ + count_weak_` away from 0. -/
theorem releasing_keeps_block (b : Nat) (s : State) (k : Nat)
    (hc : (s.heap b).count_ = 0) (hw : (s.heap b).count_weak_ = (k + 1) % SIZE)
    (hk : k < SIZE) (i : Nat) (hi : i ≤ k) :
    ((destroyReleasing i b s).heap b).count_ = 0
    ∧ ((destroyReleasing i b s).heap b).count_weak_ = (k + 1 - i) % SIZE
    ∧ ((destroyReleasing i b s).heap b).deleted = (s.heap b).deleted
    ∧ ((destroyReleasing i b s).heap b).destroyed = (s.heap b).destroyed := by
  induction i with
  | zero => exact ⟨hc, hw, rfl, rfl⟩
  | succ i ih =>
    obtain ⟨h1, h2, h3, h4⟩ := ih (by omega)
    obtain ⟨a1, a2⟩ := bump_arith k i hk hi
    have e : destroyReleasing (i + 1) b s
        = ControlBlockBase.DecrementWeak b (destroyReleasing i b s) := by
      unfold destroyReleasing
      rw [Function.iterate_succ_apply']
    rw [e, DecrementWeak_count, DecrementWeak_count_weak, DecrementWeak_deleted,
      DecrementWeak_destroyed, if_pos rfl, h1, h2, h3, h4, a1, Nat.zero_add, Nat.mod_mod]
    refine ⟨rfl, rfl, ?_, rfl⟩
    rw [if_neg (fun h => a2 h.2)]
    rfl

/-- The `Destroy()` of the source, on a block whose payload derives from
`EnableSharedFromThis` and holds its self-reference, treats the counters of
the block as one `DecrementWeak()` call does: it is a `Destroy()` that
releases one weak reference. -/
theorem Destroy_releases_self (b : Nat) (t : State) (he : (t.heap b).esft = true)
    (hp : (t.heap b).storage.hasPayload = true) (hw : t.wk (.weakThis b) = some ⟨some b⟩) :
    ((Destroy b t).heap b).count_ = ((destroyReleasing 1 b t).heap b).count_
    ∧ ((Destroy b t).heap b).count_weak_ = ((destroyReleasing 1 b t).heap b).count_weak_
    ∧ ((Destroy b t).heap b).deleted = ((destroyReleasing 1 b t).heap b).deleted
    ∧ ((Destroy b t).heap b).destroyed = ((destroyReleasing 1 b t).heap b).destroyed := by
  have e1 : destroyReleasing 1 b t = ControlBlockBase.DecrementWeak b t := rfl
  have e2 : payloadDtor b t = (ControlBlockBase.DecrementWeak b t).killW (.weakThis b) := by
    unfold payloadDtor
    rw [if_pos he, WeakPtr_dtor_some _ b t hw]
  rw [e1]
  unfold Destroy
  cases hst : (t.heap b).storage with
  | element buf =>
    dsimp only
    rw [e2]
    exact ⟨rfl, rfl, rfl, rfl⟩
  | pointer p =>
    dsimp only
    rw [hst] at hp
    have hp2 : p.isSome = true := hp
    rw [if_pos hp2, e2]
    simp only [modBlock_heap_same, killW_heap, and_self]

/-- C18: a control block has strong count 1 and weak count `k`, and its
`Destroy()` releases `j <= k` weak references by calling `DecrementWeak()`
(on the counters of the block it acts as `j` such calls do; the `Destroy()` of
the source does so with `j = 1` for a payload that holds its self-reference).
Then during the final `Decrement()` the block is not freed while `Destroy()`
runs (after each of the `DecrementWeak()` calls, and when `Destroy()` returns,
the number of `delete this` executions is what it was), it is freed once,
after `Destroy()` has returned, exactly when `j == k`, and the weak count ends
at `k - j`; the strong count ends at 0 and `Destroy()` has been called once. -/
theorem bump_protects_block_during_destroy (D : Nat → State → State) (s : State) (b j k : Nat)
    (hc : (s.heap b).count_ = 1) (hw : (s.heap b).count_weak_ = k) (hk : k < SIZE)
    (hj : j ≤ k)
    (hD : ((D b (ControlBlockBase.atDestroy b s)).heap b).count_
          = ((destroyReleasing j b (ControlBlockBase.atDestroy b s)).heap b).count_
      ∧ ((D b (ControlBlockBase.atDestroy b s)).heap b).count_weak_
          = ((destroyReleasing j b (ControlBlockBase.atDestroy b s)).heap b).count_weak_
      ∧ ((D b (ControlBlockBase.atDestroy b s)).heap b).deleted
          = ((destroyReleasing j b (ControlBlockBase.atDestroy b s)).heap b).deleted
      ∧ ((D b (ControlBlockBase.atDestroy b s)).heap b).destroyed
          = ((destroyReleasing j b (ControlBlockBase.atDestroy b s)).heap b).destroyed) :
    (∀ i, i ≤ j →
        ((destroyReleasing i b (ControlBlockBase.atDestroy b s)).heap b).deleted
          = (s.heap b).deleted)
    ∧ ((D b (ControlBlockBase.atDestroy b s)).heap b).deleted = (s.heap b).deleted
    ∧ ((ControlBlockBase.Decrement D b s).heap b).deleted
        = (s.heap b).deleted + (if j = k then 1 else 0)
    ∧ ((ControlBlockBase.Decrement D b s).heap b).count_weak_ = k - j
    ∧ ((ControlBlockBase.Decrement D b s).heap b).count_ = 0
    ∧ ((ControlBlockBase.Decrement D b s).heap b).destroyed = (s.heap b).destroyed + 1 := by
  have hc0 : ((s.heap b).count_ + SIZE - 1) % SIZE = 0 := by rw [hc, SIZE_eq]
  obtain ⟨f1, f2, f3, f4⟩ := atDestroy_fields b s
  rw [hc0] at f1
  rw [hw] at f2
  have hrel := fun i hi => releasing_keeps_block b (ControlBlockBase.atDestroy b s) k f1 f2 hk i hi
  obtain ⟨r1, r2, r3, r4⟩ := hrel j hj
  obtain ⟨d1, d2, d3, d4⟩ := hD
  rw [r1] at d1
  rw [r2] at d2
  rw [r3, f3] at d3
  rw [r4, f4] at d4
  have hu := deleteIfZero_counters
    (ControlBlockBase.unbump b (D b (ControlBlockBase.atDestroy b s))) b
  rw [← Decrement_last D b s hc0] at hu
  obtain ⟨u1, u2, u3⟩ := hu
  simp only [ControlBlockBase.unbump, modBlock_heap_same] at u1 u2 u3
  rw [d2, unbump_arith k j hk hj] at u2
  rw [d1] at u1
  rw [d1, d2, d3, unbump_arith k j hk hj, Nat.zero_add] at u3
  refine ⟨fun i hi => ?_, d3, ?_, u2, u1, ?_⟩
  · rw [(hrel i (by omega)).2.2.1, f3]
  · rw [u3]
    have hlt : k - j < SIZE := by omega
    rw [Nat.mod_eq_of_lt hlt]
    by_cases e : j = k
    · rw [if_pos e, if_pos (by omega)]
    · rw [if_neg e, if_neg (by omega)]
  · rw [Decrement_last D b s hc0]
    split
    · unfold ControlBlockBase.deleteThis ControlBlockBase.unbump
      simp only [modBlock_heap_same, d4]
    · unfold ControlBlockBase.unbump
      simp only [modBlock_heap_same, d4]

theorem bump_protects_block_during_destroy_witness :
    ((ControlBlockBase.Decrement Destroy 0 (MakeShared 0 5 true (init 1 1))).heap 0).deleted = 1
    ∧ ((ControlBlockBase.Decrement Destroy 0 (MakeShared 0 5 true (init 1 1))).heap 0).count_weak_
      = 0
    ∧ ((Destroy 0 (ControlBlockBase.atDestroy 0 (MakeShared 0 5 true (init 1 1)))).heap 0).deleted
      = 0 :=
  ⟨(bump_protects_block_during_destroy Destroy (MakeShared 0 5 true (init 1 1)) 0 1 1 rfl rfl
      (by rw [SIZE_eq]; decide) (by decide)
      (Destroy_releases_self 0 _ rfl rfl rfl)).2.2.1,
   (bump_protects_block_during_destroy Destroy (MakeShared 0 5 true (init 1 1)) 0 1 1 rfl rfl
      (by rw [SIZE_eq]; decide) (by decide)
      (Destroy_releases_self 0 _ rfl rfl rfl)).2.2.2.1,
   (bump_protects_block_during_destroy Destroy (MakeShared 0 5 true (init 1 1)) 0 1 1 rfl rfl
      (by rw [SIZE_eq]; decide) (by decide)
      (Destroy_releases_self 0 _ rfl rfl rfl)).2.1⟩

/-- `InitWeakThis` on a payload whose `weak_this_` is still null: the
self-reference is set and the weak count of the block goes up by one. -/
theorem InitWeakThis_first (d b : Nat) (s : State)
    (hwt : s.wk (.weakThis b) = some ⟨none⟩) (hS : (s.S d).block_ = some b) :
    (SharedPtr.InitWeakThis d b s).wk (.weakThis b) = some ⟨some b⟩
    ∧ ((SharedPtr.InitWeakThis d b s).heap b).count_weak_ = ((s.heap b).count_weak_ + 1) % SIZE
    ∧ (SharedPtr.InitWeakThis d b s).sh = s.sh := by
  refine ⟨?_, ?_, ?_⟩
  · unfold SharedPtr.InitWeakThis
    rw [WeakPtr_assignShared_wk, Function.update_same, hS]
  · unfold SharedPtr.InitWeakThis WeakPtr.assignShared WeakPtr.Reset WeakPtr.MakeNull
    dsimp only
    rw [W_of_wk s _ _ hwt]
    dsimp only
    have e : ((s.setW (.weakThis b) ⟨none⟩).S d).block_ = some b := hS
    rw [e]
    dsimp only
    rw [IncrementWeak_count_weak, if_pos rfl]
    rfl
  · exact (InitWeakThis_same d b s).sh

theorem create_weakThis (st : Storage) (s : State) :
    (ControlBlockBase.create st true s).wk (.weakThis s.next) = some ⟨none⟩
    ∧ ((ControlBlockBase.create st true s).heap s.next).count_weak_ = 0
    ∧ ((ControlBlockBase.create st true s).heap s.next).count_ = 1
    ∧ ((ControlBlockBase.create st true s).heap s.next).storage = st := by
  unfold ControlBlockBase.create
  simp only [if_true, setW_wk, setW_heap, Function.update_same, ControlBlockBase.fresh, and_self]

/-- C19: the payload at `p` (adopted) or `buf` (in place) derives from
`EnableSharedFromThis`.  Once its control block exists and before a handle is
built, `WeakFromThis()` is null and `SharedFromThis()` returns a null handle.
`SharedPtr(U*)` and `MakeShared` set `weak_this_` to the new block and leave its
weak count at 1.  The one-argument `SharedPtr(ControlBlockBase*)` resolves the
payload through `Get()` but leaves `weak_this_` null and the weak count at 0, so
that `SharedFromThis()` still returns a null handle. -/
theorem block_ctor_skips_weak_this (s : State) (d e p buf : Nat) (res : WAddr) :
    (((EnableSharedFromThis.WeakFromThis s.next res
          (ControlBlockBase.create (.pointer (some p)) true s)).W res).block_ = none
      ∧ (EnableSharedFromThis.SharedFromThis s.next e
          (ControlBlockBase.create (.pointer (some p)) true s)).S e = ⟨none, none⟩)
    ∧ ((SharedPtr.ctorPtr d (some p) true s).wk (.weakThis s.next) = some ⟨some s.next⟩
      ∧ ((SharedPtr.ctorPtr d (some p) true s).heap s.next).count_weak_ = 1
      ∧ (SharedPtr.ctorPtr d (some p) true s).sh d = some ⟨some p, some s.next⟩)
    ∧ ((MakeShared d buf true s).wk (.weakThis s.next) = some ⟨some s.next⟩
      ∧ ((MakeShared d buf true s).heap s.next).count_weak_ = 1
      ∧ (MakeShared d buf true s).sh d = some ⟨some buf, some s.next⟩)
    ∧ ((SharedPtr.ctorBlock d s.next (ControlBlockBase.create (.pointer (some p)) true s)).sh d
          = some ⟨some p, some s.next⟩
      ∧ (SharedPtr.ctorBlock d s.next
          (ControlBlockBase.create (.pointer (some p)) true s)).wk (.weakThis s.next)
          = some ⟨none⟩
      ∧ ((SharedPtr.ctorBlock d s.next
          (ControlBlockBase.create (.pointer (some p)) true s)).heap s.next).count_weak_ = 0
      ∧ (EnableSharedFromThis.SharedFromThis s.next e (SharedPtr.ctorBlock d s.next
          (ControlBlockBase.create (.pointer (some p)) true s))).S e = ⟨none, none⟩) := by
  have one : (0 + 1) % SIZE = 1 := by rw [SIZE_eq]
  have init : ∀ (st : Storage) (q : Ptr),
      (SharedPtr.InitWeakThis d s.next
          ((ControlBlockBase.create st true s).setS d ⟨q, some s.next⟩)).wk (.weakThis s.next)
        = some ⟨some s.next⟩
      ∧ ((SharedPtr.InitWeakThis d s.next
          ((ControlBlockBase.create st true s).setS d ⟨q, some s.next⟩)).heap s.next).count_weak_
        = 1
      ∧ (SharedPtr.InitWeakThis d s.next
          ((ControlBlockBase.create st true s).setS d ⟨q, some s.next⟩)).sh d
        = some ⟨q, some s.next⟩ := by
    intro st q
    obtain ⟨c1, c2, _, _⟩ := create_weakThis st s
    obtain ⟨i1, i2, i3⟩ := InitWeakThis_first d s.next
      ((ControlBlockBase.create st true s).setS d ⟨q, some s.next⟩) c1 (by rw [S_setS_same])
    rw [setS_heap, c2, one] at i2
    exact ⟨i1, i2, by rw [i3, setS_sh, Function.update_same]⟩
  obtain ⟨c1, c2, _, c4⟩ := create_weakThis (.pointer (some p)) s
  have hW : ((ControlBlockBase.create (.pointer (some p)) true s).W (.weakThis s.next)).block_
      = none := by rw [W_of_wk _ _ _ c1]
  refine ⟨⟨?_, ?_⟩, ?_, ?_, ⟨?_, c1, c2, ?_⟩⟩
  · unfold EnableSharedFromThis.WeakFromThis
    rw [W_of_wk _ res ⟨none⟩ (by rw [WeakPtr_copyCtor_wk, Function.update_same, hW])]
  · unfold EnableSharedFromThis.SharedFromThis
    rw [Lock_none _ _ _ hW, S_setS_same]
  · rw [ctorPtr_eq, if_pos rfl]
    exact init _ _
  · rw [MakeShared_eq, if_pos rfl]
    exact init _ _
  · unfold SharedPtr.ctorBlock ControlBlockBase.Get
    rw [setS_sh, Function.update_same, c4]
    rfl
  · unfold EnableSharedFromThis.SharedFromThis
    rw [Lock_none _ _ _ (by exact hW), S_setS_same]

/-- C17: `w0` and `w1` are weak handles on the block of `s = MakeShared<T>()`
(weak count 2).  `w0 = std::move(w1)` leaves `w0` on the block and `w1` null, but
the weak count is still 2, with one live weak handle left: the test
`GetBlock() != other.GetBlock()` skips `DecrementWeak()`.  After `w0`, `w1` and
`s` are destroyed the weak count is 1, `Destroy()` has run and the block has not
been deleted.  When `w1` is on another block the same assignment takes the
weak count of the first block from 1 to 0, as `SharedPtr`'s move assignment
does with the strong count. -/
theorem weak_move_assign_same_block_leaks :
    (run [.makeShared 0 5 false, .wfromShared 0 0, .wcopyCtor 1 (.var 0)] (init 2 2)).map
        (fun s => ((s.W (.var 0)).block_, (s.W (.var 1)).block_, (s.heap 0).count_weak_))
      = some (some 0, some 0, 2)
    ∧ (run [.makeShared 0 5 false, .wfromShared 0 0, .wcopyCtor 1 (.var 0), .wmoveAssign 0 1]
          (init 2 2)).map
        (fun s => ((s.W (.var 0)).block_, (s.W (.var 1)).block_, (s.heap 0).count_weak_))
      = some (some 0, none, 2)
    ∧ (run [.makeShared 0 5 false, .wfromShared 0 0, .wcopyCtor 1 (.var 0), .wmoveAssign 0 1,
          .wdtor 0, .wdtor 1, .dtor 0] (init 2 2)).map
        (fun s => ((s.heap 0).count_, (s.heap 0).count_weak_, (s.heap 0).destroyed,
          (s.heap 0).deleted))
      = some (0, 1, 1, 0)
    ∧ (run [.makeShared 0 5 false, .makeShared 1 6 false, .wfromShared 0 0, .wfromShared 1 1]
          (init 2 2)).map
        (fun s => ((s.W (.var 0)).block_, (s.W (.var 1)).block_, (s.heap 0).count_weak_,
          (s.heap 1).count_weak_))
      = some (some 0, some 1, 1, 1)
    ∧ (run [.makeShared 0 5 false, .makeShared 1 6 false, .wfromShared 0 0, .wfromShared 1 1,
          .wmoveAssign 0 1] (init 2 2)).map
        (fun s => ((s.W (.var 0)).block_, (s.W (.var 1)).block_, (s.heap 0).count_weak_,
          (s.heap 1).count_weak_))
      = some (some 1, none, 0, 1) := by
  refine ⟨?_, ?_, ?_, ?_, ?_⟩ <;> rfl

theorem countUpTo_set (p : Nat → Bool) (d : Nat) (v : Bool) (n : Nat) :
    countUpTo (Function.update p d v) n + (if d < n ∧ p d = true then 1 else 0)
      = countUpTo p n + (if d < n ∧ v = true then 1 else 0) := by
  induction n with
  | zero => simp [countUpTo]
  | succ k ih =>
    simp only [countUpTo]
    by_cases hdk : d = k
    · subst hdk
      have h1 : ¬ (d < d) := by omega
      simp only [h1, false_and, if_false, Nat.add_zero] at ih
      simp only [Function.update_same, Nat.lt_succ_self, true_and]
      rw [ih]; omega
    · have hk : Function.update p d v k = p k := Function.update_noteq (Ne.symm hdk) _ _
      have e1 : d < k + 1 ↔ d < k := by omega
      simp only [hk, e1]
      omega

theorem onBlockW_mk (b : Nat) (blk : Option Nat) :
    onBlockW b (some ⟨blk⟩) = decide (blk = some b) := rfl

theorem onBlockW_true (b : Nat) (o : Option WeakPtr) :
    onBlockW b o = true ↔ ∃ w, o = some w ∧ w.block_ = some b := by
  cases o with
  | none => simp [onBlockW]
  | some w => simp [onBlockW]

theorem weakHandles_update_var (wk : WAddr → Option WeakPtr) (n i b : Nat)
    (o : Option WeakPtr) (hi : i < n) :
    weakHandles (Function.update wk (.var i) o) n b
        + (if onBlockW b (wk (.var i)) = true then 1 else 0)
      = weakHandles wk n b + (if onBlockW b o = true then 1 else 0) := by
  unfold weakHandles
  have e : (fun k => onBlockW b (Function.update wk (.var i) o (.var k)))
      = Function.update (fun k => onBlockW b (wk (.var k))) i (onBlockW b o) := by
    funext k
    by_cases hk : k = i
    · subst hk; simp
    · rw [Function.update_noteq hk, Function.update_noteq (by simpa using hk)]
  have h := countUpTo_set (fun k => onBlockW b (wk (.var k))) i (onBlockW b o) n
  simp only [hi, true_and] at h
  rw [e, Function.update_noteq (by simp)]
  omega

theorem weakHandles_update_this (wk : WAddr → Option WeakPtr) (n c b : Nat)
    (o : Option WeakPtr) :
    weakHandles (Function.update wk (.weakThis c) o) n b
        + (if b = c ∧ onBlockW b (wk (.weakThis c)) = true then 1 else 0)
      = weakHandles wk n b + (if b = c ∧ onBlockW b o = true then 1 else 0) := by
  unfold weakHandles
  have e : (fun k => onBlockW b (Function.update wk (.weakThis c) o (.var k)))
      = fun k => onBlockW b (wk (.var k)) := by
    funext k
    rw [Function.update_noteq (by simp)]
  rw [e]
  by_cases hbc : b = c
  · subst hbc
    simp only [Function.update_same, true_and]
    omega
  · have : (WAddr.weakThis b) ≠ .weakThis c := by simpa using hbc
    rw [Function.update_noteq this]
    simp only [hbc, false_and, if_false]

theorem WCnt.count_le {cw : Nat → Nat} {wk : WAddr → Option WeakPtr} {n : Nat} (h : WCnt cw wk n)
    (b : Nat) : cw b ≤ n + 1 := by
  rw [h.cnt b]
  unfold weakHandles
  have := countUpTo_le (fun i => onBlockW b (wk (.var i))) n
  split <;> omega

theorem WCnt.count_pos {cw : Nat → Nat} {wk : WAddr → Option WeakPtr} {n : Nat} (h : WCnt cw wk n)
    (a : WAddr) (hv : ∀ i, a = .var i → i < n) (b : Nat) (hon : onBlockW b (wk a) = true) :
    1 ≤ cw b := by
  rw [h.cnt b]
  unfold weakHandles
  cases a with
  | var i =>
    have := countUpTo_pos (fun k => onBlockW b (wk (.var k))) n i (hv i rfl) hon
    omega
  | weakThis c =>
    obtain ⟨w, hw, hb⟩ := (onBlockW_true b _).1 hon
    have e : b = c := h.own c w b hw hb
    subst e
    rw [if_pos hon]
    omega

theorem WCnt.write_one {cw : Nat → Nat} {wk : WAddr → Option WeakPtr} {n : Nat} (h : WCnt cw wk n)
    (a : WAddr) (o : Option WeakPtr) (cw2 : Nat → Nat) (hnew : a.okFor n o)
    (hbal : ∀ b, cw2 b + (if onBlockW b (wk a) = true then 1 else 0)
      = cw b + (if onBlockW b o = true then 1 else 0)) :
    WCnt cw2 (Function.update wk a o) n := by
  cases a with
  | var i =>
    refine ⟨fun b => ?_, fun c w b hw hb => ?_⟩
    · have h1 := weakHandles_update_var wk n i b o hnew
      have h2 := hbal b
      have h3 := h.cnt b
      omega
    · rw [Function.update_noteq (by simp)] at hw
      exact h.own c w b hw hb
  | weakThis c =>
    refine ⟨fun b => ?_, fun c2 w b hw hb => ?_⟩
    · have h1 := weakHandles_update_this wk n c b o
      have h2 := hbal b
      have h3 := h.cnt b
      have e1 : (b = c ∧ onBlockW b (wk (.weakThis c)) = true)
          ↔ onBlockW b (wk (.weakThis c)) = true := by
        refine ⟨fun x => x.2, fun x => ⟨?_, x⟩⟩
        obtain ⟨w, hw, hb⟩ := (onBlockW_true b _).1 x
        exact h.own c w b hw hb
      have e2 : (b = c ∧ onBlockW b o = true) ↔ onBlockW b o = true := by
        refine ⟨fun x => x.2, fun x => ⟨?_, x⟩⟩
        obtain ⟨w, hw, hb⟩ := (onBlockW_true b _).1 x
        exact hnew w b hw hb
      simp only [e1, e2] at h1
      omega
    · by_cases e : c2 = c
      · subst e
        rw [Function.update_same] at hw
        exact hnew w b hw hb
      · rw [Function.update_noteq (by simpa using e)] at hw
        exact h.own c2 w b hw hb

/-- Two writes in a row. -/
theorem WCnt.write_two {cw : Nat → Nat} {wk : WAddr → Option WeakPtr} {n : Nat} (h : WCnt cw wk n)
    (a1 a2 : WAddr) (o1 o2 : Option WeakPtr) (cw2 : Nat → Nat)
    (hv1 : ∀ i, a1 = .var i → i < n)
    (h1 : a1.okFor n o1) (h2 : a2.okFor n o2)
    (hbal : ∀ b, cw2 b + (if onBlockW b (wk a1) = true then 1 else 0)
        + (if onBlockW b (Function.update wk a1 o1 a2) = true then 1 else 0)
      = cw b + (if onBlockW b o1 = true then 1 else 0)
        + (if onBlockW b o2 = true then 1 else 0)) :
    WCnt cw2 (Function.update (Function.update wk a1 o1) a2 o2) n := by
  have hmid : WCnt (fun b => cw b + (if onBlockW b o1 = true then 1 else 0)
      - (if onBlockW b (wk a1) = true then 1 else 0)) (Function.update wk a1 o1) n := by
    refine h.write_one a1 o1 _ h1 (fun b => ?_)
    by_cases hon : onBlockW b (wk a1) = true
    · have := h.count_pos a1 hv1 b hon
      rw [if_pos hon]
      omega
    · rw [if_neg hon]
      omega
  refine hmid.write_one a2 o2 cw2 h2 (fun b => ?_)
  have hb := hbal b
  by_cases hon : onBlockW b (wk a1) = true
  · have := h.count_pos a1 hv1 b hon
    rw [if_pos hon] at hb
    show cw2 b + _ = cw b + _ - (if onBlockW b (wk a1) = true then 1 else 0) + _
    rw [if_pos hon]
    omega
  · rw [if_neg hon] at hb
    show cw2 b + _ = cw b + _ - (if onBlockW b (wk a1) = true then 1 else 0) + _
    rw [if_neg hon]
    omega

theorem WInv.frame {s t : State} (h : WInv s) (hwk : t.wk = s.wk) (hnW : t.nW = s.nW)
    (hcw : ∀ b, (t.heap b).count_weak_ = (s.heap b).count_weak_) : WInv t := by
  refine ⟨?_, by rw [hnW]; exact h.bound⟩
  rw [hwk, hnW]
  have : (fun b => (t.heap b).count_weak_) = fun b => (s.heap b).count_weak_ := funext hcw
  rw [this]
  exact h.cnt

theorem WInv.write {s t : State} (h : WInv s) (a : WAddr) (o : Option WeakPtr)
    (hnew : a.okFor s.nW o) (hwk : t.wk = Function.update s.wk a o) (hnW : t.nW = s.nW)
    (hbal : ∀ b, (t.heap b).count_weak_ + (if onBlockW b (s.wk a) = true then 1 else 0)
      = (s.heap b).count_weak_ + (if onBlockW b o = true then 1 else 0)) : WInv t := by
  refine ⟨?_, by rw [hnW]; exact h.bound⟩
  rw [hwk, hnW]
  exact h.cnt.write_one a o _ hnew hbal

theorem WInv.write2 {s t : State} (h : WInv s) (a1 a2 : WAddr) (o1 o2 : Option WeakPtr)
    (hv1 : ∀ i, a1 = .var i → i < s.nW)
    (h1 : a1.okFor s.nW o1) (h2 : a2.okFor s.nW o2)
    (hwk : t.wk = Function.update (Function.update s.wk a1 o1) a2 o2) (hnW : t.nW = s.nW)
    (hbal : ∀ b, (t.heap b).count_weak_ + (if onBlockW b (s.wk a1) = true then 1 else 0)
        + (if onBlockW b (Function.update s.wk a1 o1 a2) = true then 1 else 0)
      = (s.heap b).count_weak_ + (if onBlockW b o1 = true then 1 else 0)
        + (if onBlockW b o2 = true then 1 else 0)) : WInv t := by
  refine ⟨?_, by rw [hnW]; exact h.bound⟩
  rw [hwk, hnW]
  exact h.cnt.write_two a1 a2 o1 o2 _ hv1 h1 h2 hbal

theorem WInv.weak_lt {s : State} (h : WInv s) (b : Nat) : (s.heap b).count_weak_ + 1 < SIZE := by
  have := h.cnt.count_le b
  have := h.bound
  simp only at *
  omega

theorem WInv.weak_pos {s : State} (h : WInv s) (a : WAddr) (hv : ∀ i, a = .var i → i < s.nW)
    (b : Nat) (hon : onBlockW b (s.wk a) = true) : 1 ≤ (s.heap b).count_weak_ :=
  h.cnt.count_pos a hv b hon

theorem onBlockW_wk (s : State) (a : WAddr) (b : Nat) :
    onBlockW b (s.wk a) = true ↔ (s.W a).block_ = some b := by
  unfold State.W
  cases s.wk a with
  | none => simp [onBlockW]
  | some w => simp [onBlockW]

theorem onBlockW_some (b : Nat) (blk : Option Nat) :
    onBlockW b (some ⟨blk⟩) = true ↔ blk = some b := by
  simp [onBlockW]

theorem incWeakOpt_cw (s : State) (blk : Option Nat) (c : Nat) :
    ((match blk with
      | some b => ControlBlockBase.IncrementWeak b s
      | none => s).heap c).count_weak_
      = if blk = some c then ((s.heap c).count_weak_ + 1) % SIZE else (s.heap c).count_weak_ := by
  cases blk with
  | none => simp
  | some b =>
    simp only [IncrementWeak_count_weak, Option.some.injEq]
    by_cases h : c = b
    · subst h; simp
    · rw [if_neg h, if_neg (fun e => h e.symm)]

theorem decWeakOpt_cw (s : State) (blk : Option Nat) (c : Nat) :
    ((match blk with
      | some b => ControlBlockBase.DecrementWeak b s
      | none => s).heap c).count_weak_
      = if blk = some c then ((s.heap c).count_weak_ + SIZE - 1) % SIZE
        else (s.heap c).count_weak_ := by
  cases blk with
  | none => simp
  | some b =>
    simp only [DecrementWeak_count_weak, Option.some.injEq]
    by_cases h : c = b
    · subst h; simp
    · rw [if_neg h, if_neg (fun e => h e.symm)]

theorem incWeakOpt_nW (s : State) (blk : Option Nat) :
    (match blk with
      | some b => ControlBlockBase.IncrementWeak b s
      | none => s).nW = s.nW := by
  cases blk <;> rfl

theorem decWeakOpt_nW (s : State) (blk : Option Nat) :
    (match blk with
      | some b => ControlBlockBase.DecrementWeak b s
      | none => s).nW = s.nW := by
  cases blk <;> simp

/-- A weak handle that references no block starts to reference `blk`, whose
weak count is incremented. -/
theorem WInv.attach {s t : State} (h : WInv s) (a : WAddr) (blk : Option Nat)
    (hfree : ∀ b, (s.W a).block_ ≠ some b) (hnew : a.okFor s.nW (some ⟨blk⟩))
    (hwk : t.wk = Function.update s.wk a (some ⟨blk⟩)) (hnW : t.nW = s.nW)
    (hcw : ∀ c, (t.heap c).count_weak_
      = if blk = some c then ((s.heap c).count_weak_ + 1) % SIZE else (s.heap c).count_weak_) :
    WInv t := by
  refine h.write a _ hnew hwk hnW (fun c => ?_)
  have h1 : ¬ (onBlockW c (s.wk a) = true) := fun e => hfree c ((onBlockW_wk s a c).1 e)
  rw [if_neg h1, hcw c]
  by_cases e : blk = some c
  · rw [if_pos e, if_pos ((onBlockW_some c blk).2 e), Nat.mod_eq_of_lt (h.weak_lt c)]
  · rw [if_neg e, if_neg (fun x => e ((onBlockW_some c blk).1 x))]

/-- A weak handle stops referencing its block, whose weak count is
decremented; `o` is what is left of the handle. -/
theorem WInv.detach {s t : State} (h : WInv s) (a : WAddr) (o : Option WeakPtr)
    (hv : ∀ i, a = .var i → i < s.nW) (ho : ∀ b, onBlockW b o = false)
    (hwk : t.wk = Function.update s.wk a o) (hnW : t.nW = s.nW)
    (hcw : ∀ c, (t.heap c).count_weak_
      = if (s.W a).block_ = some c then ((s.heap c).count_weak_ + SIZE - 1) % SIZE
        else (s.heap c).count_weak_) :
    WInv t := by
  have hnew : a.okFor s.nW o := by
    cases a with
    | var i => exact hv i rfl
    | weakThis c =>
      intro w b hw hb
      have := ho b
      rw [hw] at this
      simp [onBlockW, hb] at this
  refine h.write a o hnew hwk hnW (fun c => ?_)
  have hno : (if onBlockW c o = true then 1 else 0) = 0 := by
    rw [ho c]; rfl
  rw [hcw c, hno]
  by_cases e : (s.W a).block_ = some c
  · have hon := (onBlockW_wk s a c).2 e
    have hpos := h.weak_pos a hv c hon
    have hlt := h.weak_lt c
    rw [if_pos e, if_pos hon, dec_mod _ hpos (by omega)]
    omega
  · rw [if_neg e, if_neg (fun x => e ((onBlockW_wk s a c).1 x))]

theorem WeakPtr_ctorDefault_winv {s : State} (h : WInv s) (a : WAddr)
    (hv : ∀ i, a = .var i → i < s.nW) (hfree : s.wk a = none) :
    WInv (WeakPtr.ctorDefault a s) := by
  refine h.attach a none (fun b e => ?_) ?_ rfl rfl (fun c => ?_)
  · unfold State.W at e; rw [hfree] at e; exact Option.noConfusion e
  · cases a with
    | var i => exact hv i rfl
    | weakThis c => intro w b hw hb; cases hw; exact Option.noConfusion hb
  · rw [if_neg (fun e => Option.noConfusion e)]; rfl

theorem WeakPtr_copyCtor_winv {s : State} (h : WInv s) (a other : WAddr)
    (hv : a.okFor s.nW (some ⟨(s.W other).block_⟩)) (hfree : s.wk a = none) :
    WInv (WeakPtr.copyCtor a other s) := by
  refine h.attach a (s.W other).block_ (fun b e => ?_) hv (WeakPtr_copyCtor_wk a other s)
    ?_ (fun c => ?_)
  · unfold State.W at e; rw [hfree] at e; exact Option.noConfusion e
  · unfold WeakPtr.copyCtor; exact incWeakOpt_nW _ _
  · unfold WeakPtr.copyCtor; exact incWeakOpt_cw _ _ _

theorem WeakPtr_fromShared_winv {s : State} (h : WInv s) (a : WAddr) (other : Nat)
    (hv : a.okFor s.nW (some ⟨(s.S other).block_⟩)) (hfree : s.wk a = none) :
    WInv (WeakPtr.fromShared a other s) := by
  refine h.attach a (s.S other).block_ (fun b e => ?_) hv (WeakPtr_fromShared_wk a other s)
    ?_ (fun c => ?_)
  · unfold State.W at e; rw [hfree] at e; exact Option.noConfusion e
  · unfold WeakPtr.fromShared; exact incWeakOpt_nW _ _
  · unfold WeakPtr.fromShared; exact incWeakOpt_cw _ _ _

theorem WeakPtr_Reset_winv {s : State} (h : WInv s) (a : WAddr)
    (hv : ∀ i, a = .var i → i < s.nW) : WInv (WeakPtr.Reset a s) := by
  refine h.detach a (some ⟨none⟩) hv (fun b => rfl) (WeakPtr_Reset_wk a s) ?_ (fun c => ?_)
  · unfold WeakPtr.Reset WeakPtr.MakeNull; exact decWeakOpt_nW _ _
  · unfold WeakPtr.Reset WeakPtr.MakeNull; exact decWeakOpt_cw _ _ _

theorem WeakPtr_dtor_winv {s : State} (h : WInv s) (a : WAddr)
    (hv : ∀ i, a = .var i → i < s.nW) : WInv (WeakPtr.dtor a s) := by
  refine h.detach a none hv (fun b => rfl) (WeakPtr_dtor_wk s a) (WeakPtr_dtor_nW s a)
    (fun c => ?_)
  unfold WeakPtr.dtor
  cases hb : (s.W a).block_ with
  | none => simp
  | some b =>
    simp only [killW_heap, DecrementWeak_count_weak, Option.some.injEq]
    by_cases e : c = b
    · subst e; simp
    · rw [if_neg e, if_neg (fun x => e x.symm)]

theorem okFor_nW (a : WAddr) (n m : Nat) (o : Option WeakPtr) (h : a.okFor n o) (e : m = n) :
    a.okFor m o := by
  rw [e]; exact h

theorem okFor_var (a : WAddr) (n : Nat) (o : Option WeakPtr) (h : a.okFor n o) :
    ∀ i, a = .var i → i < n := by
  intro i e
  subst e
  exact h

theorem okFor_null (a : WAddr) (n : Nat) (hv : ∀ i, a = .var i → i < n) :
    a.okFor n (some ⟨none⟩) := by
  cases a with
  | var i => exact hv i rfl
  | weakThis c => intro w b hw hb; cases hw; exact Option.noConfusion hb

theorem WeakPtr_Reset_nW (a : WAddr) (s : State) : (WeakPtr.Reset a s).nW = s.nW := by
  unfold WeakPtr.Reset WeakPtr.MakeNull; exact decWeakOpt_nW _ _

theorem WeakPtr_assignShared_winv {s : State} (h : WInv s) (a : WAddr) (other : Nat)
    (hv : a.okFor s.nW (some ⟨(s.S other).block_⟩)) :
    WInv (WeakPtr.assignShared a other s) := by
  have h1 : WInv (WeakPtr.Reset a s) := WeakPtr_Reset_winv h a (okFor_var a _ _ hv)
  have hS : (WeakPtr.Reset a s).S other = s.S other :=
    S_congr s _ other (WeakPtr_Reset_same a s).sh
  have hW : (WeakPtr.Reset a s).wk a = some ⟨none⟩ := by
    rw [WeakPtr_Reset_wk, Function.update_same]
  refine h1.attach a (s.S other).block_ (fun b e => ?_)
    (okFor_nW a _ _ _ hv (WeakPtr_Reset_nW a s)) ?_ ?_ (fun c => ?_)
  · rw [W_of_wk _ _ _ hW] at e; exact Option.noConfusion e
  · unfold WeakPtr.assignShared
    dsimp only
    rw [hS]
    exact incWeakOpt_wk ((WeakPtr.Reset a s).setW a _) _
  · unfold WeakPtr.assignShared
    dsimp only
    exact incWeakOpt_nW ((WeakPtr.Reset a s).setW a _) _
  · unfold WeakPtr.assignShared
    dsimp only
    rw [hS]
    exact incWeakOpt_cw ((WeakPtr.Reset a s).setW a _) _ c

theorem WeakPtr_copyAssign_cw (a other : WAddr) (s : State) (c : Nat) :
    ((WeakPtr.copyAssign a other s).heap c).count_weak_
      = if (s.W a).block_ = some c
        then ((if (s.W other).block_ = some c then ((s.heap c).count_weak_ + 1) % SIZE
          else (s.heap c).count_weak_) + SIZE - 1) % SIZE
        else (if (s.W other).block_ = some c then ((s.heap c).count_weak_ + 1) % SIZE
          else (s.heap c).count_weak_) := by
  unfold WeakPtr.copyAssign
  dsimp only
  rw [setW_heap, W_congr s _ a (incWeakOpt_wk s (s.W other).block_)]
  refine (decWeakOpt_cw _ (s.W a).block_ c).trans ?_
  have e := incWeakOpt_cw s (s.W other).block_ c
  split
  · exact congrArg (fun x => (x + SIZE - 1) % SIZE) e
  · exact e

theorem WeakPtr_copyAssign_winv {s : State} (h : WInv s) (a other : WAddr)
    (hv : a.okFor s.nW (some ⟨(s.W other).block_⟩)) :
    WInv (WeakPtr.copyAssign a other s) := by
  refine h.write a _ hv (WeakPtr_copyAssign_wk a other s) ?_ (fun c => ?_)
  · unfold WeakPtr.copyAssign
    dsimp only
    rw [setW_nW]
    exact (decWeakOpt_nW _ _).trans (incWeakOpt_nW s _)
  · rw [WeakPtr_copyAssign_cw]
    have hlt := h.weak_lt c
    by_cases ea : (s.W a).block_ = some c
    · have hon := (onBlockW_wk s a c).2 ea
      have hpos := h.weak_pos a (okFor_var a _ _ hv) c hon
      rw [if_pos ea, if_pos hon]
      by_cases eo : (s.W other).block_ = some c
      · rw [if_pos eo, if_pos ((onBlockW_some c _).2 eo), inc_dec_mod _ (by omega)]
      · rw [if_neg eo, if_neg (fun x => eo ((onBlockW_some c _).1 x)),
          dec_mod _ hpos (by omega)]
        omega
    · rw [if_neg ea, if_neg (fun x => ea ((onBlockW_wk s a c).1 x))]
      by_cases eo : (s.W other).block_ = some c
      · rw [if_pos eo, if_pos ((onBlockW_some c _).2 eo), Nat.mod_eq_of_lt hlt]
      · rw [if_neg eo, if_neg (fun x => eo ((onBlockW_some c _).1 x))]

theorem WeakPtr_moveCtor_winv {s : State} (h : WInv s) (i j : Nat) (hi : i < s.nW)
    (hj : j < s.nW) (hfree : s.wk (.var i) = none) (hne : i ≠ j) :
    WInv (WeakPtr.moveCtor (.var i) (.var j) s) := by
  refine h.write2 (.var i) (.var j) _ _ (fun k e => by cases e; exact hi) hi hj
    (WeakPtr_moveCtor_wk _ _ s) rfl (fun c => ?_)
  have e1 : ¬ (onBlockW c (s.wk (.var i)) = true) := by rw [hfree]; exact Bool.false_ne_true
  have e2 : Function.update s.wk (.var i) (some ⟨(s.W (.var j)).block_⟩) (.var j)
      = s.wk (.var j) := Function.update_noteq (by simpa using hne.symm) _ _
  have e3 : ¬ (onBlockW c (some (⟨none⟩ : WeakPtr)) = true) := Bool.false_ne_true
  rw [if_neg e1, e2, if_neg e3]
  have : (WeakPtr.moveCtor (.var i) (.var j) s).heap = s.heap := rfl
  rw [this]
  by_cases eo : (s.W (.var j)).block_ = some c
  · rw [if_pos ((onBlockW_wk s _ c).2 eo), if_pos ((onBlockW_some c _).2 eo)]
  · rw [if_neg (fun x => eo ((onBlockW_wk s _ c).1 x)),
      if_neg (fun x => eo ((onBlockW_some c _).1 x))]

theorem WeakPtr_moveAssign_cw (a other : WAddr) (s : State) (c : Nat) :
    ((WeakPtr.moveAssign a other s).heap c).count_weak_
      = if (s.W a).block_ = some c ∧ (s.W a).block_ ≠ (s.W other).block_
        then ((s.heap c).count_weak_ + SIZE - 1) % SIZE else (s.heap c).count_weak_ := by
  unfold WeakPtr.moveAssign WeakPtr.MakeNull
  dsimp only
  rw [setW_heap, setW_heap]
  cases hb : (s.W a).block_ with
  | none => simp
  | some b =>
    dsimp only
    by_cases hne : some b = (s.W other).block_
    · rw [if_neg (by simpa using hne), if_neg (by simp [hne])]
    · rw [if_pos (by simpa using hne), DecrementWeak_count_weak]
      by_cases e : c = b
      · subst e; simp [hne]
      · rw [if_neg e, if_neg (by simp; intro x; exact absurd x.symm e)]

theorem WeakPtr_moveAssign_nW (a other : WAddr) (s : State) :
    (WeakPtr.moveAssign a other s).nW = s.nW := by
  unfold WeakPtr.moveAssign WeakPtr.MakeNull
  dsimp only
  rw [setW_nW, setW_nW]
  cases (s.W a).block_ with
  | none => rfl
  | some b => dsimp only; split <;> simp

theorem WeakPtr_moveAssign_winv {s : State} (h : WInv s) (i j : Nat) (hi : i < s.nW)
    (hj : j < s.nW)
    (hok : (s.W (.var i)).block_ = none ∨ (s.W (.var i)).block_ ≠ (s.W (.var j)).block_) :
    WInv (WeakPtr.moveAssign (.var i) (.var j) s) := by
  refine h.write2 (.var i) (.var j) _ _ (fun k e => by cases e; exact hi) hi hj
    (WeakPtr_moveAssign_wk _ _ s) (WeakPtr_moveAssign_nW _ _ s) (fun c => ?_)
  have e3 : ¬ (onBlockW c (some (⟨none⟩ : WeakPtr)) = true) := Bool.false_ne_true
  have e2 : onBlockW c (Function.update s.wk (.var i) (some ⟨(s.W (.var j)).block_⟩) (.var j))
      = true ↔ (s.W (.var j)).block_ = some c := by
    by_cases e : j = i
    · subst e; rw [Function.update_same]; exact onBlockW_some c _
    · rw [Function.update_noteq (by simpa using e)]; exact onBlockW_wk s _ c
  rw [WeakPtr_moveAssign_cw, if_neg e3]
  have hlt := h.weak_lt c
  by_cases ea : (s.W (.var i)).block_ = some c
  · have hon := (onBlockW_wk s (.var i) c).2 ea
    have hpos := h.weak_pos (.var i) (fun k e => by cases e; exact hi) c hon
    have hne : (s.W (.var i)).block_ ≠ (s.W (.var j)).block_ := by
      rcases hok with x | x
      · rw [x] at ea; exact Option.noConfusion ea
      · exact x
    have eo : ¬ ((s.W (.var j)).block_ = some c) := fun x => hne (ea.trans x.symm)
    rw [if_pos ⟨ea, hne⟩, if_pos hon, if_neg (fun x => eo (e2.1 x)),
      if_neg (fun x => eo ((onBlockW_some c _).1 x)), dec_mod _ hpos (by omega)]
    omega
  · rw [if_neg (fun x => ea x.1), if_neg (fun x => ea ((onBlockW_wk s _ c).1 x))]
    by_cases eo : (s.W (.var j)).block_ = some c
    · rw [if_pos (e2.2 eo), if_pos ((onBlockW_some c _).2 eo)]
    · rw [if_neg (fun x => eo (e2.1 x)), if_neg (fun x => eo ((onBlockW_some c _).1 x))]

theorem WeakPtr_Swap_winv {s : State} (h : WInv s) (i j : Nat) (hi : i < s.nW)
    (hj : j < s.nW) (hli : s.wk (.var i) ≠ none) (hlj : s.wk (.var j) ≠ none) :
    WInv (WeakPtr.Swap (.var i) (.var j) s) := by
  refine h.write2 (.var i) (.var j) _ _ (fun k e => by cases e; exact hi) hi hj
    (WeakPtr_Swap_wk _ _ s) rfl (fun c => ?_)
  obtain ⟨wi, hwi⟩ := Option.ne_none_iff_exists'.1 hli
  obtain ⟨wj, hwj⟩ := Option.ne_none_iff_exists'.1 hlj
  have e2 : Function.update s.wk (.var i) (some (s.W (.var j))) (.var j) = some wj := by
    by_cases e : j = i
    · subst e; rw [Function.update_same, W_of_wk s _ _ hwj]
    · rw [Function.update_noteq (by simpa using e)]; exact hwj
  have : (WeakPtr.Swap (.var i) (.var j) s).heap = s.heap := rfl
  rw [this, e2, W_of_wk s _ _ hwi, W_of_wk s _ _ hwj, hwi]
  omega

theorem WeakPtr_dtor_cw (a : WAddr) (s : State) (c : Nat) :
    ((WeakPtr.dtor a s).heap c).count_weak_
      = if (s.W a).block_ = some c then ((s.heap c).count_weak_ + SIZE - 1) % SIZE
        else (s.heap c).count_weak_ := by
  unfold WeakPtr.dtor
  cases hb : (s.W a).block_ with
  | none => simp
  | some b =>
    simp only [killW_heap, DecrementWeak_count_weak, Option.some.injEq]
    by_cases e : c = b
    · subst e; simp
    · rw [if_neg e, if_neg (fun x => e x.symm)]

theorem payloadDtor_cw (b : Nat) (s : State) (c : Nat) :
    ((payloadDtor b s).heap c).count_weak_
      = if (s.heap b).esft = true ∧ (s.W (.weakThis b)).block_ = some c
        then ((s.heap c).count_weak_ + SIZE - 1) % SIZE else (s.heap c).count_weak_ := by
  unfold payloadDtor
  by_cases he : (s.heap b).esft = true
  · rw [if_pos he, WeakPtr_dtor_cw]
    simp only [he, true_and]
  · rw [if_neg he, if_neg (fun x => he x.1)]

theorem Destroy_cw (b : Nat) (s : State) (c : Nat) :
    ((Destroy b s).heap c).count_weak_
      = if ((s.heap b).esft = true ∧ (s.heap b).storage.hasPayload = true)
            ∧ (s.W (.weakThis b)).block_ = some c
        then ((s.heap c).count_weak_ + SIZE - 1) % SIZE else (s.heap c).count_weak_ := by
  unfold Destroy
  cases hst : (s.heap b).storage with
  | element buf =>
    dsimp only
    rw [payloadDtor_cw]
    simp only [Storage.hasPayload, and_true]
  | pointer p =>
    dsimp only
    have e : ∀ u : State, ((u.modBlock b fun x => { x with storage := .pointer none }).heap
        c).count_weak_ = (u.heap c).count_weak_ := by
      intro u
      unfold State.modBlock
      by_cases h : c = b
      · subst h; simp
      · simp [h]
    rw [e]
    cases p with
    | none => simp [Storage.hasPayload]
    | some x =>
      simp only [Option.isSome_some, if_true, Storage.hasPayload, and_true]
      rw [payloadDtor_cw]

theorem atDestroy_cw (b : Nat) (s : State) (c : Nat) :
    ((ControlBlockBase.atDestroy b s).heap c).count_weak_
      = if c = b then ((s.heap b).count_weak_ + 1) % SIZE else (s.heap c).count_weak_ := by
  unfold ControlBlockBase.atDestroy State.modBlock
  by_cases h : c = b
  · subst h; simp
  · simp [h]

theorem atDestroy_frame (b : Nat) (s : State) :
    (ControlBlockBase.atDestroy b s).wk = s.wk
    ∧ ((ControlBlockBase.atDestroy b s).heap b).esft = (s.heap b).esft
    ∧ ((ControlBlockBase.atDestroy b s).heap b).storage = (s.heap b).storage := by
  unfold ControlBlockBase.atDestroy
  simp only [modBlock_heap_same, and_self, and_true]
  rfl

theorem unbump_cw (b : Nat) (t : State) (c : Nat) :
    ((ControlBlockBase.unbump b t).heap c).count_weak_
      = if c = b then ((t.heap b).count_weak_ + SIZE - 1) % SIZE else (t.heap c).count_weak_ := by
  unfold ControlBlockBase.unbump State.modBlock
  by_cases h : c = b
  · subst h; simp
  · simp [h]

theorem deleteIfZero_cw (u : State) (b c : Nat) :
    ((if ((u.heap b).count_ + (u.heap b).count_weak_) % SIZE = 0
        then ControlBlockBase.deleteThis b u else u).heap c).count_weak_
      = (u.heap c).count_weak_ := by
  split
  · unfold ControlBlockBase.deleteThis State.modBlock
    by_cases h : c = b
    · subst h; simp
    · simp [h]
  · rfl

/-- `Decrement()` on a block whose strong count stays above 0. -/
theorem Decrement_alive (D : Nat → State → State) (b : Nat) (s : State)
    (hc : ((s.heap b).count_ + SIZE - 1) % SIZE ≠ 0) :
    ControlBlockBase.Decrement D b s =
      if ((((s.modBlock b fun x => { x with count_ := (x.count_ + SIZE - 1) % SIZE }).heap
            b).count_
          + ((s.modBlock b fun x => { x with count_ := (x.count_ + SIZE - 1) % SIZE }).heap
            b).count_weak_) % SIZE = 0)
      then ControlBlockBase.deleteThis b
        (s.modBlock b fun x => { x with count_ := (x.count_ + SIZE - 1) % SIZE })
      else s.modBlock b fun x => { x with count_ := (x.count_ + SIZE - 1) % SIZE } := by
  unfold ControlBlockBase.Decrement
  simp only [modBlock_heap_same, hc, if_false]

theorem Decrement_cw (b : Nat) (s : State) (hk : (s.heap b).count_weak_ < SIZE) (c : Nat) :
    ((ControlBlockBase.Decrement Destroy b s).heap c).count_weak_
      = if (((s.heap b).count_ + SIZE - 1) % SIZE = 0
            ∧ (s.heap b).esft = true ∧ (s.heap b).storage.hasPayload = true)
            ∧ (s.W (.weakThis b)).block_ = some c
        then ((s.heap c).count_weak_ + SIZE - 1) % SIZE else (s.heap c).count_weak_ := by
  by_cases hc : ((s.heap b).count_ + SIZE - 1) % SIZE = 0
  · rw [Decrement_last Destroy b s hc, deleteIfZero_cw, unbump_cw, Destroy_cw, Destroy_cw]
    obtain ⟨f1, f2, f3⟩ := atDestroy_frame b s
    rw [f2, f3, W_congr s _ _ f1, atDestroy_cw, atDestroy_cw, if_pos rfl]
    simp only [hc, true_and]
    by_cases e : c = b
    · subst e
      rw [if_pos rfl]
      split
      · rw [inc_dec_mod _ hk]
      · rw [inc_dec_mod _ hk]
    · rw [if_neg e, if_neg e]
  · rw [Decrement_alive Destroy b s hc, deleteIfZero_cw, if_neg (fun x => hc x.1.1)]
    unfold State.modBlock
    by_cases h : c = b
    · subst h; simp
    · simp [h]

theorem Decrement_winv {s : State} (h : WInv s) (b : Nat) :
    WInv (ControlBlockBase.Decrement Destroy b s) := by
  have hk : (s.heap b).count_weak_ < SIZE := by have := h.weak_lt b; omega
  by_cases K : ((s.heap b).count_ + SIZE - 1) % SIZE = 0
      ∧ (s.heap b).esft = true ∧ (s.heap b).storage.hasPayload = true
  · refine h.detach (.weakThis b) none (fun i e => WAddr.noConfusion e) (fun _ => rfl) ?_
      (Decrement_nW b s) (fun c => ?_)
    · rw [Decrement_wk, if_pos K]
    · rw [Decrement_cw b s hk c]
      simp only [K, and_self, true_and]
  · refine h.frame ?_ (Decrement_nW b s) (fun c => ?_)
    · rw [Decrement_wk, if_neg K]
    · rw [Decrement_cw b s hk c, if_neg (fun x => K x.1)]

theorem WInv.frame_setS {s : State} (h : WInv s) (d : Nat) (v : SharedPtr) : WInv (s.setS d v) :=
  h.frame rfl rfl (fun _ => rfl)

theorem WInv.frame_killS {s : State} (h : WInv s) (d : Nat) : WInv (s.killS d) :=
  h.frame rfl rfl (fun _ => rfl)

theorem WInv.frame_increment {s : State} (h : WInv s) (b : Nat) :
    WInv (ControlBlockBase.Increment b s) :=
  h.frame rfl rfl (fun c => Increment_count_weak b s c)

theorem SharedPtr_Reset_winv {s : State} (h : WInv s) (d : Nat) : WInv (SharedPtr.Reset d s) := by
  unfold SharedPtr.Reset
  cases (s.S d).block_ with
  | none => exact h.frame_setS d _
  | some b => exact (Decrement_winv h b).frame_setS d _

theorem SharedPtr_Swap_winv {s : State} (h : WInv s) (a b : Nat) :
    WInv (SharedPtr.Swap a b s) :=
  h.frame rfl rfl (fun _ => rfl)

theorem SharedPtr_moveAssign_winv {s : State} (h : WInv s) (d src : Nat) :
    WInv (SharedPtr.moveAssign d src s) :=
  SharedPtr_Swap_winv (SharedPtr_Reset_winv h d) d src

theorem SharedPtr_dtor_winv {s : State} (h : WInv s) (d : Nat) : WInv (SharedPtr.dtor d s) := by
  unfold SharedPtr.dtor
  cases (s.S d).block_ with
  | none => exact h.frame_killS d
  | some b => exact (SharedPtr_Reset_winv h d).frame_killS d

theorem SharedPtr_copyCtor_winv {s : State} (h : WInv s) (d src : Nat) :
    WInv (SharedPtr.copyCtor d src s) := by
  unfold SharedPtr.copyCtor
  cases (s.S src).block_ with
  | none => exact h.frame_setS d _
  | some b => exact (h.frame_increment b).frame_setS d _

theorem SharedPtr_aliasCtor_winv {s : State} (h : WInv s) (d src : Nat) (p : Ptr) :
    WInv (SharedPtr.aliasCtor d src p s) := by
  unfold SharedPtr.aliasCtor
  cases (s.S src).block_ with
  | none => exact h.frame_setS d _
  | some b => exact (h.frame_increment b).frame_setS d _

theorem SharedPtr_moveCtor_winv {s : State} (h : WInv s) (d src : Nat) :
    WInv (SharedPtr.moveCtor d src s) :=
  (h.frame_setS d _).frame_setS src _

theorem SharedPtr_fromWeak_winv {s t : State} (h : WInv s) (d : Nat) (w : WAddr)
    (ht : SharedPtr.fromWeak d w s = .ok t) : WInv t := by
  unfold SharedPtr.fromWeak at ht
  cases hb : (s.W w).block_ with
  | none => simp [hb] at ht
  | some b =>
    simp only [hb] at ht
    split at ht
    · simp at ht
    · simp only [Except.ok.injEq] at ht
      subst ht
      exact (h.frame_setS d _).frame_increment b

theorem SharedPtr_copyAssign_winv {s : State} (h : WInv s) (d src : Nat) :
    WInv (SharedPtr.copyAssign d src s) := by
  unfold SharedPtr.copyAssign
  dsimp only
  cases (s.S src).block_ with
  | none =>
    dsimp only
    cases (s.S d).block_ with
    | none => exact h.frame_setS d _
    | some b => exact (Decrement_winv h b).frame_setS d _
  | some c =>
    dsimp only
    cases ((ControlBlockBase.Increment c s).S d).block_ with
    | none => exact (h.frame_increment c).frame_setS d _
    | some b => exact (Decrement_winv (h.frame_increment c) b).frame_setS d _

theorem InitWeakThis_winv {s : State} (h : WInv s) (d b : Nat)
    (hS : (s.S d).block_ = some b) : WInv (SharedPtr.InitWeakThis d b s) := by
  unfold SharedPtr.InitWeakThis
  refine WeakPtr_assignShared_winv h (.weakThis b) d ?_
  intro w c hw hc
  cases hw
  rw [hS] at hc
  exact (Option.some.inj hc).symm

theorem ctorBlockPtr_winv {s : State} (h : WInv s) (d b : Nat) (p : Ptr) :
    WInv (SharedPtr.ctorBlockPtr d b p s) := by
  unfold SharedPtr.ctorBlockPtr
  dsimp only
  split
  · exact InitWeakThis_winv (h.frame_setS d _) d b (by rw [S_setS_same])
  · exact h.frame_setS d _

theorem Lock_winv {s : State} (h : WInv s) (w : WAddr) (cur : Nat) :
    WInv (WeakPtr.Lock w cur s) := by
  unfold WeakPtr.Lock
  dsimp only
  have h1 : WInv (SharedPtr.ctorDefault cur s) := h.frame_setS cur _
  cases ((SharedPtr.ctorDefault cur s).W w).block_ with
  | none => exact h1
  | some b =>
    dsimp only
    split
    · exact SharedPtr_dtor_winv (SharedPtr_moveAssign_winv
        (ctorBlockPtr_winv (h1.frame_increment b) _ b _) cur _) _
    · exact h1

/-- No weak handle references a block that is not allocated yet. -/
theorem weakHandles_fresh (s : State)
    (hw : ∀ a w b, s.wk a = some w → w.block_ = some b → b < s.next) (c : Nat)
    (hc : s.next ≤ c) : weakHandles s.wk s.nW c = 0 := by
  have hoff : ∀ a, onBlockW c (s.wk a) = false := by
    intro a
    cases ho : onBlockW c (s.wk a) with
    | false => rfl
    | true =>
      obtain ⟨w, h1, h2⟩ := (onBlockW_true c _).1 ho
      have := hw a w c h1 h2
      omega
  unfold weakHandles
  rw [countUpTo_congr _ (fun _ => false) s.nW (fun i _ => hoff (.var i)), countUpTo_false,
    hoff (.weakThis c)]
  rfl

theorem create_winv {s : State} (h : WInv s)
    (hw : ∀ a w b, s.wk a = some w → w.block_ = some b → b < s.next) (st : Storage)
    (esft : Bool) : WInv (ControlBlockBase.create st esft s) := by
  have hz : (s.heap s.next).count_weak_ = 0 := by
    have := h.cnt.cnt s.next
    rw [weakHandles_fresh s hw s.next (le_refl _)] at this
    exact this
  have hcw : ∀ c, ((ControlBlockBase.create st esft s).heap c).count_weak_
      = (s.heap c).count_weak_ := by
    intro c
    rw [create_heap]
    by_cases e : c = s.next
    · subst e; rw [Function.update_same, hz]; rfl
    · rw [Function.update_noteq e]
  cases esft with
  | false => exact h.frame (by rw [create_wk]; rfl) (create_nW _ _ _) hcw
  | true =>
    refine h.write (.weakThis s.next) (some ⟨none⟩) ?_ (by rw [create_wk]; rfl)
      (create_nW _ _ _) (fun c => ?_)
    · intro w b hw1 hb; cases hw1; exact Option.noConfusion hb
    · rw [hcw c]
      have e1 : ¬ (onBlockW c (s.wk (.weakThis s.next)) = true) := by
        intro ho
        obtain ⟨w, h1, h2⟩ := (onBlockW_true c _).1 ho
        have h3 := hw _ w c h1 h2
        have h4 := h.cnt.own _ w c h1 h2
        omega
      have e2 : ¬ (onBlockW c (some (⟨none⟩ : WeakPtr)) = true) := Bool.false_ne_true
      rw [if_neg e1, if_neg e2]

theorem ctorPtr_winv {s : State} (h : WInv s)
    (hw : ∀ a w b, s.wk a = some w → w.block_ = some b → b < s.next) (d : Nat) (p : Ptr)
    (esft : Bool) : WInv (SharedPtr.ctorPtr d p esft s) := by
  rw [ctorPtr_eq]
  have h1 := (create_winv h hw (.pointer p) esft).frame_setS d ⟨p, some s.next⟩
  split
  · exact InitWeakThis_winv h1 d s.next (by rw [S_setS_same])
  · exact h1

theorem MakeShared_winv {s : State} (h : WInv s)
    (hw : ∀ a w b, s.wk a = some w → w.block_ = some b → b < s.next) (d buf : Nat)
    (esft : Bool) : WInv (MakeShared d buf esft s) := by
  rw [MakeShared_eq]
  have h1 := (create_winv h hw (.element buf) esft).frame_setS d ⟨some buf, some s.next⟩
  split
  · exact InitWeakThis_winv h1 d s.next (by rw [S_setS_same])
  · exact h1

theorem ResetPtr_winv {s : State} (h : WInv s)
    (hw : ∀ a w b, s.wk a = some w → w.block_ = some b → b < s.next) (d : Nat) (p : Ptr)
    (esft : Bool) : WInv (SharedPtr.ResetPtr d p esft s) := by
  unfold SharedPtr.ResetPtr
  exact SharedPtr_dtor_winv (SharedPtr_moveAssign_winv (ctorPtr_winv h hw _ p esft) d _) _

theorem init_winv (nS nW : Nat) (h : nW + 2 < SIZE) : WInv (init nS nW) := by
  refine ⟨⟨fun b => ?_, fun c w b hw _ => Option.noConfusion hw⟩, h⟩
  show 0 = weakHandles (fun _ => none) nW b
  unfold weakHandles
  rw [countUpTo_congr (fun i => onBlockW b ((fun _ => none) (WAddr.var i))) (fun _ => false) nW
    (fun _ _ => rfl), countUpTo_false]
  rfl

/-- Every statement other than a move assignment between weak handles on the
same block keeps the weak counts equal to the number of weak handles. -/
theorem step_winv (op : Op) (s t : State) (hs : Inv s) (hW : WInv s)
    (hg : weakMoveOk s op = true) (h : step op s = some t) : WInv t := by
  have hw := hs.1.wref
  cases op with
  | ctorDefault d =>
    simp only [step] at h
    split at h <;> simp only [Option.some.injEq, reduceCtorEq] at h
    subst h; exact hW.frame_setS d _
  | ctorPtr d p esft =>
    simp only [step] at h
    split at h <;> simp only [Option.some.injEq, reduceCtorEq] at h
    subst h; exact ctorPtr_winv hW hw d p esft
  | makeShared d buf esft =>
    simp only [step] at h
    split at h <;> simp only [Option.some.injEq, reduceCtorEq] at h
    subst h; exact MakeShared_winv hW hw d buf esft
  | copyCtor d src =>
    simp only [step] at h
    split at h <;> simp only [Option.some.injEq, reduceCtorEq] at h
    subst h; exact SharedPtr_copyCtor_winv hW d src
  | moveCtor d src =>
    simp only [step] at h
    split at h <;> simp only [Option.some.injEq, reduceCtorEq] at h
    subst h; exact SharedPtr_moveCtor_winv hW d src
  | aliasCtor d src p =>
    simp only [step] at h
    split at h <;> simp only [Option.some.injEq, reduceCtorEq] at h
    subst h; exact SharedPtr_aliasCtor_winv hW d src p
  | fromWeak d w =>
    simp only [step] at h
    split at h <;> [skip; simp only [reduceCtorEq] at h]
    split at h
    · rename_i u hu
      simp only [Option.some.injEq] at h
      subst h; exact SharedPtr_fromWeak_winv hW d w hu
    · simp only [Option.some.injEq] at h
      subst h; exact hW
  | lock d w =>
    simp only [step] at h
    split at h <;> simp only [Option.some.injEq, reduceCtorEq] at h
    subst h; exact Lock_winv hW w d
  | copyAssign d src =>
    simp only [step] at h
    split at h <;> simp only [Option.some.injEq, reduceCtorEq] at h
    subst h; exact SharedPtr_copyAssign_winv hW d src
  | moveAssign d src =>
    simp only [step] at h
    split at h <;> simp only [Option.some.injEq, reduceCtorEq] at h
    subst h; exact SharedPtr_moveAssign_winv hW d src
  | reset d =>
    simp only [step] at h
    split at h <;> simp only [Option.some.injEq, reduceCtorEq] at h
    subst h; exact SharedPtr_Reset_winv hW d
  | resetPtr d p esft =>
    simp only [step] at h
    split at h <;> simp only [Option.some.injEq, reduceCtorEq] at h
    subst h; exact ResetPtr_winv hW hw d p esft
  | swap a b =>
    simp only [step] at h
    split at h <;> simp only [Option.some.injEq, reduceCtorEq] at h
    subst h; exact SharedPtr_Swap_winv hW a b
  | dtor d =>
    simp only [step] at h
    split at h <;> simp only [Option.some.injEq, reduceCtorEq] at h
    subst h; exact SharedPtr_dtor_winv hW d
  | wctorDefault w =>
    simp only [step] at h
    split at h <;> simp only [Option.some.injEq, reduceCtorEq] at h
    rename_i hf
    subst h
    exact WeakPtr_ctorDefault_winv hW (.var w) (fun i e => by cases e; exact hf.1) hf.2
  | wcopyCtor w src =>
    simp only [step] at h
    split at h <;> simp only [Option.some.injEq, reduceCtorEq] at h
    rename_i hf
    subst h
    exact WeakPtr_copyCtor_winv hW (.var w) src hf.1.1 hf.1.2
  | wmoveCtor w src =>
    simp only [step] at h
    split at h <;> simp only [Option.some.injEq, reduceCtorEq] at h
    rename_i hf
    subst h
    have hne : w ≠ src := by
      rintro rfl
      exact hf.2.2 hf.1.2
    exact WeakPtr_moveCtor_winv hW w src hf.1.1 hf.2.1 hf.1.2 hne
  | wfromShared w src =>
    simp only [step] at h
    split at h <;> simp only [Option.some.injEq, reduceCtorEq] at h
    rename_i hf
    subst h
    exact WeakPtr_fromShared_winv hW (.var w) src hf.1.1 hf.1.2
  | wassignShared w src =>
    simp only [step] at h
    split at h <;> simp only [Option.some.injEq, reduceCtorEq] at h
    rename_i hf
    subst h
    exact WeakPtr_assignShared_winv hW (.var w) src hf.1.1
  | wcopyAssign w src =>
    simp only [step] at h
    split at h <;> simp only [Option.some.injEq, reduceCtorEq] at h
    rename_i hf
    subst h
    exact WeakPtr_copyAssign_winv hW (.var w) src hf.1.1
  | wmoveAssign w src =>
    simp only [step] at h
    split at h <;> simp only [Option.some.injEq, reduceCtorEq] at h
    rename_i hf
    subst h
    simp only [weakMoveOk, decide_eq_true_eq] at hg
    exact WeakPtr_moveAssign_winv hW w src hf.1.1 hf.2.1 hg
  | wreset w =>
    simp only [step] at h
    split at h <;> simp only [Option.some.injEq, reduceCtorEq] at h
    rename_i hf
    subst h
    exact WeakPtr_Reset_winv hW (.var w) (fun i e => by cases e; exact hf.1)
  | wswap a b =>
    simp only [step] at h
    split at h <;> simp only [Option.some.injEq, reduceCtorEq] at h
    rename_i hf
    subst h
    exact WeakPtr_Swap_winv hW a b hf.1.1 hf.2.1 hf.1.2 hf.2.2
  | wdtor w =>
    simp only [step] at h
    split at h <;> simp only [Option.some.injEq, reduceCtorEq] at h
    rename_i hf
    subst h
    exact WeakPtr_dtor_winv hW (.var w) (fun i e => by cases e; exact hf.1)

theorem runIf_winv (ops : List Op) (s t : State) (hs : Inv s) (hW : WInv s)
    (h : runIf weakMoveOk ops s = some t) : WInv t := by
  induction ops generalizing s with
  | nil =>
    simp only [runIf, Option.some.injEq] at h
    subst h; exact hW
  | cons op ops ih =>
    simp only [runIf] at h
    split at h <;> [skip; simp only [reduceCtorEq] at h]
    rename_i hg
    cases hstep : step op s with
    | none => rw [hstep] at h; exact Option.noConfusion h
    | some m =>
      rw [hstep] at h
      exact ih m (step_inv op s m hs hstep) (step_winv op s m hs hW hg hstep) h

/-- C15, counterexample: after `s = MakeShared<T>()` one shared handle and no
weak handle reference the block and `GetCountWeak()` is 0, not 1; with a weak
handle `w(s)` added it is 1, not 2. -/
theorem shared_handle_adds_no_weak_count :
    (run [.makeShared 0 5 false] (init 1 1)).map
        (fun s => (ControlBlockBase.GetCountWeak 0 s, countWeak s 0, countShared s 0))
      = some (0, 0, 1)
    ∧ (run [.makeShared 0 5 false, .wfromShared 0 0] (init 1 1)).map
        (fun s => (ControlBlockBase.GetCountWeak 0 s, countWeak s 0, countShared s 0))
      = some (1, 1, 1) := by
  constructor <;> rfl

/-- C15, amended: after every statement of a program that starts with no
handle alive and never move-assigns a weak handle from a weak handle on the
same block, the weak count of each control block (`GetCountWeak`) equals the
number of live weak handles that reference it, the `weak_this_` embedded in
its payload included; live shared handles add nothing to it.  An embedded
`weak_this_` references no block but its own.  The program has fewer than
`2 ^ 64 - 2` weak and fewer than `2 ^ 64 - 1` shared handle variables. -/
theorem weak_count_eq_live_weak_handles (nS nW : Nat) (ops : List Op) (s : State) (b : Nat)
    (hn : nS + 1 < SIZE) (hw : nW + 2 < SIZE)
    (hr : runIf weakMoveOk ops (init nS nW) = some s) :
    ControlBlockBase.GetCountWeak b s = countWeak s b
    ∧ ∀ c w, s.wk (.weakThis c) = some w → w.block_ = none ∨ w.block_ = some c := by
  have hW := runIf_winv ops _ s (init_inv nS nW hn) (init_winv nS nW hw) hr
  refine ⟨hW.cnt.cnt b, fun c w hwk => ?_⟩
  cases hb : w.block_ with
  | none => exact Or.inl rfl
  | some x => exact Or.inr (by rw [hW.cnt.own c w x hwk hb])

theorem weak_count_eq_live_weak_handles_witness :
    ∃ s, runIf weakMoveOk [.makeShared 0 7 true, .wfromShared 0 0, .wctorDefault 1,
        .wmoveAssign 1 0, .copyCtor 1 0, .reset 0] (init 2 2) = some s
      ∧ ControlBlockBase.GetCountWeak 0 s = countWeak s 0 ∧ countWeak s 0 = 2 := by
  refine ⟨_, rfl, ?_, rfl⟩
  exact (weak_count_eq_live_weak_handles 2 2 [.makeShared 0 7 true, .wfromShared 0 0,
    .wctorDefault 1, .wmoveAssign 1 0, .copyCtor 1 0, .reset 0] _ 0
    (by norm_num [SIZE]) (by norm_num [SIZE]) rfl).1

end SmartPtrs
